import Mathlib

/-!
# baa_save: a MEX entry point that writes a MATLAB array as a NumPy `.npy` file

Shallow embedding of `src/baa_save.cpp`.

* `std::string` and `std::wstring` values are `List Char`; `const char*` error ids and
  messages are `String`.
* `size_t`, `uint64_t`, `DWORD` values are `Nat`; where the C++ arithmetic can wrap the
  reduction `% 2 ^ 64` is written out.
* A byte is a `Nat` below 256; a buffer handed to `WriteAll` is a `List Nat`, and advancing
  the pointer is `List.drop`.
* Code that throws `MexError` returns `Except MexError _`; code that talks to Win32 threads
  an explicit state of type `σ` through a record `Win32 σ` of the API calls it makes.
-/

set_option linter.unusedVariables false

namespace BaaSave

/-! ## Errors -/

/-- The exception type of the program: a category id and a message. -/
structure MexError where
  id : String
  message : String
deriving DecidableEq, Repr

/-- Function `ThrowMex(id, message)`. -/
def ThrowMex {α : Type} (id : String) (message : String) : Except MexError α :=
  Except.error ⟨id, message⟩

/-- Function `Win32CodeToString`: the text `Win32 error <code>`. -/
def Win32CodeToString (code : Nat) : String :=
  "Win32 error " ++ toString code

/-! ## The host array, as seen through the MEX API -/

/-- The class ids of `mxClassID` that the MEX API can report. -/
inductive mxClassID where
  | mxUNKNOWN_CLASS
  | mxCELL_CLASS
  | mxSTRUCT_CLASS
  | mxLOGICAL_CLASS
  | mxCHAR_CLASS
  | mxVOID_CLASS
  | mxDOUBLE_CLASS
  | mxSINGLE_CLASS
  | mxINT8_CLASS
  | mxUINT8_CLASS
  | mxINT16_CLASS
  | mxUINT16_CLASS
  | mxINT32_CLASS
  | mxUINT32_CLASS
  | mxINT64_CLASS
  | mxUINT64_CLASS
  | mxFUNCTION_CLASS
  | mxOBJECT_CLASS
deriving DecidableEq, Repr

/-- What the program reads from an `mxArray*`: the answers of `mxGetClassID`, `mxIsComplex`,
`mxIsSparse`, `mxGetDimensions` (with `mxGetNumberOfDimensions` its length),
`mxGetNumberOfElements` and `mxGetData` (`none` is the null pointer). -/
structure mxArray where
  classID : mxClassID
  isComplex : Bool
  isSparse : Bool
  dims : List Nat
  numberOfElements : Nat
  data : Option (List Nat)
deriving DecidableEq, Repr

/-- API call `mxIsNumeric`, as the MEX API documents it: true exactly for the ten numeric
storage classes. -/
def mxIsNumeric (a : mxArray) : Bool :=
  match a.classID with
  | .mxDOUBLE_CLASS | .mxSINGLE_CLASS
  | .mxINT8_CLASS | .mxUINT8_CLASS | .mxINT16_CLASS | .mxUINT16_CLASS
  | .mxINT32_CLASS | .mxUINT32_CLASS | .mxINT64_CLASS | .mxUINT64_CLASS => true
  | _ => false

/-- API call `mxIsLogical`, as the MEX API documents it: true exactly for the logical
class. -/
def mxIsLogical (a : mxArray) : Bool :=
  match a.classID with
  | .mxLOGICAL_CLASS => true
  | _ => false

/-! ## Type mapping -/

/-- Record `struct TypeInfo`: descriptor code and item size in bytes. -/
structure TypeInfo where
  descr : List Char
  itemSize : Nat
deriving DecidableEq, Repr

/-- Function `MapType` (lines 133-171). -/
def MapType (a : mxArray) : Except MexError TypeInfo :=
  if a.isComplex then
    ThrowMex "baa_save:type" "complex arrays are not supported"
  else if a.isSparse then
    ThrowMex "baa_save:type" "sparse arrays are not supported"
  else if !mxIsNumeric a && !mxIsLogical a then
    ThrowMex "baa_save:type" "input must be numeric or logical"
  else
    match a.classID with
    | .mxDOUBLE_CLASS => .ok ⟨"<f8".toList, 8⟩
    | .mxSINGLE_CLASS => .ok ⟨"<f4".toList, 4⟩
    | .mxINT8_CLASS => .ok ⟨"|i1".toList, 1⟩
    | .mxUINT8_CLASS => .ok ⟨"|u1".toList, 1⟩
    | .mxINT16_CLASS => .ok ⟨"<i2".toList, 2⟩
    | .mxUINT16_CLASS => .ok ⟨"<u2".toList, 2⟩
    | .mxINT32_CLASS => .ok ⟨"<i4".toList, 4⟩
    | .mxUINT32_CLASS => .ok ⟨"<u4".toList, 4⟩
    | .mxINT64_CLASS => .ok ⟨"<i8".toList, 8⟩
    | .mxUINT64_CLASS => .ok ⟨"<u8".toList, 8⟩
    | .mxLOGICAL_CLASS => .ok ⟨"|b1".toList, 1⟩
    | _ => ThrowMex "baa_save:type" "unsupported MATLAB class"

/-- The eleven class ids that have a `case` label in the `switch` of `MapType`. -/
def supportedClasses : List mxClassID :=
  [.mxDOUBLE_CLASS, .mxSINGLE_CLASS, .mxINT8_CLASS, .mxUINT8_CLASS, .mxINT16_CLASS,
   .mxUINT16_CLASS, .mxINT32_CLASS, .mxUINT32_CLASS, .mxINT64_CLASS, .mxUINT64_CLASS,
   .mxLOGICAL_CLASS]

/-! ## Shape tuple -/

/-- The `for` loop of `BuildShapeTuple` (lines 179-184): `i` is the loop index, `oss` the
stream so far, `dims` the sizes from index `i` on. -/
def BuildShapeTuple.loop : List Nat → Nat → List Char → List Char
  | [], _, oss => oss
  | d :: rest, i, oss =>
    let oss1 := if i != 0 then oss ++ ", ".toList else oss
    BuildShapeTuple.loop rest (i + 1) (oss1 ++ Nat.toDigits 10 d)

/-- Function `BuildShapeTuple` (lines 173-190). -/
def BuildShapeTuple (a : mxArray) : List Char :=
  let nd := a.dims.length
  let oss := BuildShapeTuple.loop a.dims 0 "(".toList
  let oss := if nd == 1 then oss ++ ",".toList else oss
  oss ++ ")".toList

/-! ## Header -/

/-- Call `header.insert(header.end() - 1, pad, ' ')`: `pad` copies of `c` before the last
character. -/
def insertBeforeLast (header : List Char) (pad : Nat) (c : Char) : List Char :=
  header.take (header.length - 1) ++ List.replicate pad c ++ header.drop (header.length - 1)

/-- Function `BuildAlignedHeader` (lines 192-202); the sum is a `size_t` sum. -/
def BuildAlignedHeader (dict : List Char) (prefixLen : Nat) : List Char :=
  let header := dict ++ ['\n']
  let rem := ((prefixLen + header.length) % 2 ^ 64) % 16
  let pad := (16 - rem) % 16
  if pad > 0 then insertBeforeLast header pad ' ' else header

/-- Record `struct HeaderBlock`. -/
structure HeaderBlock where
  major : Nat
  minor : Nat
  header : List Char
deriving DecidableEq, Repr

/-- Function `BuildNpyHeader` (lines 210-221). -/
def BuildNpyHeader (dict : List Char) : Except MexError HeaderBlock :=
  let h1 := BuildAlignedHeader dict 10
  if h1.length ≤ 65535 then
    .ok ⟨1, 0, h1⟩
  else
    let h2 := BuildAlignedHeader dict 12
    if h2.length > 4294967295 then
      ThrowMex "baa_save:io" "header is too large for NPY v2.0"
    else
      .ok ⟨2, 0, h2⟩

/-! ## The Win32 calls the program makes -/

/-- What `WriteFile` reports: the `BOOL` result, `*lpNumberOfBytesWritten`, and the value
`GetLastError()` would give right after the call. -/
structure WriteResult where
  ok : Bool
  written : Nat
  lastError : Nat
deriving DecidableEq, Repr

/-- The Win32 API as the program uses it, over an explicit world state `σ`. A failing call
carries the code that `GetLastError()` returns right after it.

* `GetFileAttributesW path`: `none` is `INVALID_FILE_ATTRIBUTES`.
* `CreateDirectoryW path`: `.ok ()` is a nonzero return.
* `CreateFileW path` with `GENERIC_WRITE`, `CREATE_ALWAYS`: `.error code` is
  `INVALID_HANDLE_VALUE`.
* `WriteFile handle bytes`: `bytes` are the `nNumberOfBytesToWrite` bytes at the pointer.
* `WideCharToMultiByte w`: the UTF-8 conversion of `w`, `none` when it reports failure. -/
structure Win32 (σ : Type) where
  GetFileAttributesW : List Char → σ → Option Nat × σ
  CreateDirectoryW : List Char → σ → Except Nat Unit × σ
  CreateFileW : List Char → σ → Except Nat Nat × σ
  WriteFile : Nat → List Nat → σ → WriteResult × σ
  CloseHandle : Nat → σ → σ
  WideCharToMultiByte : List Char → Option String

/-- Constant `FILE_ATTRIBUTE_DIRECTORY`. -/
def FILE_ATTRIBUTE_DIRECTORY : Nat := 16

/-- Constant `ERROR_ALREADY_EXISTS`. -/
def ERROR_ALREADY_EXISTS : Nat := 183

/-- Constant `ERROR_WRITE_FAULT`. -/
def ERROR_WRITE_FAULT : Nat := 29

/-- Function `ToNarrow` (lines 30-46); the sizing call and the converting call of
`WideCharToMultiByte` are one conversion here, failing together. -/
def ToNarrow {σ : Type} (os : Win32 σ) (w : List Char) : String :=
  if w.isEmpty then ""
  else
    match os.WideCharToMultiByte w with
    | none => "<utf16-path>"
    | some out => out

/-- Function `IsSlash` (lines 76-78). -/
def IsSlash (c : Char) : Bool :=
  c == '\\' || c == '/'

/-- Function `IsDriveRoot` (lines 80-88). -/
def IsDriveRoot (path : List Char) : Bool :=
  match path with
  | [_, c1] => c1 == ':'
  | [_, c1, c2] => c1 == ':' && IsSlash c2
  | _ => false

/-- Function `PathExistsAsDirectory` (lines 90-93). -/
def PathExistsAsDirectory {σ : Type} (os : Win32 σ) (path : List Char) (s : σ) : Bool × σ :=
  match os.GetFileAttributesW path s with
  | (none, s1) => (false, s1)
  | (some attrs, s1) => (attrs &&& FILE_ATTRIBUTE_DIRECTORY != 0, s1)

/-- Call `std::wstring::find_last_of(set)`: the largest index holding a character of `set`, `none`
for `npos`. -/
def find_last_of (str : List Char) (set : List Char) : Option Nat :=
  match str with
  | [] => none
  | c :: rest =>
    match find_last_of rest set with
    | some i => some (i + 1)
    | none => if set.contains c then some 0 else none

/-- The separator set `L"\\/"`. -/
def separators : List Char := ['\\', '/']

/-- Sequencing of two steps that may throw: the second runs only if the first returned. -/
def andThen {σ : Type} (r : Except MexError Unit × σ) (k : σ → Except MexError Unit × σ) :
    Except MexError Unit × σ :=
  match r with
  | (.ok (), s) => k s
  | (.error e, s) => (.error e, s)

/-- Function `EnsureDirectoryRecursive` (lines 95-126). -/
def EnsureDirectoryRecursive {σ : Type} (os : Win32 σ) (dirPath : List Char) (s : σ) :
    Except MexError Unit × σ :=
  if dirPath.isEmpty then (.ok (), s)
  else if IsDriveRoot dirPath then (.ok (), s)
  else
    match PathExistsAsDirectory os dirPath s with
    | (true, s1) => (.ok (), s1)
    | (false, s1) =>
      let up : Except MexError Unit × σ :=
        match hsplit : find_last_of dirPath separators with
        | some split =>
          if (dirPath.take split).isEmpty then (.ok (), s1)
          else EnsureDirectoryRecursive os (dirPath.take split) s1
        | none => (.ok (), s1)
      andThen up fun s2 =>
        match os.CreateDirectoryW dirPath s2 with
        | (.ok (), s3) => (.ok (), s3)
        | (.error err, s3) =>
          if err == ERROR_ALREADY_EXISTS then
            match PathExistsAsDirectory os dirPath s3 with
            | (true, s4) => (.ok (), s4)
            | (false, s4) =>
              (ThrowMex "baa_save:io"
                ("failed to create directory '" ++ ToNarrow os dirPath ++ "': " ++
                  Win32CodeToString err), s4)
          else
            (ThrowMex "baa_save:io"
              ("failed to create directory '" ++ ToNarrow os dirPath ++ "': " ++
                Win32CodeToString err), s3)
termination_by dirPath.length
decreasing_by
  have bound : ∀ (str : List Char) (i : Nat),
      find_last_of str separators = some i → i < str.length := by
    intro str
    induction str with
    | nil => intro i h; simp [find_last_of] at h
    | cons c rest ih =>
      intro i h
      rw [find_last_of] at h
      cases hr : find_last_of rest separators with
      | some j =>
        simp only [hr, Option.some.injEq] at h
        have := ih j hr
        simp only [List.length_cons]
        omega
      | none =>
        simp only [hr] at h
        split at h
        · simp only [Option.some.injEq] at h
          simp only [List.length_cons]
          omega
        · simp at h
  have := bound dirPath split hsplit
  simp only [List.length_take]
  omega

/-- Constant `kChunk`: 64 MiB. -/
def kChunk : Nat := 64 * 1024 * 1024

/-- The `while` loop of `WriteAll` (lines 262-275): `ptr` is the buffer from the current
pointer on, `remaining` the `uint64_t` counter. -/
def WriteAll.loop {σ : Type} (os : Win32 σ) (file : Nat) (ptr : List Nat) (remaining : Nat)
    (s : σ) : Except MexError Unit × σ :=
  if hrem : remaining > 0 then
    let chunk := (min remaining kChunk) % 2 ^ 32
    let r := os.WriteFile file (ptr.take chunk) s
    if hbad : r.1.ok = false ∨ r.1.written ≠ chunk then
      let err := if r.1.ok then ERROR_WRITE_FAULT else r.1.lastError
      (ThrowMex "baa_save:io" ("failed while writing file: " ++ Win32CodeToString err), r.2)
    else
      WriteAll.loop os file (ptr.drop r.1.written) (remaining - r.1.written) r.2
  else (.ok (), s)
termination_by remaining
decreasing_by
  have hw : (os.WriteFile file (ptr.take ((min remaining kChunk) % 2 ^ 32)) s).1.written
      = (min remaining kChunk) % 2 ^ 32 := by
    by_contra hne
    exact hbad (Or.inr hne)
  rw [hw]
  simp only [kChunk]
  omega

/-- Function `WriteAll` (lines 257-276). -/
def WriteAll {σ : Type} (os : Win32 σ) (file : Nat) (data : List Nat) (nBytes : Nat) (s : σ) :
    Except MexError Unit × σ :=
  WriteAll.loop os file data nBytes s

/-! ## The conversion -/

/-- The dictionary text built at lines 281-283. -/
def HeaderDict (descr shape : List Char) : List Char :=
  "\x7b'descr': '".toList ++ descr ++ "', 'fortran_order': True, 'shape': ".toList ++ shape ++
    ", \x7d".toList

/-- Lines 286-292 of `SaveAsNpy`: ensure the directory part of `filename`. -/
def SaveAsNpy.ensureParent {σ : Type} (os : Win32 σ) (filename : List Char) (s : σ) :
    Except MexError Unit × σ :=
  match find_last_of filename separators with
  | some split =>
    if (filename.take split).isEmpty then (.ok (), s)
    else EnsureDirectoryRecursive os (filename.take split) s
  | none => (.ok (), s)

/-- The `magic` array of line 311. -/
def magic : List Nat := [0x93, 'N'.toNat, 'U'.toNat, 'M'.toNat, 'P'.toNat, 'Y'.toNat]

/-- The `lenBytes` array of lines 317-329: 2 bytes of the size cast to `uint16_t` when
`major == 1`, else 4 bytes of the size cast to `uint32_t`. -/
def lenBytes (header : HeaderBlock) : List Nat :=
  if header.major == 1 then
    let hlen := header.header.length % 2 ^ 16
    [(hlen &&& 0xFF) % 256, ((hlen >>> 8) &&& 0xFF) % 256]
  else
    let hlen := header.header.length % 2 ^ 32
    [(hlen &&& 0xFF) % 256, ((hlen >>> 8) &&& 0xFF) % 256,
     ((hlen >>> 16) &&& 0xFF) % 256, ((hlen >>> 24) &&& 0xFF) % 256]

/-- The bytes `SaveAsNpy` writes before the payload (lines 311-331): magic, version, length
field, header text. -/
def headerBytes (hb : HeaderBlock) : List Nat :=
  magic ++ [hb.major, hb.minor] ++ lenBytes hb ++ hb.header.map Char.toNat

/-- Value of a byte sequence read as a little-endian unsigned integer. -/
def littleEndian : List Nat → Nat
  | [] => 0
  | b :: rest => b + 256 * littleEndian rest

/-- Lines 311-331 of `SaveAsNpy`: magic, version, length field and header text. -/
def SaveAsNpy.writeHeader {σ : Type} (os : Win32 σ) (header : HeaderBlock) (file : Nat)
    (s : σ) : Except MexError Unit × σ :=
  andThen (WriteAll os file magic 6 s) fun s =>
  andThen (WriteAll os file [header.major, header.minor] 2 s) fun s =>
  andThen (if header.major == 1 then WriteAll os file (lenBytes header) 2 s
           else WriteAll os file (lenBytes header) 4 s) fun s =>
  WriteAll os file (header.header.map Char.toNat) header.header.length s

/-- Lines 333-344 of `SaveAsNpy`: the overflow check and the payload write. -/
def SaveAsNpy.writePayload {σ : Type} (os : Win32 σ) (a : mxArray) (type : TypeInfo)
    (file : Nat) (s : σ) : Except MexError Unit × σ :=
  let nElem := a.numberOfElements
  if type.itemSize != 0 && nElem > (2 ^ 64 - 1) / type.itemSize then
    (ThrowMex "baa_save:io" "payload size overflow", s)
  else
    let payloadBytes := (nElem * type.itemSize) % 2 ^ 64
    if payloadBytes > 0 then
      match a.data with
      | none => (ThrowMex "baa_save:io" "input data pointer is null", s)
      | some payload => WriteAll os file payload payloadBytes s
    else (.ok (), s)

/-- Lines 311-344 of `SaveAsNpy`: everything written through the open handle. -/
def SaveAsNpy.writeContents {σ : Type} (os : Win32 σ) (a : mxArray) (type : TypeInfo)
    (header : HeaderBlock) (file : Nat) (s : σ) : Except MexError Unit × σ :=
  andThen (SaveAsNpy.writeHeader os header file s) fun s =>
  SaveAsNpy.writePayload os a type file s

/-- Function `SaveAsNpy` (lines 278-345). The `ScopedHandle` closes the handle on every path that
leaves the function after `CreateFileW` returned a valid handle. -/
def SaveAsNpy {σ : Type} (os : Win32 σ) (a : mxArray) (filename : List Char) (s : σ) :
    Except MexError Unit × σ :=
  match MapType a with
  | .error e => (.error e, s)
  | .ok type =>
    let shape := BuildShapeTuple a
    let dict := HeaderDict type.descr shape
    match BuildNpyHeader dict with
    | .error e => (.error e, s)
    | .ok header =>
      andThen (SaveAsNpy.ensureParent os filename s) fun s1 =>
        match os.CreateFileW filename s1 with
        | (.error err, s2) =>
          (ThrowMex "baa_save:io"
            ("failed to open output file '" ++ ToNarrow os filename ++ "': " ++
              Win32CodeToString err), s2)
        | (.ok file, s2) =>
          let r := SaveAsNpy.writeContents os a type header file s2
          (r.1, os.CloseHandle file r.2)

/-! ## An explicit file system

A reference behaviour of the Win32 calls, used where a statement is about the bytes that end
up in a file: directories and files are keyed by the literal path text, creating a directory
or a file succeeds when the parent of the path exists, and `WriteFile` always transfers the
whole request, appending it to the file the handle was opened on. -/

/-- State of the explicit file system. -/
structure Disk where
  isDir : List Char → Bool
  file : List Char → Option (List Nat)
  handle : Nat → Option (List Char)
  nextHandle : Nat

/-- Constant `ERROR_PATH_NOT_FOUND`. -/
def ERROR_PATH_NOT_FOUND : Nat := 3

/-- Constant `ERROR_ACCESS_DENIED`. -/
def ERROR_ACCESS_DENIED : Nat := 5

/-- Constant `ERROR_INVALID_HANDLE`. -/
def ERROR_INVALID_HANDLE : Nat := 6

/-- Constant `FILE_ATTRIBUTE_NORMAL`. -/
def FILE_ATTRIBUTE_NORMAL : Nat := 128

/-- A volume root of the explicit file system: the text `X:`, `X:\` or `X:/` for one
character `X`. Volume roots always exist. -/
def Disk.isVolumeRoot (path : List Char) : Bool :=
  match path with
  | [_, ':'] => true
  | [_, ':', '\\'] => true
  | [_, ':', '/'] => true
  | _ => false

/-- The parent of `path` exists: `path` has no separator (it is relative to the current
directory), or the text before its last separator is empty, a volume root, or a directory. -/
def Disk.parentExists (d : Disk) (path : List Char) : Bool :=
  match find_last_of path separators with
  | none => true
  | some split =>
    (path.take split).isEmpty || Disk.isVolumeRoot (path.take split)
      || d.isDir (path.take split)

/-- Call `GetFileAttributesW` on the explicit file system. -/
def Disk.GetFileAttributesW (path : List Char) (d : Disk) : Option Nat × Disk :=
  if d.isDir path then (some FILE_ATTRIBUTE_DIRECTORY, d)
  else if (d.file path).isSome then (some FILE_ATTRIBUTE_NORMAL, d)
  else (none, d)

/-- Call `CreateDirectoryW` on the explicit file system. -/
def Disk.CreateDirectoryW (path : List Char) (d : Disk) : Except Nat Unit × Disk :=
  if d.isDir path || (d.file path).isSome then (.error ERROR_ALREADY_EXISTS, d)
  else if d.parentExists path then
    (.ok (), { d with isDir := fun p => if p = path then true else d.isDir p })
  else (.error ERROR_PATH_NOT_FOUND, d)

/-- Call `CreateFileW` with `CREATE_ALWAYS` on the explicit file system: the file is created or
truncated to length 0 and a fresh handle is returned. -/
def Disk.CreateFileW (path : List Char) (d : Disk) : Except Nat Nat × Disk :=
  if d.isDir path then (.error ERROR_ACCESS_DENIED, d)
  else if d.parentExists path then
    (.ok d.nextHandle,
      { d with
        file := fun p => if p = path then some [] else d.file p
        handle := fun h => if h = d.nextHandle then some path else d.handle h
        nextHandle := d.nextHandle + 1 })
  else (.error ERROR_PATH_NOT_FOUND, d)

/-- Call `WriteFile` on the explicit file system: the whole request is appended. -/
def Disk.WriteFile (h : Nat) (bytes : List Nat) (d : Disk) : WriteResult × Disk :=
  match d.handle h with
  | none => (⟨false, 0, ERROR_INVALID_HANDLE⟩, d)
  | some path =>
    (⟨true, bytes.length, 0⟩,
      { d with file := fun p => if p = path then some ((d.file path).getD [] ++ bytes)
                                else d.file p })

/-- Call `CloseHandle` on the explicit file system. -/
def Disk.CloseHandle (h : Nat) (d : Disk) : Disk :=
  { d with handle := fun k => if k = h then none else d.handle k }

/-- The explicit file system as a `Win32` record; the path conversion used in messages
keeps the text as it is. -/
def Disk.win32 : Win32 Disk where
  GetFileAttributesW := Disk.GetFileAttributesW
  CreateDirectoryW := Disk.CreateDirectoryW
  CreateFileW := Disk.CreateFileW
  WriteFile := Disk.WriteFile
  CloseHandle := Disk.CloseHandle
  WideCharToMultiByte := fun w => some (String.mk w)

/-- The empty file system: no directory, no file, no open handle. -/
def Disk.empty : Disk where
  isDir := fun _ => false
  file := fun _ => none
  handle := fun _ => none
  nextHandle := 0

/-! ## Reading a shape tuple back -/

/-- One step of reading an unsigned decimal number: append the digit `c` to the value `acc`. -/
def parseShapeTuple.digit (acc : Nat) (c : Char) : Nat :=
  10 * acc + (c.toNat - '0'.toNat)

/-- Reader of the inside of a Python tuple literal of unsigned decimal integers, after the
opening parenthesis: `acc` holds the items read so far, `cur` the item being read, `comma`
whether a comma was seen. Items are separated by a comma and optional spaces, a trailing
comma is allowed, and a single item without any comma is not a tuple. -/
def parseShapeTuple.go : List Char → List Nat → Option Nat → Bool → Option (List Nat)
  | [], _, _, _ => none
  | c :: rest, acc, cur, comma =>
    if c.isDigit then
      parseShapeTuple.go rest acc (some (parseShapeTuple.digit (cur.getD 0) c)) comma
    else if c = ',' then
      match cur with
      | some v => parseShapeTuple.go rest (acc ++ [v]) none true
      | none => none
    else if c = ' ' then
      match cur with
      | none => parseShapeTuple.go rest acc none comma
      | some _ => none
    else if c = ')' then
      if rest.isEmpty then
        match cur with
        | some v => if acc.isEmpty && !comma then none else some (acc ++ [v])
        | none => some acc
      else none
    else none

/-- Reader of a Python tuple literal of unsigned decimal integers. -/
def parseShapeTuple (text : List Char) : Option (List Nat) :=
  match text with
  | '(' :: rest => parseShapeTuple.go rest [] none false
  | _ => none

/-! ## Recording the Win32 calls -/

/-- One Win32 call together with what it reported. -/
inductive Win32Call where
  | GetFileAttributesW (path : List Char) (result : Option Nat)
  | CreateDirectoryW (path : List Char) (result : Except Nat Unit)
  | CreateFileW (path : List Char) (result : Except Nat Nat)
  | WriteFile (handle : Nat) (bytes : List Nat) (result : WriteResult)
  | CloseHandle (handle : Nat)

/-- The same Win32 behaviour as `os`, with every call appended to a log kept next to the
state of `os`. -/
def Win32.logged {σ : Type} (os : Win32 σ) : Win32 (σ × List Win32Call) where
  GetFileAttributesW := fun path s =>
    ((os.GetFileAttributesW path s.1).1,
      ((os.GetFileAttributesW path s.1).2,
        s.2 ++ [Win32Call.GetFileAttributesW path (os.GetFileAttributesW path s.1).1]))
  CreateDirectoryW := fun path s =>
    ((os.CreateDirectoryW path s.1).1,
      ((os.CreateDirectoryW path s.1).2,
        s.2 ++ [Win32Call.CreateDirectoryW path (os.CreateDirectoryW path s.1).1]))
  CreateFileW := fun path s =>
    ((os.CreateFileW path s.1).1,
      ((os.CreateFileW path s.1).2,
        s.2 ++ [Win32Call.CreateFileW path (os.CreateFileW path s.1).1]))
  WriteFile := fun h bytes s =>
    ((os.WriteFile h bytes s.1).1,
      ((os.WriteFile h bytes s.1).2,
        s.2 ++ [Win32Call.WriteFile h bytes (os.WriteFile h bytes s.1).1]))
  CloseHandle := fun h s => (os.CloseHandle h s.1, s.2 ++ [Win32Call.CloseHandle h])
  WideCharToMultiByte := os.WideCharToMultiByte

/-- The paths of the directory-creation attempts in a log, in call order. -/
def createDirectoryCalls : List Win32Call → List (List Char)
  | [] => []
  | Win32Call.CreateDirectoryW path _ :: rest => path :: createDirectoryCalls rest
  | _ :: rest => createDirectoryCalls rest

/-- The `WriteFile` calls of a log, in call order: handle, bytes requested, result. -/
def writeFileCalls : List Win32Call → List (Nat × List Nat × WriteResult)
  | [] => []
  | Win32Call.WriteFile h bytes r :: rest => (h, bytes, r) :: writeFileCalls rest
  | _ :: rest => writeFileCalls rest

/-- A `WriteFile` call that transferred the whole request. -/
def WriteResult.full (bytes : List Nat) (r : WriteResult) : Prop :=
  r.ok = true ∧ r.written = bytes.length

/-- A writer that reports success for every `WriteFile` call but transfers one byte fewer
than requested; the other calls succeed without effect. -/
def shortWriter : Win32 Unit where
  GetFileAttributesW := fun _ s => (some FILE_ATTRIBUTE_DIRECTORY, s)
  CreateDirectoryW := fun _ s => (.ok (), s)
  CreateFileW := fun _ s => (.ok 0, s)
  WriteFile := fun _ bytes s => (⟨true, bytes.length - 1, 0⟩, s)
  CloseHandle := fun _ s => s
  WideCharToMultiByte := fun w => some (String.mk w)

/-- Number of separator characters in a path. -/
def separatorCount (path : List Char) : Nat :=
  (path.filter IsSlash).length

/-- A reliable sequential writer: the state is the bytes written so far, every `WriteFile`
transfers the whole request, and the other calls succeed without effect. -/
def reliableWriter : Win32 (List Nat) where
  GetFileAttributesW := fun _ s => (some FILE_ATTRIBUTE_DIRECTORY, s)
  CreateDirectoryW := fun _ s => (.ok (), s)
  CreateFileW := fun _ s => (.ok 0, s)
  WriteFile := fun _ bytes s => (⟨true, bytes.length, 0⟩, s ++ bytes)
  CloseHandle := fun _ s => s
  WideCharToMultiByte := fun w => some (String.mk w)

/-! ## The recursion of `EnsureDirectoryRecursive`, made explicit -/

/-- Lines 114-125 of `EnsureDirectoryRecursive`: the creation attempt for `dirPath` itself,
made after the parent has been ensured. -/
def EnsureDirectoryRecursive.create {σ : Type} (os : Win32 σ) (dirPath : List Char) (s2 : σ) :
    Except MexError Unit × σ :=
  match os.CreateDirectoryW dirPath s2 with
  | (.ok (), s3) => (.ok (), s3)
  | (.error err, s3) =>
    if err == ERROR_ALREADY_EXISTS then
      match PathExistsAsDirectory os dirPath s3 with
      | (true, s4) => (.ok (), s4)
      | (false, s4) =>
        (ThrowMex "baa_save:io"
          ("failed to create directory '" ++ ToNarrow os dirPath ++ "': " ++
            Win32CodeToString err), s4)
    else
      (ThrowMex "baa_save:io"
        ("failed to create directory '" ++ ToNarrow os dirPath ++ "': " ++
          Win32CodeToString err), s3)

/-- The function `EnsureDirectoryRecursive` with a bound on the number of nested calls:
`none` when a call would nest deeper than `depth`. -/
def EnsureDirectoryRecursive.bounded {σ : Type} (os : Win32 σ) :
    Nat → List Char → σ → Option (Except MexError Unit × σ)
  | 0, _, _ => none
  | depth + 1, dirPath, s =>
    if dirPath.isEmpty then some (.ok (), s)
    else if IsDriveRoot dirPath then some (.ok (), s)
    else
      match PathExistsAsDirectory os dirPath s with
      | (true, s1) => some (.ok (), s1)
      | (false, s1) =>
        let up : Option (Except MexError Unit × σ) :=
          match find_last_of dirPath separators with
          | some split =>
            if (dirPath.take split).isEmpty then some (.ok (), s1)
            else EnsureDirectoryRecursive.bounded os depth (dirPath.take split) s1
          | none => some (.ok (), s1)
        up.map fun r => andThen r fun s2 => EnsureDirectoryRecursive.create os dirPath s2

/-! ## The entry point -/

/-- API call `mxIsChar`, as the MEX API documents it: true exactly for the char class. -/
def mxIsChar (a : mxArray) : Bool :=
  match a.classID with
  | .mxCHAR_CLASS => true
  | _ => false

/-- API call `mxGetM`, as the MEX API documents it: the first dimension. -/
def mxGetM (a : mxArray) : Nat :=
  a.dims.headD 0

/-- API call `mxGetN`, as the MEX API documents it: the product of the remaining
dimensions. -/
def mxGetN (a : mxArray) : Nat :=
  (a.dims.drop 1).foldl (fun x y => x * y) 1

/-- API call `mxGetChars`: the buffer of a char array, one entry for each 16-bit `mxChar`;
`none` is the null pointer. -/
def mxGetChars (a : mxArray) : Option (List Nat) :=
  a.data

/-- Function `MatlabCharToWString` (lines 54-74). -/
def MatlabCharToWString (arr : mxArray) : Except MexError (List Char) :=
  if !mxIsChar arr then
    ThrowMex "baa_save:type" "filename must be a MATLAB char vector"
  else if arr.dims.length != 2 || (mxGetM arr != 1 && mxGetN arr != 1) then
    ThrowMex "baa_save:type" "filename must be a MATLAB char vector"
  else
    let nChars := arr.numberOfElements
    match mxGetChars arr with
    | none =>
      if nChars != 0 then ThrowMex "baa_save:io" "failed to read filename buffer"
      else .ok []
    | some chars => .ok ((List.range nChars).map fun i => Char.ofNat (chars.getD i 0))

/-- What a `catch` clause of `mexFunction` can receive: a `MexError`, another
`std::exception` with its `what()` text, or anything else. -/
inductive Thrown where
  | mex (e : MexError)
  | std (what : String)
  | other

/-- The three `catch` clauses of `mexFunction` (lines 363-369): the id and message handed to
`mexErrMsgIdAndTxt`. -/
def mexFunction.report : Thrown → MexError
  | .mex e => ⟨e.id, e.message⟩
  | .std what => ⟨"baa_save:io", what⟩
  | .other => ⟨"baa_save:io", "unknown error"⟩

/-- The `try` block of `mexFunction` (lines 351-362); `nrhs` is the length of `prhs`. -/
def mexFunction.body {σ : Type} (os : Win32 σ) (nlhs : Int) (prhs : List mxArray) (s : σ) :
    Except MexError Unit × σ :=
  if nlhs != 0 then
    (ThrowMex "baa_save:usage" "baa_save does not return outputs", s)
  else
    match prhs with
    | [a, fname] =>
      match MatlabCharToWString fname with
      | .error e => (.error e, s)
      | .ok filename => SaveAsNpy os a filename s
    | _ => (ThrowMex "baa_save:usage" "usage: baa_save(a, filename)", s)

/-- Function `mexFunction` (lines 349-370): the error of the result is what is handed to
`mexErrMsgIdAndTxt`. -/
def mexFunction {σ : Type} (os : Win32 σ) (nlhs : Int) (prhs : List mxArray) (s : σ) :
    Except MexError Unit × σ :=
  match mexFunction.body os nlhs prhs s with
  | (.ok (), s1) => (.ok (), s1)
  | (.error e, s1) => (.error (mexFunction.report (.mex e)), s1)

/-- The result of a run over a logged file system with the log dropped. -/
def unlog {σ : Type} (r : Except MexError Unit × (σ × List Win32Call)) :
    Except MexError Unit × σ :=
  (r.1, r.2.1)

/-- The text before the last separator of a path, empty when it has no separator. -/
def parentOf (path : List Char) : List Char :=
  match find_last_of path separators with
  | some split => path.take split
  | none => []

/-- The list `created` is the chain of missing ancestors of `path` on the file system `d`,
outermost first: each entry is the text before the last separator of the next one, the last
entry is `path` itself, every entry is non-empty and neither a volume root (`X:`, `X:\`,
`X:/`) nor a directory of `d`, the walk up stops where the text before the last separator of
the first entry is empty, a volume root or a directory of `d`, and the chain is empty exactly
when `path` itself is empty, a volume root or a directory of `d`. -/
def MissingChain (d : Disk) (path : List Char) (created : List (List Char)) : Prop :=
  List.Chain' (fun x y => x = parentOf y) created
  ∧ (∀ q ∈ created, q ≠ [] ∧ d.isDir q = false ∧ Disk.isVolumeRoot q = false)
  ∧ (∀ q, created.getLast? = some q → q = path)
  ∧ (∀ q, created.head? = some q →
      parentOf q = [] ∨ Disk.isVolumeRoot (parentOf q) = true ∨ d.isDir (parentOf q) = true)
  ∧ (created = [] ↔ (path = [] ∨ Disk.isVolumeRoot path = true ∨ d.isDir path = true))

/-- The path `q` is `path` itself or one of its ancestors: `path`, the text before its last
separator, the text before the last separator of that, and so on. -/
inductive AncestorOrSelf : List Char → List Char → Prop where
  | self (path : List Char) : AncestorOrSelf path path
  | up (q path : List Char) : AncestorOrSelf q (parentOf path) → AncestorOrSelf q path

/-- Since the log was `log`, the run `r` has made no directory-creation call. -/
def NoCreateSince {σ : Type} (log : List Win32Call)
    (r : Except MexError Unit × (σ × List Win32Call)) : Prop :=
  ∃ evs, r.2.2 = log ++ evs ∧ createDirectoryCalls evs = []

/-! ## Lemmas on the header padding -/

theorem insertBeforeLast_snoc (l : List Char) (x : Char) (pad : Nat) (c : Char) :
    insertBeforeLast (l ++ [x]) pad c = l ++ List.replicate pad c ++ [x] := by
  simp [insertBeforeLast]

theorem BuildAlignedHeader_eq (dict : List Char) (prefixLen : Nat) :
    BuildAlignedHeader dict prefixLen
      = dict ++ List.replicate ((16 - (prefixLen + dict.length + 1) % 16) % 16) ' ' ++ ['\n'] := by
  have hmod : ((prefixLen + (dict ++ ['\n']).length) % 2 ^ 64) % 16
      = (prefixLen + dict.length + 1) % 16 := by
    simp only [List.length_append, List.length_singleton]
    omega
  unfold BuildAlignedHeader
  simp only [hmod]
  split
  · exact insertBeforeLast_snoc _ _ _ _
  · rename_i h
    have h0 : (16 - (prefixLen + dict.length + 1) % 16) % 16 = 0 := by omega
    simp [h0]

theorem BuildAlignedHeader_length (dict : List Char) (prefixLen : Nat) :
    (BuildAlignedHeader dict prefixLen).length
      = dict.length + (16 - (prefixLen + dict.length + 1) % 16) % 16 + 1 := by
  rw [BuildAlignedHeader_eq]
  simp only [List.length_append, List.length_replicate, List.length_singleton]

theorem BuildAlignedHeader_aligned (dict : List Char) (prefixLen : Nat) :
    (prefixLen + (BuildAlignedHeader dict prefixLen).length) % 16 = 0 := by
  rw [BuildAlignedHeader_length]
  omega

theorem BuildAlignedHeader_getLast (dict : List Char) (prefixLen : Nat) :
    (BuildAlignedHeader dict prefixLen).getLast? = some '\n' := by
  rw [BuildAlignedHeader_eq]
  simp

/-! ## Lemmas on version selection -/

theorem BuildNpyHeader_v1 (dict : List Char)
    (h : (BuildAlignedHeader dict 10).length ≤ 65535) :
    BuildNpyHeader dict = .ok ⟨1, 0, BuildAlignedHeader dict 10⟩ := by
  simp [BuildNpyHeader, h]

theorem BuildNpyHeader_v2 (dict : List Char)
    (h1 : 65535 < (BuildAlignedHeader dict 10).length)
    (h2 : (BuildAlignedHeader dict 12).length ≤ 4294967295) :
    BuildNpyHeader dict = .ok ⟨2, 0, BuildAlignedHeader dict 12⟩ := by
  have h1n : ¬ (BuildAlignedHeader dict 10).length ≤ 65535 := by omega
  have h2n : ¬ (BuildAlignedHeader dict 12).length > 4294967295 := by omega
  simp only [BuildNpyHeader, h1n, h2n, if_false]

theorem BuildNpyHeader_tooLarge (dict : List Char)
    (h1 : 65535 < (BuildAlignedHeader dict 10).length)
    (h2 : 4294967295 < (BuildAlignedHeader dict 12).length) :
    BuildNpyHeader dict
      = .error ⟨"baa_save:io", "header is too large for NPY v2.0"⟩ := by
  have h1n : ¬ (BuildAlignedHeader dict 10).length ≤ 65535 := by omega
  have h2n : (BuildAlignedHeader dict 12).length > 4294967295 := h2
  simp only [BuildNpyHeader, h1n, h2n, if_false, if_true, ThrowMex]

theorem BuildNpyHeader_cases (dict : List Char) :
    ((BuildAlignedHeader dict 10).length ≤ 65535 ∧
      BuildNpyHeader dict = .ok ⟨1, 0, BuildAlignedHeader dict 10⟩) ∨
    (65535 < (BuildAlignedHeader dict 10).length ∧
      (BuildAlignedHeader dict 12).length ≤ 4294967295 ∧
      BuildNpyHeader dict = .ok ⟨2, 0, BuildAlignedHeader dict 12⟩) ∨
    (65535 < (BuildAlignedHeader dict 10).length ∧
      4294967295 < (BuildAlignedHeader dict 12).length ∧
      BuildNpyHeader dict = .error ⟨"baa_save:io", "header is too large for NPY v2.0"⟩) := by
  by_cases h1 : (BuildAlignedHeader dict 10).length ≤ 65535
  · exact Or.inl ⟨h1, BuildNpyHeader_v1 dict h1⟩
  · by_cases h2 : (BuildAlignedHeader dict 12).length ≤ 4294967295
    · exact Or.inr (Or.inl ⟨by omega, h2, BuildNpyHeader_v2 dict (by omega) h2⟩)
    · exact Or.inr (Or.inr ⟨by omega, by omega, BuildNpyHeader_tooLarge dict (by omega) (by omega)⟩)

theorem lenBytes_length (hb : HeaderBlock) :
    (lenBytes hb).length = if hb.major = 1 then 2 else 4 := by
  unfold lenBytes
  by_cases h : hb.major = 1 <;> simp [h]

/-! ## Claims -/

/-- C8: `BuildAlignedHeader dict prefixLen` is `dict`, then
`k = (16 - (prefixLen + length dict + 1) mod 16) mod 16` spaces, then one newline; `k` is at
most 15, achieves the alignment, and no smaller number of spaces does; `dict` is a prefix of
the header. -/
theorem C8_BuildAlignedHeader_padding (dict : List Char) (prefixLen : Nat) :
    BuildAlignedHeader dict prefixLen
        = dict ++ List.replicate ((16 - (prefixLen + dict.length + 1) % 16) % 16) ' ' ++ ['\n']
    ∧ (16 - (prefixLen + dict.length + 1) % 16) % 16 ≤ 15
    ∧ (prefixLen + (dict ++ List.replicate ((16 - (prefixLen + dict.length + 1) % 16) % 16) ' '
          ++ ['\n']).length) % 16 = 0
    ∧ (∀ j : Nat, (prefixLen + (dict ++ List.replicate j ' ' ++ ['\n']).length) % 16 = 0 →
          (16 - (prefixLen + dict.length + 1) % 16) % 16 ≤ j)
    ∧ dict <+: BuildAlignedHeader dict prefixLen := by
  refine ⟨BuildAlignedHeader_eq dict prefixLen, by omega, ?_, ?_, ?_⟩
  · simp only [List.length_append, List.length_replicate, List.length_singleton]
    omega
  · intro j hj
    simp only [List.length_append, List.length_replicate, List.length_singleton] at hj
    omega
  · rw [BuildAlignedHeader_eq, List.append_assoc]
    exact List.prefix_append _ _

/-- C2: a block returned by `BuildNpyHeader` has major version 1 or 2, its header length plus
the prefix length (10 for major 1, 12 for major 2) is a multiple of 16, and its header ends
with a newline; and every `BuildAlignedHeader dict prefixLen` has `prefixLen + length`
a multiple of 16 and ends with a newline. -/
theorem C2_header_alignment (dict : List Char) (hb : HeaderBlock)
    (h : BuildNpyHeader dict = .ok hb) :
    (hb.major = 1 ∨ hb.major = 2)
    ∧ ((if hb.major = 1 then 10 else 12) + hb.header.length) % 16 = 0
    ∧ hb.header.getLast? = some '\n'
    ∧ (∀ (d : List Char) (prefixLen : Nat),
        (prefixLen + (BuildAlignedHeader d prefixLen).length) % 16 = 0
        ∧ (BuildAlignedHeader d prefixLen).getLast? = some '\n') := by
  have hall : ∀ (d : List Char) (prefixLen : Nat),
      (prefixLen + (BuildAlignedHeader d prefixLen).length) % 16 = 0
      ∧ (BuildAlignedHeader d prefixLen).getLast? = some '\n' :=
    fun d p => ⟨BuildAlignedHeader_aligned d p, BuildAlignedHeader_getLast d p⟩
  rcases BuildNpyHeader_cases dict with ⟨_, h1⟩ | ⟨_, _, h2⟩ | ⟨_, _, h3⟩
  · rw [h1] at h
    cases h
    exact ⟨Or.inl rfl, (hall dict 10).1, (hall dict 10).2, hall⟩
  · rw [h2] at h
    cases h
    exact ⟨Or.inr rfl, (hall dict 12).1, (hall dict 12).2, hall⟩
  · rw [h3] at h
    cases h

/-- Witness for C2 at the dictionary of a 1x1 double array. -/
theorem C2_header_alignment_witness :
    BuildNpyHeader "\x7b'descr': '<f8', 'fortran_order': True, 'shape': (1, 1), \x7d".toList
      = .ok ⟨1, 0, BuildAlignedHeader
          "\x7b'descr': '<f8', 'fortran_order': True, 'shape': (1, 1), \x7d".toList 10⟩
    ∧ (10 + (BuildAlignedHeader
          "\x7b'descr': '<f8', 'fortran_order': True, 'shape': (1, 1), \x7d".toList 10).length) % 16 = 0
    ∧ (BuildAlignedHeader
          "\x7b'descr': '<f8', 'fortran_order': True, 'shape': (1, 1), \x7d".toList 10).getLast?
        = some '\n' :=
  ⟨by rfl,
   (C2_header_alignment "\x7b'descr': '<f8', 'fortran_order': True, 'shape': (1, 1), \x7d".toList
      ⟨1, 0, BuildAlignedHeader
        "\x7b'descr': '<f8', 'fortran_order': True, 'shape': (1, 1), \x7d".toList 10⟩ (by rfl)).2.1,
   (C2_header_alignment "\x7b'descr': '<f8', 'fortran_order': True, 'shape': (1, 1), \x7d".toList
      ⟨1, 0, BuildAlignedHeader
        "\x7b'descr': '<f8', 'fortran_order': True, 'shape': (1, 1), \x7d".toList 10⟩ (by rfl)).2.2.1⟩

/-- C9: `BuildNpyHeader` fails exactly when the version-1.0 padded length exceeds 65535 and
the version-2.0 padded length exceeds 4294967295, and then with the I/O category and the
header-too-large message; in every other case it returns a block; a returned block of major
version 2 carries `BuildAlignedHeader dict 12`. -/
theorem C9_BuildNpyHeader_failure (dict : List Char) :
    ((∃ e, BuildNpyHeader dict = .error e) ↔
        (65535 < (BuildAlignedHeader dict 10).length
          ∧ 4294967295 < (BuildAlignedHeader dict 12).length))
    ∧ (∀ e, BuildNpyHeader dict = .error e →
        e = ⟨"baa_save:io", "header is too large for NPY v2.0"⟩)
    ∧ (¬ (65535 < (BuildAlignedHeader dict 10).length
          ∧ 4294967295 < (BuildAlignedHeader dict 12).length) →
        ∃ hb, BuildNpyHeader dict = .ok hb)
    ∧ (∀ hb, BuildNpyHeader dict = .ok hb → hb.major = 2 →
        hb.header = BuildAlignedHeader dict 12) := by
  rcases BuildNpyHeader_cases dict with ⟨hl, h1⟩ | ⟨hl1, hl2, h2⟩ | ⟨hl1, hl2, h3⟩
  · refine ⟨⟨?_, ?_⟩, ?_, ?_, ?_⟩
    · rintro ⟨e, he⟩
      rw [h1] at he
      cases he
    · rintro ⟨hgt, _⟩
      omega
    · intro e he
      rw [h1] at he
      cases he
    · intro _
      exact ⟨_, h1⟩
    · intro hb hok hmaj
      rw [h1] at hok
      cases hok
      cases hmaj
  · refine ⟨⟨?_, ?_⟩, ?_, ?_, ?_⟩
    · rintro ⟨e, he⟩
      rw [h2] at he
      cases he
    · rintro ⟨_, hgt⟩
      omega
    · intro e he
      rw [h2] at he
      cases he
    · intro _
      exact ⟨_, h2⟩
    · intro hb hok _
      rw [h2] at hok
      cases hok
      rfl
  · refine ⟨⟨?_, ?_⟩, ?_, ?_, ?_⟩
    · intro _
      exact ⟨hl1, hl2⟩
    · intro _
      exact ⟨_, h3⟩
    · intro e he
      rw [h3] at he
      cases he
      rfl
    · intro hn
      exact absurd ⟨hl1, hl2⟩ hn
    · intro hb hok _
      rw [h3] at hok
      cases hok

theorem BuildNpyHeader_of_length_65530 (dict : List Char) (h : dict.length = 65530) :
    dict.length + 1 ≤ 65535
    ∧ 65535 < (BuildAlignedHeader dict 10).length
    ∧ BuildNpyHeader dict = .ok ⟨2, 0, BuildAlignedHeader dict 12⟩ := by
  have h1 : (BuildAlignedHeader dict 10).length = 65542 := by
    rw [BuildAlignedHeader_length, h]
  have h2 : (BuildAlignedHeader dict 12).length = 65540 := by
    rw [BuildAlignedHeader_length, h]
  exact ⟨by omega, by omega, BuildNpyHeader_v2 dict (by omega) (by omega)⟩

theorem BuildNpyHeader_of_length_2pow32 (dict : List Char) (h : dict.length = 4294967296) :
    65535 < (BuildAlignedHeader dict 10).length
    ∧ BuildNpyHeader dict = .error ⟨"baa_save:io", "header is too large for NPY v2.0"⟩ := by
  have h1 : (BuildAlignedHeader dict 10).length = 4294967302 := by
    rw [BuildAlignedHeader_length, h]
  have h2 : (BuildAlignedHeader dict 12).length = 4294967300 := by
    rw [BuildAlignedHeader_length, h]
  exact ⟨by omega, BuildNpyHeader_tooLarge dict (by omega) (by omega)⟩

/-- C3, as stated, fails: for the dictionary of 4294967296 characters `x` the version-1.0
padded length exceeds 65535, yet `BuildNpyHeader` returns no block at all (it throws the
header-too-large error), so it does not select major version 2. -/
theorem C3_counterexample :
    65535 < (BuildAlignedHeader (List.replicate 4294967296 'x') 10).length
    ∧ BuildNpyHeader (List.replicate 4294967296 'x')
        = .error ⟨"baa_save:io", "header is too large for NPY v2.0"⟩
    ∧ ¬ ∃ hb, BuildNpyHeader (List.replicate 4294967296 'x') = .ok hb ∧ hb.major = 2 := by
  have h := BuildNpyHeader_of_length_2pow32 (List.replicate 4294967296 'x')
    (List.length_replicate _ _)
  refine ⟨h.1, h.2, ?_⟩
  rintro ⟨hb, hok, _⟩
  rw [h.2] at hok
  cases hok

/-- C3, amended: with `L1` the version-1.0 padded length, `L1` is never 65535; if `L1` is
below 65535 `BuildNpyHeader` returns major 1, minor 0 and the version-1.0 padded header (and
the length field has 2 bytes); if `L1` exceeds 65535 and the version-2.0 padded length is at
most 4294967295 it returns major 2, minor 0 and the version-2.0 padded header (and the length
field has 4 bytes); the version of a returned block depends on `L1` only; and a dictionary of
65530 characters, whose length plus newline is at most 65535, gets version 2. -/
theorem C3_version_selection (dict : List Char) :
    (BuildAlignedHeader dict 10).length ≠ 65535
    ∧ ((BuildAlignedHeader dict 10).length < 65535 →
        BuildNpyHeader dict = .ok ⟨1, 0, BuildAlignedHeader dict 10⟩
        ∧ (lenBytes ⟨1, 0, BuildAlignedHeader dict 10⟩).length = 2)
    ∧ (65535 < (BuildAlignedHeader dict 10).length →
        (BuildAlignedHeader dict 12).length ≤ 4294967295 →
        BuildNpyHeader dict = .ok ⟨2, 0, BuildAlignedHeader dict 12⟩
        ∧ (lenBytes ⟨2, 0, BuildAlignedHeader dict 12⟩).length = 4)
    ∧ (∀ (dict2 : List Char) (hb hb2 : HeaderBlock),
        (BuildAlignedHeader dict2 10).length = (BuildAlignedHeader dict 10).length →
        BuildNpyHeader dict = .ok hb → BuildNpyHeader dict2 = .ok hb2 →
        hb.major = hb2.major ∧ hb.minor = hb2.minor)
    ∧ (dict.length = 65530 →
        dict.length + 1 ≤ 65535
        ∧ 65535 < (BuildAlignedHeader dict 10).length
        ∧ BuildNpyHeader dict = .ok ⟨2, 0, BuildAlignedHeader dict 12⟩) := by
  refine ⟨?_, ?_, ?_, ?_, BuildNpyHeader_of_length_65530 dict⟩
  · have := BuildAlignedHeader_aligned dict 10
    omega
  · intro h
    exact ⟨BuildNpyHeader_v1 dict (by omega), by rw [lenBytes_length]; rfl⟩
  · intro h1 h2
    exact ⟨BuildNpyHeader_v2 dict h1 h2, by rw [lenBytes_length]; rfl⟩
  · intro dict2 hb hb2 hlen hok hok2
    rcases BuildNpyHeader_cases dict with ⟨hl, h1⟩ | ⟨hl1, _, h2⟩ | ⟨_, _, h3⟩
    · rcases BuildNpyHeader_cases dict2 with ⟨_, k1⟩ | ⟨kl1, _, _⟩ | ⟨_, _, k3⟩
      · rw [h1] at hok
        rw [k1] at hok2
        cases hok
        cases hok2
        exact ⟨rfl, rfl⟩
      · omega
      · rw [k3] at hok2
        cases hok2
    · rcases BuildNpyHeader_cases dict2 with ⟨kl, _⟩ | ⟨_, _, k2⟩ | ⟨_, _, k3⟩
      · omega
      · rw [h2] at hok
        rw [k2] at hok2
        cases hok
        cases hok2
        exact ⟨rfl, rfl⟩
      · rw [k3] at hok2
        cases hok2
    · rw [h3] at hok
      cases hok

/-- Instance of C3 (amended) at the dictionary of 65530 characters `x`: version 2 is
selected. -/
theorem C3_version_selection_witness :
    BuildNpyHeader (List.replicate 65530 'x')
      = .ok ⟨2, 0, BuildAlignedHeader (List.replicate 65530 'x') 12⟩ :=
  ((C3_version_selection (List.replicate 65530 'x')).2.2.2.2 (List.length_replicate _ _)).2.2

/-! ## Lemmas on the shape tuple -/

theorem intercalate_cons_eq {α : Type} (sep x : List α) (xs : List (List α)) :
    List.intercalate sep (x :: xs) = x ++ (xs.map (fun y => sep ++ y)).flatten := by
  induction xs generalizing x with
  | nil => simp [List.intercalate]
  | cons y ys ih =>
    have h := ih y
    simp only [List.intercalate] at h ⊢
    rw [List.intersperse_cons_cons, List.flatten_cons, List.flatten_cons, h]
    simp [List.append_assoc]

theorem BuildShapeTuple_loop_succ (dims : List Nat) (i : Nat) (oss : List Char) :
    BuildShapeTuple.loop dims (i + 1) oss
      = oss ++ (dims.map (fun d => ", ".toList ++ Nat.toDigits 10 d)).flatten := by
  induction dims generalizing i oss with
  | nil => simp [BuildShapeTuple.loop]
  | cons d rest ih =>
    simp only [BuildShapeTuple.loop, bne_iff_ne, ne_eq, Nat.add_one_ne_zero, not_false_eq_true,
      if_true, ih, List.map_cons, List.flatten_cons, List.append_assoc]

theorem BuildShapeTuple_loop_zero (dims : List Nat) (oss : List Char) :
    BuildShapeTuple.loop dims 0 oss
      = oss ++ List.intercalate ", ".toList (dims.map (Nat.toDigits 10)) := by
  cases dims with
  | nil => simp [BuildShapeTuple.loop, List.intercalate]
  | cons d rest =>
    rw [List.map_cons, intercalate_cons_eq]
    simp only [BuildShapeTuple.loop, bne_self_eq_false, Bool.false_eq_true, if_false, zero_add,
      BuildShapeTuple_loop_succ, List.map_map, List.append_assoc]
    rfl

/-- C5: `BuildShapeTuple` gives `(`, the decimal renderings of the sizes joined by `, `, a
`,` exactly when there is one size, and `)`; so `()` for no size, `(5,)` for `[5]`,
`(3, 4)` for `[3, 4]`, and no trailing comma when the number of sizes is not 1. -/
theorem C5_BuildShapeTuple_format (a : mxArray) :
    BuildShapeTuple a
        = "(".toList
          ++ List.intercalate ", ".toList (a.dims.map (fun d => (Nat.repr d).toList))
          ++ (if a.dims.length = 1 then ",".toList else [])
          ++ ")".toList
    ∧ BuildShapeTuple { a with dims := [] } = "()".toList
    ∧ BuildShapeTuple { a with dims := [5] } = "(5,)".toList
    ∧ BuildShapeTuple { a with dims := [3, 4] } = "(3, 4)".toList
    ∧ (a.dims.length ≠ 1 →
        BuildShapeTuple a
          = "(".toList
            ++ List.intercalate ", ".toList (a.dims.map (fun d => (Nat.repr d).toList))
            ++ ")".toList) := by
  have hrepr : (fun d => (Nat.repr d).toList) = Nat.toDigits 10 := rfl
  have key : BuildShapeTuple a
        = "(".toList
          ++ List.intercalate ", ".toList (a.dims.map (fun d => (Nat.repr d).toList))
          ++ (if a.dims.length = 1 then ",".toList else [])
          ++ ")".toList := by
    rw [hrepr]
    unfold BuildShapeTuple
    simp only [BuildShapeTuple_loop_zero, beq_iff_eq]
    split <;> simp
  refine ⟨key, by rfl, by rfl, by rfl, ?_⟩
  intro hne
  rw [key, if_neg hne, List.append_nil]

/-! ## Lemmas on the type mapping -/

theorem MapType_ok_props (a : mxArray) (ty : TypeInfo) (h : MapType a = .ok ty) :
    a.isComplex = false ∧ a.isSparse = false ∧ a.classID ∈ supportedClasses
    ∧ ty.descr.length = 3
    ∧ ty.descr.getLast? = some (Nat.digitChar ty.itemSize)
    ∧ (ty.itemSize = 1 ∨ ty.itemSize = 2 ∨ ty.itemSize = 4 ∨ ty.itemSize = 8)
    ∧ (1 < ty.itemSize → ty.descr.head? = some '<')
    ∧ (ty.itemSize = 1 → ty.descr.head? = some '|') := by
  obtain ⟨cls, cx, sp, dims, n, data⟩ := a
  cases cx <;> cases sp <;> cases cls <;>
    simp [MapType, mxIsNumeric, mxIsLogical, ThrowMex] at h <;>
    subst h <;> simp [supportedClasses, Nat.digitChar]

theorem MapType_descr_injective (a b : mxArray) (ta tb : TypeInfo)
    (ha : MapType a = .ok ta) (hb : MapType b = .ok tb) (h : ta.descr = tb.descr) :
    a.classID = b.classID := by
  obtain ⟨cls, cx, sp, dims, n, data⟩ := a
  obtain ⟨cls2, cx2, sp2, dims2, n2, data2⟩ := b
  cases cx <;> cases sp <;> cases cls <;>
    simp [MapType, mxIsNumeric, mxIsLogical, ThrowMex] at ha <;>
    subst ha <;>
    cases cx2 <;> cases sp2 <;> cases cls2 <;>
    simp [MapType, mxIsNumeric, mxIsLogical, ThrowMex] at hb <;>
    subst hb <;> simp at h ⊢

theorem MapType_error_type (a : mxArray) (e : MexError) (h : MapType a = .error e) :
    e.id = "baa_save:type" := by
  obtain ⟨cls, cx, sp, dims, n, data⟩ := a
  cases cx <;> cases sp <;> cases cls <;>
    simp [MapType, mxIsNumeric, mxIsLogical, ThrowMex] at h <;>
    subst h <;> rfl

theorem MapType_supported (a : mxArray) (hc : a.isComplex = false) (hs : a.isSparse = false)
    (hcls : a.classID ∈ supportedClasses) : ∃ ty, MapType a = .ok ty := by
  obtain ⟨cls, cx, sp, dims, n, data⟩ := a
  simp only at hc hs hcls
  subst hc hs
  cases cls <;> simp [supportedClasses] at hcls <;>
    simp [MapType, mxIsNumeric, mxIsLogical]

theorem MapType_unsupported (a : mxArray)
    (h : a.isComplex = true ∨ a.isSparse = true
      ∨ (mxIsNumeric a = false ∧ mxIsLogical a = false)
      ∨ a.classID ∉ supportedClasses) :
    ∃ e, MapType a = .error e ∧ e.id = "baa_save:type" := by
  cases hm : MapType a with
  | error e => exact ⟨e, rfl, MapType_error_type a e hm⟩
  | ok ty =>
    exfalso
    have hp := MapType_ok_props a ty hm
    rcases h with h | h | h | h
    · rw [hp.1] at h
      cases h
    · rw [hp.2.1] at h
      cases h
    · obtain ⟨cls, cx, sp, dims, n, data⟩ := a
      have hcls := hp.2.2.1
      simp only at hcls
      cases cls <;> simp [supportedClasses] at hcls <;>
        simp [mxIsNumeric, mxIsLogical] at h
    · exact h hp.2.2.1

/-- C4: for a real, non-sparse array `MapType` returns the table entry of its class; every
returned code has 3 characters, ends in the decimal digit of the item size, begins with `<`
when the item size exceeds 1 and with `|` when it is 1; and equal codes come from equal
classes. -/
theorem C4_MapType_table (a : mxArray) (hc : a.isComplex = false) (hs : a.isSparse = false) :
    (a.classID = .mxDOUBLE_CLASS → MapType a = .ok ⟨"<f8".toList, 8⟩)
    ∧ (a.classID = .mxSINGLE_CLASS → MapType a = .ok ⟨"<f4".toList, 4⟩)
    ∧ (a.classID = .mxINT8_CLASS → MapType a = .ok ⟨"|i1".toList, 1⟩)
    ∧ (a.classID = .mxUINT8_CLASS → MapType a = .ok ⟨"|u1".toList, 1⟩)
    ∧ (a.classID = .mxINT16_CLASS → MapType a = .ok ⟨"<i2".toList, 2⟩)
    ∧ (a.classID = .mxUINT16_CLASS → MapType a = .ok ⟨"<u2".toList, 2⟩)
    ∧ (a.classID = .mxINT32_CLASS → MapType a = .ok ⟨"<i4".toList, 4⟩)
    ∧ (a.classID = .mxUINT32_CLASS → MapType a = .ok ⟨"<u4".toList, 4⟩)
    ∧ (a.classID = .mxINT64_CLASS → MapType a = .ok ⟨"<i8".toList, 8⟩)
    ∧ (a.classID = .mxUINT64_CLASS → MapType a = .ok ⟨"<u8".toList, 8⟩)
    ∧ (a.classID = .mxLOGICAL_CLASS → MapType a = .ok ⟨"|b1".toList, 1⟩)
    ∧ (∀ ty, MapType a = .ok ty →
        ty.descr.length = 3
        ∧ ty.descr.getLast? = some (Nat.digitChar ty.itemSize)
        ∧ (1 < ty.itemSize → ty.descr.head? = some '<')
        ∧ (ty.itemSize = 1 → ty.descr.head? = some '|'))
    ∧ (∀ (b : mxArray) (ta tb : TypeInfo), MapType a = .ok ta → MapType b = .ok tb →
        ta.descr = tb.descr → a.classID = b.classID) := by
  obtain ⟨cls, cx, sp, dims, n, data⟩ := a
  simp only at hc hs
  subst hc hs
  refine ⟨?_, ?_, ?_, ?_, ?_, ?_, ?_, ?_, ?_, ?_, ?_, ?_, ?_⟩
  case refine_12 =>
    intro ty h
    have hp := MapType_ok_props _ ty h
    exact ⟨hp.2.2.2.1, hp.2.2.2.2.1, hp.2.2.2.2.2.2.1, hp.2.2.2.2.2.2.2⟩
  case refine_13 =>
    intro b ta tb ha hb h
    exact MapType_descr_injective _ b ta tb ha hb h
  all_goals
    intro hcls
    simp only at hcls
    subst hcls
    rfl

/-- Witness for C4: a real, non-sparse double array maps to `<f8` with item size 8. -/
theorem C4_MapType_table_witness :
    MapType ⟨.mxDOUBLE_CLASS, false, false, [1, 1], 1, some [0, 0, 0, 0, 0, 0, 12, 64]⟩
      = .ok ⟨"<f8".toList, 8⟩ :=
  (C4_MapType_table ⟨.mxDOUBLE_CLASS, false, false, [1, 1], 1, some [0, 0, 0, 0, 0, 0, 12, 64]⟩
    rfl rfl).1 rfl

/-- C7: for an array that is complex, or sparse, or neither numeric nor logical, or of a
class outside the eleven supported ones, `MapType` throws an error of the type category, and
`SaveAsNpy` returns that same error with the world state untouched, whatever the Win32 calls
would do; and `MapType` returns for every real, non-sparse array of a supported class. -/
theorem C7_unsupported_type (a : mxArray)
    (h : a.isComplex = true ∨ a.isSparse = true
      ∨ (mxIsNumeric a = false ∧ mxIsLogical a = false)
      ∨ a.classID ∉ supportedClasses) :
    (∃ e, MapType a = .error e ∧ e.id = "baa_save:type"
      ∧ ∀ (σ : Type) (os : Win32 σ) (filename : List Char) (s : σ),
          SaveAsNpy os a filename s = (.error e, s))
    ∧ (∀ b : mxArray, b.isComplex = false → b.isSparse = false →
        b.classID ∈ supportedClasses → ∃ ty, MapType b = .ok ty) := by
  obtain ⟨e, he, hid⟩ := MapType_unsupported a h
  refine ⟨⟨e, he, hid, ?_⟩, MapType_supported⟩
  intro σ os filename s
  simp only [SaveAsNpy, he]

/-- Witness for C7: a complex double array is rejected and nothing happens on the explicit
file system. -/
theorem C7_unsupported_type_witness :
    MapType ⟨.mxDOUBLE_CLASS, true, false, [1, 1], 1, none⟩
      = .error ⟨"baa_save:type", "complex arrays are not supported"⟩
    ∧ ∃ e, e.id = "baa_save:type"
      ∧ ∀ (filename : List Char) (s : Disk),
          SaveAsNpy Disk.win32 ⟨.mxDOUBLE_CLASS, true, false, [1, 1], 1, none⟩ filename s
            = (.error e, s) :=
  ⟨rfl,
   (C7_unsupported_type ⟨.mxDOUBLE_CLASS, true, false, [1, 1], 1, none⟩ (Or.inl rfl)).1.elim
     fun e he => ⟨e, he.2.1, fun filename s => he.2.2 Disk Disk.win32 filename s⟩⟩

/-! ## Lemmas on the explicit file system -/

theorem andThen_ok {σ : Type} (s : σ) (k : σ → Except MexError Unit × σ) :
    andThen (.ok (), s) k = k s := rfl

theorem andThen_error {σ : Type} (e : MexError) (s : σ)
    (k : σ → Except MexError Unit × σ) :
    andThen (.error e, s) k = (.error e, s) := rfl

/-- On the explicit file system, `WriteAll` through a handle open on `p` appends the whole
buffer to the file `p` and keeps the handle. -/
theorem WriteAll_disk (h : Nat) (p : List Char) (n : Nat) :
    ∀ (data c : List Nat) (d : Disk), d.handle h = some p → d.file p = some c →
      data.length = n →
      ∃ d2, WriteAll Disk.win32 h data n d = (.ok (), d2)
        ∧ d2.handle h = some p ∧ d2.file p = some (c ++ data) := by
  induction n using Nat.strong_induction_on with
  | _ n ih =>
    intro data c d hh hf hlen
    unfold WriteAll
    rw [WriteAll.loop]
    by_cases hn : n > 0
    · have hchunk : (min n kChunk) % 2 ^ 32 = min n kChunk := by
        simp only [kChunk]
        omega
      have hpos : 0 < min n kChunk := by
        simp only [kChunk]
        omega
      have hle : min n kChunk ≤ n := Nat.min_le_left _ _
      have htake : (data.take (min n kChunk)).length = min n kChunk := by
        rw [List.length_take]
        omega
      have hw : Disk.win32.WriteFile h (data.take (min n kChunk)) d
          = (⟨true, min n kChunk, 0⟩,
              { d with file := fun q => if q = p then some ((d.file p).getD [] ++
                  data.take (min n kChunk)) else d.file q }) := by
        show Disk.WriteFile h _ d = _
        simp only [Disk.WriteFile, hh, htake]
      simp only [hn, dite_true, hchunk, hw]
      simp only [ne_eq, not_true_eq_false, or_false, Bool.true_eq_false, dite_false]
      have hrec := ih (n - min n kChunk) (by omega) (data.drop (min n kChunk))
        (c ++ data.take (min n kChunk))
        { d with file := fun q => if q = p then some ((d.file p).getD [] ++
            data.take (min n kChunk)) else d.file q }
        hh (by simp [hf]) (by rw [List.length_drop]; omega)
      obtain ⟨d2, hrun, hh2, hf2⟩ := hrec
      refine ⟨d2, hrun, hh2, ?_⟩
      rw [hf2, List.append_assoc, List.take_append_drop]
    · have hn0 : n = 0 := by omega
      subst hn0
      have hnil : data = [] := List.length_eq_zero.mp hlen
      subst hnil
      simp only [gt_iff_lt, lt_self_iff_false, dite_false]
      exact ⟨d, rfl, hh, by simp [hf]⟩

theorem writeHeader_disk (hb : HeaderBlock) (h : Nat) (p : List Char) (c : List Nat)
    (d : Disk) (hh : d.handle h = some p) (hf : d.file p = some c) :
    ∃ d2, SaveAsNpy.writeHeader Disk.win32 hb h d = (.ok (), d2)
      ∧ d2.handle h = some p ∧ d2.file p = some (c ++ headerBytes hb) := by
  obtain ⟨d1, r1, hh1, hf1⟩ := WriteAll_disk h p 6 magic c d hh hf rfl
  obtain ⟨d2, r2, hh2, hf2⟩ :=
    WriteAll_disk h p 2 [hb.major, hb.minor] (c ++ magic) d1 hh1 hf1 rfl
  have hl : ∃ d3, (if hb.major == 1 then WriteAll Disk.win32 h (lenBytes hb) 2 d2
        else WriteAll Disk.win32 h (lenBytes hb) 4 d2) = (.ok (), d3)
      ∧ d3.handle h = some p
      ∧ d3.file p = some (c ++ magic ++ [hb.major, hb.minor] ++ lenBytes hb) := by
    by_cases hm : hb.major = 1
    · have hm1 : (hb.major == 1) = true := by simp [hm]
      simp only [hm1, if_true]
      exact WriteAll_disk h p 2 (lenBytes hb) _ d2 hh2 hf2
        (by rw [lenBytes_length, if_pos hm])
    · have hm2 : (hb.major == 1) = false := by simp [hm]
      simp only [hm2, Bool.false_eq_true, if_false]
      exact WriteAll_disk h p 4 (lenBytes hb) _ d2 hh2 hf2
        (by rw [lenBytes_length, if_neg hm])
  obtain ⟨d3, r3, hh3, hf3⟩ := hl
  obtain ⟨d4, r4, hh4, hf4⟩ :=
    WriteAll_disk h p hb.header.length (hb.header.map Char.toNat)
      (c ++ magic ++ [hb.major, hb.minor] ++ lenBytes hb) d3 hh3 hf3 (List.length_map _ _)
  refine ⟨d4, ?_, hh4, ?_⟩
  · simp only [SaveAsNpy.writeHeader, r1, andThen_ok, r2, r3, r4]
  · rw [hf4]
    simp only [headerBytes, List.append_assoc]

theorem writePayload_overflow {σ : Type} (os : Win32 σ) (a : mxArray) (ty : TypeInfo)
    (file : Nat) (s : σ) (hov : 2 ^ 64 - 1 < a.numberOfElements * ty.itemSize) :
    SaveAsNpy.writePayload os a ty file s
      = (.error ⟨"baa_save:io", "payload size overflow"⟩, s) := by
  have hne : ty.itemSize ≠ 0 := by
    intro h0
    rw [h0] at hov
    simp at hov
  have hgt : a.numberOfElements > (2 ^ 64 - 1) / ty.itemSize := by
    by_contra hle
    have hle2 : a.numberOfElements ≤ (2 ^ 64 - 1) / ty.itemSize := by omega
    have := Nat.mul_le_mul_right ty.itemSize hle2
    have := Nat.div_mul_le_self (2 ^ 64 - 1) ty.itemSize
    omega
  have hcond : (ty.itemSize != 0 && decide (a.numberOfElements > (2 ^ 64 - 1) / ty.itemSize))
      = true := by
    simp only [Bool.and_eq_true, bne_iff_ne, ne_eq, decide_eq_true_eq]
    exact ⟨hne, hgt⟩
  simp only [SaveAsNpy.writePayload, hcond, if_true, ThrowMex]

theorem writePayload_no_overflow {σ : Type} (os : Win32 σ) (a : mxArray) (ty : TypeInfo)
    (file : Nat) (s : σ) (hsize : a.numberOfElements * ty.itemSize < 2 ^ 64) :
    SaveAsNpy.writePayload os a ty file s
      = if a.numberOfElements * ty.itemSize > 0 then
          match a.data with
          | none => (.error ⟨"baa_save:io", "input data pointer is null"⟩, s)
          | some payload => WriteAll os file payload (a.numberOfElements * ty.itemSize) s
        else (.ok (), s) := by
  have hmod : (a.numberOfElements * ty.itemSize) % 2 ^ 64 = a.numberOfElements * ty.itemSize :=
    Nat.mod_eq_of_lt hsize
  have hcond : (ty.itemSize != 0 && decide (a.numberOfElements > (2 ^ 64 - 1) / ty.itemSize))
      = false := by
    by_cases h0 : ty.itemSize = 0
    · simp [h0]
    · have hle : a.numberOfElements ≤ (2 ^ 64 - 1) / ty.itemSize := by
        rw [Nat.le_div_iff_mul_le (Nat.pos_of_ne_zero h0)]
        omega
      simp only [Bool.and_eq_false_imp, bne_iff_ne, ne_eq, decide_eq_false_iff_not, not_lt]
      intro _
      exact hle
  simp only [SaveAsNpy.writePayload, hcond, hmod, ThrowMex]
  rfl

theorem writePayload_zero {σ : Type} (os : Win32 σ) (a : mxArray) (ty : TypeInfo)
    (file : Nat) (s : σ) (hzero : a.numberOfElements * ty.itemSize = 0) :
    SaveAsNpy.writePayload os a ty file s = (.ok (), s) := by
  rw [writePayload_no_overflow os a ty file s (by omega), hzero]
  rfl

theorem writePayload_disk (a : mxArray) (ty : TypeInfo) (payload : List Nat) (h : Nat)
    (p : List Char) (c : List Nat) (d : Disk)
    (hsize : a.numberOfElements * ty.itemSize < 2 ^ 64)
    (hdata : a.numberOfElements * ty.itemSize ≠ 0 → a.data = some payload)
    (hlen : payload.length = a.numberOfElements * ty.itemSize)
    (hh : d.handle h = some p) (hf : d.file p = some c) :
    ∃ d2, SaveAsNpy.writePayload Disk.win32 a ty h d = (.ok (), d2)
      ∧ d2.handle h = some p ∧ d2.file p = some (c ++ payload) := by
  rw [writePayload_no_overflow _ a ty h d hsize]
  by_cases hpos : a.numberOfElements * ty.itemSize > 0
  · rw [if_pos hpos, hdata (by omega)]
    exact WriteAll_disk h p _ payload c d hh hf hlen
  · have h0 : a.numberOfElements * ty.itemSize = 0 := by omega
    have hnil : payload = [] := List.length_eq_zero.mp (hlen.trans h0)
    rw [if_neg hpos, hnil, List.append_nil]
    exact ⟨d, rfl, hh, hf⟩

theorem CreateFileW_disk (filename : List Char) (d d2 : Disk) (file : Nat)
    (hopen : Disk.CreateFileW filename d = (.ok file, d2)) :
    d2.handle file = some filename ∧ d2.file filename = some [] := by
  unfold Disk.CreateFileW at hopen
  split at hopen
  · cases hopen
  · split at hopen
    · simp only [Prod.mk.injEq, Except.ok.injEq] at hopen
      obtain ⟨hfile, hd⟩ := hopen
      subst hd
      subst hfile
      simp
    · cases hopen

theorem SaveAsNpy_unfold {σ : Type} (os : Win32 σ) (a : mxArray) (filename : List Char)
    (s s1 s2 : σ) (ty : TypeInfo) (hb : HeaderBlock) (file : Nat)
    (hty : MapType a = .ok ty)
    (hhdr : BuildNpyHeader (HeaderDict ty.descr (BuildShapeTuple a)) = .ok hb)
    (hdir : SaveAsNpy.ensureParent os filename s = (.ok (), s1))
    (hopen : os.CreateFileW filename s1 = (.ok file, s2)) :
    SaveAsNpy os a filename s
      = ((SaveAsNpy.writeContents os a ty hb file s2).1,
          os.CloseHandle file (SaveAsNpy.writeContents os a ty hb file s2).2) := by
  simp only [SaveAsNpy, hty, hhdr, hdir, andThen_ok, hopen]

/-- On the explicit file system, when the directory step and the open succeed, the header
fits and the payload size does not overflow, `SaveAsNpy` returns and the file holds the
header bytes followed by the payload. -/
theorem SaveAsNpy_disk_success (a : mxArray) (filename : List Char) (s s1 s2 : Disk)
    (ty : TypeInfo) (hb : HeaderBlock) (payload : List Nat) (file : Nat)
    (hty : MapType a = .ok ty)
    (hhdr : BuildNpyHeader (HeaderDict ty.descr (BuildShapeTuple a)) = .ok hb)
    (hsize : a.numberOfElements * ty.itemSize < 2 ^ 64)
    (hdata : a.numberOfElements * ty.itemSize ≠ 0 → a.data = some payload)
    (hlen : payload.length = a.numberOfElements * ty.itemSize)
    (hdir : SaveAsNpy.ensureParent Disk.win32 filename s = (.ok (), s1))
    (hopen : Disk.CreateFileW filename s1 = (.ok file, s2)) :
    (SaveAsNpy Disk.win32 a filename s).1 = .ok ()
    ∧ (SaveAsNpy Disk.win32 a filename s).2.file filename
        = some (headerBytes hb ++ payload) := by
  obtain ⟨hh, hf⟩ := CreateFileW_disk filename s1 s2 file hopen
  obtain ⟨d3, r3, hh3, hf3⟩ := writeHeader_disk hb file filename [] s2 hh hf
  obtain ⟨d4, r4, hh4, hf4⟩ :=
    writePayload_disk a ty payload file filename _ d3 hsize hdata hlen hh3 hf3
  rw [SaveAsNpy_unfold Disk.win32 a filename s s1 s2 ty hb file hty hhdr hdir hopen]
  simp only [SaveAsNpy.writeContents, r3, andThen_ok, r4]
  refine ⟨trivial, ?_⟩
  show d4.file filename = _
  rw [hf4, List.nil_append]

/-- For every behaviour of the Win32 calls: when the directory step, the open and the four
header writes succeed and the payload size overflows, `SaveAsNpy` throws the payload-overflow
error right after the header writes, and only the handle is closed after them. -/
theorem SaveAsNpy_overflow {σ : Type} (os : Win32 σ) (a : mxArray) (filename : List Char)
    (s s1 s2 s3 : σ) (ty : TypeInfo) (hb : HeaderBlock) (file : Nat)
    (hty : MapType a = .ok ty)
    (hhdr : BuildNpyHeader (HeaderDict ty.descr (BuildShapeTuple a)) = .ok hb)
    (hov : 2 ^ 64 - 1 < a.numberOfElements * ty.itemSize)
    (hdir : SaveAsNpy.ensureParent os filename s = (.ok (), s1))
    (hopen : os.CreateFileW filename s1 = (.ok file, s2))
    (hwr : SaveAsNpy.writeHeader os hb file s2 = (.ok (), s3)) :
    SaveAsNpy os a filename s
      = (.error ⟨"baa_save:io", "payload size overflow"⟩, os.CloseHandle file s3) := by
  rw [SaveAsNpy_unfold os a filename s s1 s2 ty hb file hty hhdr hdir hopen]
  simp only [SaveAsNpy.writeContents, hwr, andThen_ok, writePayload_overflow os a ty file s3 hov]

theorem SaveAsNpy_disk_overflow (a : mxArray) (filename : List Char) (s s1 s2 : Disk)
    (ty : TypeInfo) (hb : HeaderBlock) (file : Nat)
    (hty : MapType a = .ok ty)
    (hhdr : BuildNpyHeader (HeaderDict ty.descr (BuildShapeTuple a)) = .ok hb)
    (hov : 2 ^ 64 - 1 < a.numberOfElements * ty.itemSize)
    (hdir : SaveAsNpy.ensureParent Disk.win32 filename s = (.ok (), s1))
    (hopen : Disk.CreateFileW filename s1 = (.ok file, s2)) :
    (SaveAsNpy Disk.win32 a filename s).1
        = .error ⟨"baa_save:io", "payload size overflow"⟩
    ∧ (SaveAsNpy Disk.win32 a filename s).2.file filename = some (headerBytes hb) := by
  obtain ⟨hh, hf⟩ := CreateFileW_disk filename s1 s2 file hopen
  obtain ⟨d3, r3, hh3, hf3⟩ := writeHeader_disk hb file filename [] s2 hh hf
  rw [SaveAsNpy_overflow Disk.win32 a filename s s1 s2 d3 ty hb file hty hhdr hov hdir hopen r3]
  refine ⟨rfl, ?_⟩
  show d3.file filename = _
  rw [hf3, List.nil_append]

theorem and_255 (x : Nat) : x &&& 0xFF = x % 256 :=
  Nat.and_pow_two_sub_one_eq_mod x 8

theorem lenBytes_major1 (hb : HeaderBlock) (hm : hb.major = 1) (hl : hb.header.length ≤ 65535) :
    lenBytes hb = [hb.header.length % 256, hb.header.length / 256] := by
  have h1 : hb.header.length % 2 ^ 16 = hb.header.length := Nat.mod_eq_of_lt (by omega)
  simp only [lenBytes, hm, beq_self_eq_true, if_true, h1, and_255, Nat.shiftRight_eq_div_pow]
  have h2 : hb.header.length / 2 ^ 8 % 256 % 256 = hb.header.length / 256 := by omega
  have h3 : hb.header.length % 256 % 256 = hb.header.length % 256 := by omega
  rw [h2, h3]

theorem lenBytes_major2 (hb : HeaderBlock) (hm : hb.major ≠ 1)
    (hl : hb.header.length ≤ 4294967295) :
    lenBytes hb = [hb.header.length % 256, hb.header.length / 256 % 256,
      hb.header.length / 65536 % 256, hb.header.length / 16777216] := by
  have h1 : hb.header.length % 2 ^ 32 = hb.header.length := Nat.mod_eq_of_lt (by omega)
  have hm2 : (hb.major == 1) = false := by simp [hm]
  simp only [lenBytes, hm2, Bool.false_eq_true, if_false, h1, and_255,
    Nat.shiftRight_eq_div_pow]
  have h2 : hb.header.length % 256 % 256 = hb.header.length % 256 := by omega
  have h3 : hb.header.length / 2 ^ 8 % 256 % 256 = hb.header.length / 256 % 256 := by omega
  have h4 : hb.header.length / 2 ^ 16 % 256 % 256 = hb.header.length / 65536 % 256 := by omega
  have h5 : hb.header.length / 2 ^ 24 % 256 % 256 = hb.header.length / 16777216 := by omega
  rw [h2, h3, h4, h5]

/-- For a block returned by `BuildNpyHeader` the length field is the little-endian encoding
of the header length, in bytes below 256, 2 of them for major 1 and 4 for major 2. -/
theorem lenBytes_of_BuildNpyHeader (dict : List Char) (hb : HeaderBlock)
    (h : BuildNpyHeader dict = .ok hb) :
    (hb.major = 1 ∨ hb.major = 2) ∧ hb.minor = 0
    ∧ (lenBytes hb).length = (if hb.major = 1 then 2 else 4)
    ∧ littleEndian (lenBytes hb) = hb.header.length
    ∧ (∀ b ∈ lenBytes hb, b < 256) := by
  rcases BuildNpyHeader_cases dict with ⟨hl, h1⟩ | ⟨_, hl2, h2⟩ | ⟨_, _, h3⟩
  · rw [h1] at h
    cases h
    refine ⟨Or.inl rfl, rfl, lenBytes_length _, ?_, ?_⟩
    · rw [lenBytes_major1 _ rfl hl]
      simp only [littleEndian]
      omega
    · rw [lenBytes_major1 _ rfl hl]
      intro b hbm
      simp only [List.mem_cons, List.mem_singleton, List.not_mem_nil, or_false] at hbm
      have hl' : (BuildAlignedHeader dict 10).length ≤ 65535 := hl
      rcases hbm with rfl | rfl <;> omega
  · rw [h2] at h
    cases h
    refine ⟨Or.inr rfl, rfl, lenBytes_length _, ?_, ?_⟩
    · rw [lenBytes_major2 ⟨2, 0, BuildAlignedHeader dict 12⟩ (by show (2 : Nat) ≠ 1; decide) hl2]
      simp only [littleEndian]
      omega
    · rw [lenBytes_major2 ⟨2, 0, BuildAlignedHeader dict 12⟩ (by show (2 : Nat) ≠ 1; decide) hl2]
      intro b hbm
      simp only [List.mem_cons, List.mem_singleton, List.not_mem_nil, or_false] at hbm
      have hl' : (BuildAlignedHeader dict 12).length ≤ 4294967295 := hl2
      rcases hbm with rfl | rfl | rfl | rfl <;> omega
  · rw [h3] at h
    cases h

theorem headerBytes_length (hb : HeaderBlock) :
    (headerBytes hb).length = 8 + (if hb.major = 1 then 2 else 4) + hb.header.length := by
  simp only [headerBytes, List.length_append, lenBytes_length, List.length_map, magic,
    List.length_cons, List.length_nil]

/-- For every behaviour of the Win32 calls, `SaveAsNpy` does not return normally for a
supported array whose payload size overflows. -/
theorem SaveAsNpy_overflow_fails {σ : Type} (os : Win32 σ) (a : mxArray)
    (filename : List Char) (s : σ) (ty : TypeInfo) (hty : MapType a = .ok ty)
    (hov : 2 ^ 64 - 1 < a.numberOfElements * ty.itemSize) :
    ∃ e, (SaveAsNpy os a filename s).1 = .error e := by
  cases hhdr : BuildNpyHeader (HeaderDict ty.descr (BuildShapeTuple a)) with
  | error e => exact ⟨e, by simp only [SaveAsNpy, hty, hhdr]⟩
  | ok hb =>
    cases hdir : SaveAsNpy.ensureParent os filename s with
    | mk r s1 =>
      cases r with
      | error e => exact ⟨e, by simp only [SaveAsNpy, hty, hhdr, hdir, andThen_error]⟩
      | ok u =>
        cases u
        cases hopen : os.CreateFileW filename s1 with
        | mk r2 s2 =>
          cases r2 with
          | error code =>
            exact ⟨⟨"baa_save:io", "failed to open output file '" ++ ToNarrow os filename ++
              "': " ++ Win32CodeToString code⟩,
              by simp only [SaveAsNpy, hty, hhdr, hdir, andThen_ok, hopen, ThrowMex]⟩
          | ok file =>
            rw [SaveAsNpy_unfold os a filename s s1 s2 ty hb file hty hhdr hdir hopen]
            cases hwr : SaveAsNpy.writeHeader os hb file s2 with
            | mk r3 s3 =>
              cases r3 with
              | error e =>
                exact ⟨e, by simp only [SaveAsNpy.writeContents, hwr, andThen_error]⟩
              | ok u3 =>
                cases u3
                exact ⟨⟨"baa_save:io", "payload size overflow"⟩,
                  by simp only [SaveAsNpy.writeContents, hwr, andThen_ok,
                    writePayload_overflow os a ty file s3 hov]⟩

/-- C1, as stated, fails: a real double array reporting 2^61 elements is of a supported kind,
and on the explicit file system neither the directory step nor the open nor any write
fails, yet `SaveAsNpy` throws the payload-overflow error and the file holds the 80 header
bytes only, not the header followed by `2^61 * 8` payload bytes. -/
theorem C1_counterexample :
    MapType ⟨.mxDOUBLE_CLASS, false, false, [2 ^ 61], 2 ^ 61, some []⟩ = .ok ⟨"<f8".toList, 8⟩
    ∧ SaveAsNpy.ensureParent Disk.win32 "out.npy".toList Disk.empty = (.ok (), Disk.empty)
    ∧ (Disk.CreateFileW "out.npy".toList Disk.empty).1 = .ok 0
    ∧ (SaveAsNpy Disk.win32 ⟨.mxDOUBLE_CLASS, false, false, [2 ^ 61], 2 ^ 61, some []⟩
          "out.npy".toList Disk.empty).1
        = .error ⟨"baa_save:io", "payload size overflow"⟩
    ∧ ((SaveAsNpy Disk.win32 ⟨.mxDOUBLE_CLASS, false, false, [2 ^ 61], 2 ^ 61, some []⟩
          "out.npy".toList Disk.empty).2.file "out.npy".toList).map List.length = some 96
    ∧ 96 ≠ 8 + 2 + 86 + 2 ^ 61 * 8 := by
  have h := SaveAsNpy_disk_overflow
    ⟨.mxDOUBLE_CLASS, false, false, [2 ^ 61], 2 ^ 61, some []⟩ "out.npy".toList
    Disk.empty Disk.empty (Disk.CreateFileW "out.npy".toList Disk.empty).2
    ⟨"<f8".toList, 8⟩
    ⟨1, 0, BuildAlignedHeader (HeaderDict "<f8".toList (BuildShapeTuple
      ⟨.mxDOUBLE_CLASS, false, false, [2 ^ 61], 2 ^ 61, some []⟩)) 10⟩ 0
    rfl (by rfl) (by decide) rfl rfl
  refine ⟨rfl, rfl, rfl, h.1, ?_, by decide⟩
  rw [h.2]
  rfl

/-- C1, amended: for an array of a supported kind whose dictionary
`\x7b'descr': '<code>', 'fortran_order': True, 'shape': <tuple>, \x7d` (with `<code>` the
descriptor from `MapType` and `<tuple>` the text from `BuildShapeTuple`) gets a header from
`BuildNpyHeader`, whose `element_count * byte_width` is below 2^64 and whose data buffer
holds that many bytes (it may be null when the product is 0), on the explicit file system
with the directory step and the open succeeding: that text is the dictionary `SaveAsNpy`
builds, `SaveAsNpy` returns, and the file is exactly magic, major and minor version, the
little-endian length field (2 bytes for major 1, 4 for major 2), the header text (the
dictionary, at most 15 spaces and a newline) and the payload, of total length
`8 + (2 or 4) + header length + element_count * byte_width`; and when the product is 0 the
payload step makes no call at all. -/
theorem C1_file_layout (a : mxArray) (filename : List Char) (s s1 s2 : Disk)
    (ty : TypeInfo) (hb : HeaderBlock) (payload : List Nat) (file : Nat)
    (hty : MapType a = .ok ty)
    (hhdr : BuildNpyHeader ("\x7b'descr': '".toList ++ ty.descr
        ++ "', 'fortran_order': True, 'shape': ".toList ++ BuildShapeTuple a
        ++ ", \x7d".toList) = .ok hb)
    (hsize : a.numberOfElements * ty.itemSize < 2 ^ 64)
    (hdata : a.numberOfElements * ty.itemSize ≠ 0 → a.data = some payload)
    (hlen : payload.length = a.numberOfElements * ty.itemSize)
    (hdir : SaveAsNpy.ensureParent Disk.win32 filename s = (.ok (), s1))
    (hopen : Disk.CreateFileW filename s1 = (.ok file, s2)) :
    HeaderDict ty.descr (BuildShapeTuple a)
        = "\x7b'descr': '".toList ++ ty.descr
            ++ "', 'fortran_order': True, 'shape': ".toList ++ BuildShapeTuple a
            ++ ", \x7d".toList
    ∧ (SaveAsNpy Disk.win32 a filename s).1 = .ok ()
    ∧ (SaveAsNpy Disk.win32 a filename s).2.file filename
        = some ([0x93, 'N'.toNat, 'U'.toNat, 'M'.toNat, 'P'.toNat, 'Y'.toNat]
            ++ [hb.major, hb.minor] ++ lenBytes hb ++ hb.header.map Char.toNat ++ payload)
    ∧ (∃ k, k ≤ 15 ∧ hb.header
        = "\x7b'descr': '".toList ++ ty.descr
            ++ "', 'fortran_order': True, 'shape': ".toList ++ BuildShapeTuple a
            ++ ", \x7d".toList ++ List.replicate k ' ' ++ ['\n'])
    ∧ (hb.major = 1 ∨ hb.major = 2) ∧ hb.minor = 0
    ∧ (lenBytes hb).length = (if hb.major = 1 then 2 else 4)
    ∧ littleEndian (lenBytes hb) = hb.header.length
    ∧ (∀ b ∈ lenBytes hb, b < 256)
    ∧ ((SaveAsNpy Disk.win32 a filename s).2.file filename).map List.length
        = some (8 + (if hb.major = 1 then 2 else 4) + hb.header.length
            + a.numberOfElements * ty.itemSize)
    ∧ (a.numberOfElements * ty.itemSize = 0 →
        ∀ (σ : Type) (os : Win32 σ) (h : Nat) (w : σ),
          SaveAsNpy.writePayload os a ty h w = (.ok (), w)) := by
  have hdict : HeaderDict ty.descr (BuildShapeTuple a)
      = "\x7b'descr': '".toList ++ ty.descr
          ++ "', 'fortran_order': True, 'shape': ".toList ++ BuildShapeTuple a
          ++ ", \x7d".toList := rfl
  rw [← hdict] at hhdr
  have hrun := SaveAsNpy_disk_success a filename s s1 s2 ty hb payload file hty hhdr hsize
    hdata hlen hdir hopen
  have hlb := lenBytes_of_BuildNpyHeader _ hb hhdr
  refine ⟨hdict, hrun.1, hrun.2, ?_, hlb.1, hlb.2.1, hlb.2.2.1, hlb.2.2.2.1, hlb.2.2.2.2,
    ?_, ?_⟩
  · rw [← hdict]
    rcases BuildNpyHeader_cases (HeaderDict ty.descr (BuildShapeTuple a)) with
      ⟨_, h1⟩ | ⟨_, _, h2⟩ | ⟨_, _, h3⟩
    · rw [h1] at hhdr
      cases hhdr
      exact ⟨_, by omega, BuildAlignedHeader_eq _ 10⟩
    · rw [h2] at hhdr
      cases hhdr
      exact ⟨_, by omega, BuildAlignedHeader_eq _ 12⟩
    · rw [h3] at hhdr
      cases hhdr
  · rw [hrun.2, Option.map_some', List.length_append, headerBytes_length, hlen]
  · intro hzero σ os h w
    exact writePayload_zero os a ty h w hzero

/-- Witness for C1 (amended): a 1x2 uint16 array with payload `01 00 02 00` written to
`out.npy` on the empty explicit file system gives the 84 bytes magic, `01 00`, `46 00`, the
58-character dictionary, 11 spaces, a newline and the payload. -/
theorem C1_file_layout_witness :
    (SaveAsNpy Disk.win32 ⟨.mxUINT16_CLASS, false, false, [1, 2], 2, some [1, 0, 2, 0]⟩
        "out.npy".toList Disk.empty).1 = .ok ()
    ∧ (SaveAsNpy Disk.win32 ⟨.mxUINT16_CLASS, false, false, [1, 2], 2, some [1, 0, 2, 0]⟩
        "out.npy".toList Disk.empty).2.file "out.npy".toList
        = some ([0x93, 0x4E, 0x55, 0x4D, 0x50, 0x59] ++ [0x01, 0x00] ++ [0x46, 0x00]
            ++ ("\x7b'descr': '<u2', 'fortran_order': True, 'shape': (1, 2), \x7d".toList
                ++ List.replicate 11 ' ' ++ ['\n']).map Char.toNat
            ++ [1, 0, 2, 0])
    ∧ ((SaveAsNpy Disk.win32 ⟨.mxUINT16_CLASS, false, false, [1, 2], 2, some [1, 0, 2, 0]⟩
        "out.npy".toList Disk.empty).2.file "out.npy".toList).map List.length
        = some (8 + 2 + 70 + 4) :=
  have h := C1_file_layout ⟨.mxUINT16_CLASS, false, false, [1, 2], 2, some [1, 0, 2, 0]⟩
    "out.npy".toList Disk.empty Disk.empty (Disk.CreateFileW "out.npy".toList Disk.empty).2
    ⟨"<u2".toList, 2⟩
    ⟨1, 0, BuildAlignedHeader
      "\x7b'descr': '<u2', 'fortran_order': True, 'shape': (1, 2), \x7d".toList 10⟩
    [1, 0, 2, 0] 0 rfl (by rfl) (by decide) (fun _ => rfl) rfl rfl rfl
  ⟨h.2.1, by rw [h.2.2.1]; rfl, h.2.2.2.2.2.2.2.2.2.1⟩

/-- C6: a 1x1 double array holding 3.5, written on the explicit file system with the
directory step and the open succeeding, gives an 88-byte file: magic, `01 00`, the length
field `46 00` (70), the 58-character dictionary, 11 spaces and a newline, then the 8 payload
bytes from offset 80 on. -/
theorem C6_end_to_end_example (filename : List Char) (s s1 s2 : Disk) (file : Nat)
    (hdir : SaveAsNpy.ensureParent Disk.win32 filename s = (.ok (), s1))
    (hopen : Disk.CreateFileW filename s1 = (.ok file, s2)) :
    (SaveAsNpy Disk.win32
        ⟨.mxDOUBLE_CLASS, false, false, [1, 1], 1, some [0, 0, 0, 0, 0, 0, 0x0C, 0x40]⟩
        filename s).1 = .ok ()
    ∧ (SaveAsNpy Disk.win32
        ⟨.mxDOUBLE_CLASS, false, false, [1, 1], 1, some [0, 0, 0, 0, 0, 0, 0x0C, 0x40]⟩
        filename s).2.file filename
        = some ([0x93, 0x4E, 0x55, 0x4D, 0x50, 0x59] ++ [0x01, 0x00] ++ [0x46, 0x00]
            ++ ("\x7b'descr': '<f8', 'fortran_order': True, 'shape': (1, 1), \x7d".toList
                ++ List.replicate 11 ' ' ++ ['\n']).map Char.toNat
            ++ [0, 0, 0, 0, 0, 0, 0x0C, 0x40])
    ∧ "\x7b'descr': '<f8', 'fortran_order': True, 'shape': (1, 1), \x7d".toList.length = 58
    ∧ ("\x7b'descr': '<f8', 'fortran_order': True, 'shape': (1, 1), \x7d".toList
          ++ List.replicate 11 ' ' ++ ['\n']).length = 70
    ∧ ((SaveAsNpy Disk.win32
        ⟨.mxDOUBLE_CLASS, false, false, [1, 1], 1, some [0, 0, 0, 0, 0, 0, 0x0C, 0x40]⟩
        filename s).2.file filename).map List.length = some 88
    ∧ ((SaveAsNpy Disk.win32
        ⟨.mxDOUBLE_CLASS, false, false, [1, 1], 1, some [0, 0, 0, 0, 0, 0, 0x0C, 0x40]⟩
        filename s).2.file filename).map (List.drop 80)
        = some [0, 0, 0, 0, 0, 0, 0x0C, 0x40]
    ∧ 80 % 16 = 0 := by
  have hrun := SaveAsNpy_disk_success
    ⟨.mxDOUBLE_CLASS, false, false, [1, 1], 1, some [0, 0, 0, 0, 0, 0, 0x0C, 0x40]⟩
    filename s s1 s2 ⟨"<f8".toList, 8⟩
    ⟨1, 0, BuildAlignedHeader (HeaderDict "<f8".toList (BuildShapeTuple
      ⟨.mxDOUBLE_CLASS, false, false, [1, 1], 1, some [0, 0, 0, 0, 0, 0, 0x0C, 0x40]⟩)) 10⟩
    [0, 0, 0, 0, 0, 0, 0x0C, 0x40] file rfl (by rfl) (by decide) (fun _ => rfl) rfl hdir hopen
  refine ⟨hrun.1, ?_, by rfl, by rfl, ?_, ?_, by rfl⟩
  · rw [hrun.2]
    rfl
  · rw [hrun.2]
    rfl
  · rw [hrun.2]
    rfl

/-- Witness for C6: the example written to `out.npy` on the empty explicit file system. -/
theorem C6_end_to_end_example_witness :
    ((SaveAsNpy Disk.win32
        ⟨.mxDOUBLE_CLASS, false, false, [1, 1], 1, some [0, 0, 0, 0, 0, 0, 0x0C, 0x40]⟩
        "out.npy".toList Disk.empty).2.file "out.npy".toList).map List.length = some 88 :=
  (C6_end_to_end_example "out.npy".toList Disk.empty Disk.empty
    (Disk.CreateFileW "out.npy".toList Disk.empty).2 0 rfl rfl).2.2.2.2.1

/-- C10: for a supported array whose `element_count * byte_width` exceeds 2^64 - 1 and whose
dictionary gets a header, `SaveAsNpy` never returns normally; for every behaviour of the
Win32 calls, when the directory step, the open and the header writes succeed it throws the
payload-overflow error (I/O category) right after them; and on the explicit file system the
file then holds exactly magic, version, length field and header text, with no payload
byte. -/
theorem C10_payload_overflow (a : mxArray) (ty : TypeInfo) (hb : HeaderBlock)
    (hty : MapType a = .ok ty)
    (hhdr : BuildNpyHeader (HeaderDict ty.descr (BuildShapeTuple a)) = .ok hb)
    (hov : 2 ^ 64 - 1 < a.numberOfElements * ty.itemSize) :
    (∀ (σ : Type) (os : Win32 σ) (filename : List Char) (s : σ),
        ∃ e, (SaveAsNpy os a filename s).1 = .error e)
    ∧ (∀ (σ : Type) (os : Win32 σ) (filename : List Char) (s s1 s2 s3 : σ) (file : Nat),
        SaveAsNpy.ensureParent os filename s = (.ok (), s1) →
        os.CreateFileW filename s1 = (.ok file, s2) →
        SaveAsNpy.writeHeader os hb file s2 = (.ok (), s3) →
        SaveAsNpy os a filename s
          = (.error ⟨"baa_save:io", "payload size overflow"⟩, os.CloseHandle file s3))
    ∧ (∀ (filename : List Char) (s s1 s2 : Disk) (file : Nat),
        SaveAsNpy.ensureParent Disk.win32 filename s = (.ok (), s1) →
        Disk.CreateFileW filename s1 = (.ok file, s2) →
        (SaveAsNpy Disk.win32 a filename s).1
            = .error ⟨"baa_save:io", "payload size overflow"⟩
        ∧ (SaveAsNpy Disk.win32 a filename s).2.file filename
            = some ([0x93, 'N'.toNat, 'U'.toNat, 'M'.toNat, 'P'.toNat, 'Y'.toNat]
                ++ [hb.major, hb.minor] ++ lenBytes hb ++ hb.header.map Char.toNat)) := by
  refine ⟨?_, ?_, ?_⟩
  · intro σ os filename s
    exact SaveAsNpy_overflow_fails os a filename s ty hty hov
  · intro σ os filename s s1 s2 s3 file hdir hopen hwr
    exact SaveAsNpy_overflow os a filename s s1 s2 s3 ty hb file hty hhdr hov hdir hopen hwr
  · intro filename s s1 s2 file hdir hopen
    exact SaveAsNpy_disk_overflow a filename s s1 s2 ty hb file hty hhdr hov hdir hopen

/-- Witness for C10: a 1x1 double array reporting 2^61 elements, written to `out.npy` on the
empty explicit file system. -/
theorem C10_payload_overflow_witness :
    (SaveAsNpy Disk.win32 ⟨.mxDOUBLE_CLASS, false, false, [1, 1], 2 ^ 61, none⟩
        "out.npy".toList Disk.empty).1
      = .error ⟨"baa_save:io", "payload size overflow"⟩
    ∧ ((SaveAsNpy Disk.win32 ⟨.mxDOUBLE_CLASS, false, false, [1, 1], 2 ^ 61, none⟩
        "out.npy".toList Disk.empty).2.file "out.npy".toList).map List.length = some 80 :=
  have h := (C10_payload_overflow ⟨.mxDOUBLE_CLASS, false, false, [1, 1], 2 ^ 61, none⟩
    ⟨"<f8".toList, 8⟩
    ⟨1, 0, BuildAlignedHeader (HeaderDict "<f8".toList (BuildShapeTuple
      ⟨.mxDOUBLE_CLASS, false, false, [1, 1], 2 ^ 61, none⟩)) 10⟩
    rfl (by rfl) (by decide)).2.2 "out.npy".toList Disk.empty Disk.empty
    (Disk.CreateFileW "out.npy".toList Disk.empty).2 0 rfl rfl
  ⟨h.1, by rw [h.2]; rfl⟩

/-! ## Lemmas on reading a shape tuple back -/

theorem digitChar_props (k : Nat) (hk : k < 10) :
    (Nat.digitChar k).isDigit = true
    ∧ (Nat.digitChar k).toNat - '0'.toNat = k := by
  interval_cases k <;> exact ⟨by decide, by decide⟩

theorem toDigitsCore_spec (fuel : Nat) :
    ∀ (n : Nat) (ds : List Char), n < fuel →
      ∃ X, Nat.toDigitsCore 10 fuel n ds = X ++ ds ∧ X ≠ []
        ∧ (∀ c ∈ X, c.isDigit = true)
        ∧ List.foldl parseShapeTuple.digit 0 X = n := by
  induction fuel with
  | zero => intro n ds h; omega
  | succ fuel ih =>
    intro n ds hn
    have hd := digitChar_props (n % 10) (Nat.mod_lt _ (by decide))
    rw [Nat.toDigitsCore]
    by_cases h0 : n / 10 = 0
    · refine ⟨[Nat.digitChar (n % 10)], by simp [h0], by simp, ?_, ?_⟩
      · intro c hc
        simp only [List.mem_singleton] at hc
        rw [hc]
        exact hd.1
      · simp only [List.foldl, parseShapeTuple.digit, hd.2]
        omega
    · obtain ⟨X, hX, _, hdig, hval⟩ := ih (n / 10) (Nat.digitChar (n % 10) :: ds) (by omega)
      refine ⟨X ++ [Nat.digitChar (n % 10)], by simp [h0, hX], by simp, ?_, ?_⟩
      · intro c hc
        simp only [List.mem_append, List.mem_singleton] at hc
        rcases hc with hc | hc
        · exact hdig c hc
        · rw [hc]
          exact hd.1
      · rw [List.foldl_append, hval]
        simp only [List.foldl, parseShapeTuple.digit, hd.2]
        omega

theorem toDigits_spec (n : Nat) :
    Nat.toDigits 10 n ≠ [] ∧ (∀ c ∈ Nat.toDigits 10 n, c.isDigit = true)
    ∧ List.foldl parseShapeTuple.digit 0 (Nat.toDigits 10 n) = n := by
  obtain ⟨X, hX, hne, hdig, hval⟩ := toDigitsCore_spec (n + 1) n [] (by omega)
  rw [List.append_nil] at hX
  rw [Nat.toDigits, hX]
  exact ⟨hne, hdig, hval⟩

theorem go_digits_some (X tail : List Char) (hX : ∀ c ∈ X, c.isDigit = true) :
    ∀ (acc : List Nat) (v : Nat) (comma : Bool),
      parseShapeTuple.go (X ++ tail) acc (some v) comma
        = parseShapeTuple.go tail acc (some (List.foldl parseShapeTuple.digit v X)) comma := by
  induction X with
  | nil => intro acc v comma; rfl
  | cons c X ih =>
    intro acc v comma
    have hc : c.isDigit = true := hX c (List.mem_cons_self _ _)
    rw [List.cons_append, parseShapeTuple.go]
    simp only [hc, if_true, Option.getD_some, List.foldl_cons]
    exact ih (fun x hx => hX x (List.mem_cons_of_mem _ hx)) _ _ _

theorem go_number (n : Nat) (tail : List Char) (acc : List Nat) (comma : Bool) :
    parseShapeTuple.go (Nat.toDigits 10 n ++ tail) acc none comma
      = parseShapeTuple.go tail acc (some n) comma := by
  obtain ⟨hne, hdig, hval⟩ := toDigits_spec n
  cases hX : Nat.toDigits 10 n with
  | nil => exact absurd hX hne
  | cons c X =>
    rw [hX] at hdig hval
    have hc : c.isDigit = true := hdig c (List.mem_cons_self _ _)
    rw [List.cons_append, parseShapeTuple.go]
    simp only [hc, if_true, Option.getD_none]
    rw [go_digits_some X tail (fun x hx => hdig x (List.mem_cons_of_mem _ hx))]
    rw [List.foldl_cons] at hval
    rw [hval]

theorem go_close (acc : List Nat) (v : Nat) :
    parseShapeTuple.go [')'] acc (some v) true = some (acc ++ [v]) := by
  rw [parseShapeTuple.go]
  simp [show (')' : Char).isDigit = false by decide]

theorem go_items (rest : List Nat) :
    ∀ (acc : List Nat) (v : Nat),
      parseShapeTuple.go
          ((rest.map (fun d => ", ".toList ++ Nat.toDigits 10 d)).flatten ++ [')'])
          acc (some v) true
        = some (acc ++ v :: rest) := by
  induction rest with
  | nil =>
    intro acc v
    exact go_close acc v
  | cons r rs ih =>
    intro acc v
    rw [List.map_cons, List.flatten_cons, List.append_assoc, List.append_assoc]
    show parseShapeTuple.go (',' :: ' ' :: (Nat.toDigits 10 r ++ _)) acc (some v) true = _
    rw [parseShapeTuple.go]
    simp only [show (',' : Char).isDigit = false by decide, Bool.false_eq_true, if_false,
      if_true]
    rw [parseShapeTuple.go]
    simp only [show (' ' : Char).isDigit = false by decide, Bool.false_eq_true, if_false,
      show ¬ ((' ' : Char) = ',') by decide, if_true]
    rw [go_number, ih, List.append_assoc]
    rfl

theorem go_first_item (r : Nat) (rs : List Nat) (v : Nat) :
    parseShapeTuple.go
        (((r :: rs).map (fun d => ", ".toList ++ Nat.toDigits 10 d)).flatten ++ [')'])
        [] (some v) false
      = some (v :: r :: rs) := by
  rw [List.map_cons, List.flatten_cons, List.append_assoc, List.append_assoc]
  show parseShapeTuple.go (',' :: ' ' :: (Nat.toDigits 10 r ++ _)) [] (some v) false = _
  rw [parseShapeTuple.go]
  simp only [show (',' : Char).isDigit = false by decide, Bool.false_eq_true, if_false,
    if_true]
  rw [parseShapeTuple.go]
  simp only [show (' ' : Char).isDigit = false by decide, Bool.false_eq_true, if_false,
    show ¬ ((' ' : Char) = ',') by decide, if_true]
  rw [go_number, go_items]
  rfl

theorem go_single (v : Nat) :
    parseShapeTuple.go (",".toList ++ ")".toList) [] (some v) false = some [v] := by
  show parseShapeTuple.go [',', ')'] [] (some v) false = _
  rw [parseShapeTuple.go]
  simp only [show (',' : Char).isDigit = false by decide, Bool.false_eq_true, if_false,
    if_true]
  rw [parseShapeTuple.go]
  simp [show (')' : Char).isDigit = false by decide]

theorem parseShapeTuple_BuildShapeTuple (a : mxArray) :
    parseShapeTuple (BuildShapeTuple a) = some a.dims := by
  obtain ⟨cls, cx, sp, dims, n, data⟩ := a
  unfold BuildShapeTuple
  simp only
  cases dims with
  | nil => rfl
  | cons d rest =>
    rw [BuildShapeTuple_loop_zero, List.map_cons, intercalate_cons_eq, List.map_map]
    cases rest with
    | nil =>
      simp only [List.map_nil, List.flatten_nil, List.append_nil, List.length_singleton,
        beq_self_eq_true, if_true, List.append_assoc]
      show parseShapeTuple.go (Nat.toDigits 10 d ++ _) [] none false = _
      rw [go_number]
      exact go_single d
    | cons r rs =>
      have hlen : ((d :: r :: rs).length == 1) = false := by simp
      simp only [hlen, Bool.false_eq_true, if_false, List.append_assoc]
      show parseShapeTuple.go (Nat.toDigits 10 d ++ _) [] none false = _
      rw [go_number]
      exact go_first_item r rs d

/-! ## Claims on the shape tuple -/

/-- C11: reading the text of `BuildShapeTuple` back as a tuple literal of unsigned decimal
integers gives the dimension list again, so two arrays with the same text have the same
dimension list; the lists `[]`, `[5]` and `[5, 1]` give three different texts. -/
theorem C11_shape_roundtrip (a : mxArray) :
    parseShapeTuple (BuildShapeTuple a) = some a.dims
    ∧ (∀ b : mxArray, BuildShapeTuple a = BuildShapeTuple b → a.dims = b.dims)
    ∧ BuildShapeTuple { a with dims := [] } ≠ BuildShapeTuple { a with dims := [5] }
    ∧ BuildShapeTuple { a with dims := [5] } ≠ BuildShapeTuple { a with dims := [5, 1] }
    ∧ BuildShapeTuple { a with dims := [] } ≠ BuildShapeTuple { a with dims := [5, 1] }
    ∧ parseShapeTuple "()".toList = some []
    ∧ parseShapeTuple "(5,)".toList = some [5]
    ∧ parseShapeTuple "(3, 4)".toList = some [3, 4]
    ∧ parseShapeTuple "(5)".toList = none := by
  have hinj : ∀ x y : mxArray, BuildShapeTuple x = BuildShapeTuple y → x.dims = y.dims := by
    intro x y h
    have hx := parseShapeTuple_BuildShapeTuple x
    rw [h, parseShapeTuple_BuildShapeTuple y] at hx
    exact (Option.some.inj hx).symm
  refine ⟨parseShapeTuple_BuildShapeTuple a, hinj a, ?_, ?_, ?_, by rfl, by rfl, by rfl,
    by rfl⟩
  · intro h
    exact absurd (hinj _ _ h) (by simp)
  · intro h
    exact absurd (hinj _ _ h) (by simp)
  · intro h
    exact absurd (hinj _ _ h) (by simp)

/-! ## Claims on the length field and the payload size -/

/-- C19: for a block returned by `BuildNpyHeader` the length field written by `SaveAsNpy`
(2 bytes for major 1, 4 bytes for major 2, each below 256) decodes, read little-endian, to
the header length; the casts do not truncate, since major 1 comes with a length of at most
65535 and major 2 with one of at most 4294967295; and on the explicit file system the header
text written right after the field has exactly the decoded number of bytes. -/
theorem C19_length_field_exact (dict : List Char) (hb : HeaderBlock)
    (h : BuildNpyHeader dict = .ok hb) :
    littleEndian (lenBytes hb) = hb.header.length
    ∧ (lenBytes hb).length = (if hb.major = 1 then 2 else 4)
    ∧ (∀ b ∈ lenBytes hb, b < 256)
    ∧ (hb.major = 1 ∨ hb.major = 2)
    ∧ (hb.major = 1 →
        hb.header.length ≤ 65535 ∧ hb.header.length % 2 ^ 16 = hb.header.length)
    ∧ (hb.major = 2 →
        hb.header.length ≤ 4294967295 ∧ hb.header.length % 2 ^ 32 = hb.header.length)
    ∧ (∀ (file : Nat) (p : List Char) (c : List Nat) (d : Disk),
        d.handle file = some p → d.file p = some c →
        ∃ d2, SaveAsNpy.writeHeader Disk.win32 hb file d = (.ok (), d2)
          ∧ d2.file p = some (c ++ magic ++ [hb.major, hb.minor] ++ lenBytes hb
              ++ hb.header.map Char.toNat)
          ∧ (hb.header.map Char.toNat).length = littleEndian (lenBytes hb)) := by
  have hlb := lenBytes_of_BuildNpyHeader dict hb h
  refine ⟨hlb.2.2.2.1, hlb.2.2.1, hlb.2.2.2.2, hlb.1, ?_, ?_, ?_⟩
  · intro hm
    rcases BuildNpyHeader_cases dict with ⟨hl, h1⟩ | ⟨_, _, h2⟩ | ⟨_, _, h3⟩
    · rw [h1] at h
      cases h
      exact ⟨hl, Nat.mod_eq_of_lt
        (show (BuildAlignedHeader dict 10).length < 2 ^ 16 by omega)⟩
    · rw [h2] at h
      cases h
      cases hm
    · rw [h3] at h
      cases h
  · intro hm
    rcases BuildNpyHeader_cases dict with ⟨_, h1⟩ | ⟨_, hl2, h2⟩ | ⟨_, _, h3⟩
    · rw [h1] at h
      cases h
      cases hm
    · rw [h2] at h
      cases h
      exact ⟨hl2, Nat.mod_eq_of_lt
        (show (BuildAlignedHeader dict 12).length < 2 ^ 32 by omega)⟩
    · rw [h3] at h
      cases h
  · intro file p c d hh hf
    obtain ⟨d2, hrun, _, hf2⟩ := writeHeader_disk hb file p c d hh hf
    refine ⟨d2, hrun, ?_, ?_⟩
    · rw [hf2]
      simp only [headerBytes, List.append_assoc]
    · rw [List.length_map, hlb.2.2.2.1]

/-- Witness for C19 at the dictionary of a 1x1 double array: the field `46 00` decodes to
the header length 70. -/
theorem C19_length_field_exact_witness :
    littleEndian (lenBytes ⟨1, 0, BuildAlignedHeader
        "\x7b'descr': '<f8', 'fortran_order': True, 'shape': (1, 1), \x7d".toList 10⟩)
      = (BuildAlignedHeader
        "\x7b'descr': '<f8', 'fortran_order': True, 'shape': (1, 1), \x7d".toList 10).length :=
  (C19_length_field_exact
    "\x7b'descr': '<f8', 'fortran_order': True, 'shape': (1, 1), \x7d".toList
    ⟨1, 0, BuildAlignedHeader
      "\x7b'descr': '<f8', 'fortran_order': True, 'shape': (1, 1), \x7d".toList 10⟩
    (by rfl)).1

theorem overflow_iff_test (n w : Nat) (hw : 0 < w) :
    2 ^ 64 - 1 < n * w ↔ n > (2 ^ 64 - 1) / w := by
  constructor
  · intro h
    by_contra hle
    have hle2 : n ≤ (2 ^ 64 - 1) / w := by omega
    have h1 := Nat.mul_le_mul_right w hle2
    have h2 := Nat.div_mul_le_self (2 ^ 64 - 1) w
    omega
  · intro h
    by_contra hle
    have hle2 : n * w ≤ 2 ^ 64 - 1 := by omega
    have := (Nat.le_div_iff_mul_le hw).mpr hle2
    omega

theorem message_failed_ne (x : String) (tail : List Char)
    (hx : x.data = 'f' :: tail) : x ≠ "payload size overflow" := by
  intro h
  rw [h] at hx
  have h2 := congrArg List.head? hx
  simp at h2

theorem WriteAll_error_message {σ : Type} (os : Win32 σ) (file : Nat) (n : Nat) :
    ∀ (data : List Nat) (s : σ) (e : MexError),
      (WriteAll os file data n s).1 = .error e →
      e.id = "baa_save:io" ∧ ∃ code, e.message = "failed while writing file: " ++
        Win32CodeToString code := by
  induction n using Nat.strong_induction_on with
  | _ n ih =>
    intro data s e he
    unfold WriteAll at he
    rw [WriteAll.loop] at he
    by_cases hn : n > 0
    · simp only [hn, dite_true] at he
      split at he
      · simp only [ThrowMex, Except.error.injEq] at he
        subst he
        exact ⟨rfl, _, rfl⟩
      · rename_i hgood
        have hw : (os.WriteFile file (data.take ((min n kChunk) % 2 ^ 32)) s).1.written
            = (min n kChunk) % 2 ^ 32 := by
          by_contra hne
          exact hgood (Or.inr hne)
        have hpos : 0 < (min n kChunk) % 2 ^ 32 := by
          simp only [kChunk]
          omega
        exact ih _ (by rw [hw]; omega) _ _ e he
    · simp only [hn, dite_false] at he
      cases he

/-! ## Lemmas on `WriteAll` for every behaviour of the writer -/

theorem createDirectoryCalls_append (l1 l2 : List Win32Call) :
    createDirectoryCalls (l1 ++ l2) = createDirectoryCalls l1 ++ createDirectoryCalls l2 := by
  induction l1 with
  | nil => rfl
  | cons c l1 ih => cases c <;> simp [createDirectoryCalls, ih]

theorem writeFileCalls_append (l1 l2 : List Win32Call) :
    writeFileCalls (l1 ++ l2) = writeFileCalls l1 ++ writeFileCalls l2 := by
  induction l1 with
  | nil => rfl
  | cons c l1 ih => cases c <;> simp [writeFileCalls, ih]

theorem chunk_eq (n : Nat) (hn : n > 0) :
    (min n kChunk) % 2 ^ 32 = min n kChunk ∧ 0 < min n kChunk ∧ min n kChunk ≤ n
      ∧ min n kChunk ≤ kChunk := by
  simp only [kChunk]
  omega

/-- One iteration of the loop of `WriteAll` over a logged writer, for a positive count. -/
theorem WriteAll_logged_step {σ : Type} (os : Win32 σ) (file : Nat) (data : List Nat)
    (n : Nat) (s : σ) (log : List Win32Call) (hn : n > 0) :
    WriteAll os.logged file data n (s, log)
      = if (os.WriteFile file (data.take (min n kChunk)) s).1.ok = false
            ∨ (os.WriteFile file (data.take (min n kChunk)) s).1.written ≠ min n kChunk then
          (.error ⟨"baa_save:io", "failed while writing file: " ++ Win32CodeToString
              (if (os.WriteFile file (data.take (min n kChunk)) s).1.ok then ERROR_WRITE_FAULT
               else (os.WriteFile file (data.take (min n kChunk)) s).1.lastError)⟩,
            ((os.WriteFile file (data.take (min n kChunk)) s).2,
              log ++ [Win32Call.WriteFile file (data.take (min n kChunk))
                (os.WriteFile file (data.take (min n kChunk)) s).1]))
        else
          WriteAll os.logged file (data.drop (min n kChunk)) (n - min n kChunk)
            ((os.WriteFile file (data.take (min n kChunk)) s).2,
              log ++ [Win32Call.WriteFile file (data.take (min n kChunk))
                (os.WriteFile file (data.take (min n kChunk)) s).1]) := by
  have hc := (chunk_eq n hn).1
  unfold WriteAll
  rw [WriteAll.loop]
  simp only [hn, dite_true, hc, Win32.logged, ThrowMex]
  split
  · rfl
  · rename_i hgood
    have hw : (os.WriteFile file (data.take (min n kChunk)) s).1.written = min n kChunk := by
      by_contra hne
      exact hgood (Or.inr hne)
    rw [hw]

theorem WriteAll_zero {σ : Type} (os : Win32 σ) (file : Nat) (data : List Nat) (s : σ) :
    WriteAll os file data 0 s = (.ok (), s) := by
  unfold WriteAll
  rw [WriteAll.loop]
  simp

theorem writeFileCalls_map (file : Nat) (evs : List (List Nat × WriteResult)) :
    writeFileCalls (evs.map (fun e => Win32Call.WriteFile file e.1 e.2))
      = evs.map (fun e => (file, e.1, e.2)) := by
  induction evs with
  | nil => rfl
  | cons e evs ih => simp [writeFileCalls, ih]

theorem createDirectoryCalls_map_write (file : Nat) (evs : List (List Nat × WriteResult)) :
    createDirectoryCalls (evs.map (fun e => Win32Call.WriteFile file e.1 e.2)) = [] := by
  induction evs with
  | nil => rfl
  | cons e evs ih => simp [createDirectoryCalls, ih]

/-- The text `Win32CodeToString` gives is `Win32 error ` followed by the decimal digits of
the code, and it determines the code. -/
theorem Win32CodeToString_injective (code code2 : Nat)
    (h : Win32CodeToString code = Win32CodeToString code2) : code = code2 := by
  have h1 := congrArg String.data h
  simp only [Win32CodeToString, String.data_append] at h1
  have h2 := List.append_cancel_left h1
  have h3 : ∀ n : Nat, (toString n).data = Nat.toDigits 10 n := fun n => rfl
  rw [h3, h3] at h2
  have h4 := (toDigits_spec code).2.2
  rw [h2, (toDigits_spec code2).2.2] at h4
  exact h4.symm

/-- The calls `WriteAll` makes over a logged writer: only `WriteFile` calls on its handle,
each for 1 to `kChunk` bytes, namely the next `min remaining kChunk` bytes of the buffer; it
returns exactly when all of them transferred the whole request, and then the requests
concatenate to the first `n` bytes of the buffer; a call that did not is the last call and
decides the error thrown. -/
theorem WriteAll_logged_trace {σ : Type} (os : Win32 σ) (file : Nat) (n : Nat) :
    ∀ (data : List Nat) (s : σ) (log : List Win32Call), n ≤ data.length →
      ∃ evs : List (List Nat × WriteResult),
        (WriteAll os.logged file data n (s, log)).2.2
            = log ++ evs.map (fun e => Win32Call.WriteFile file e.1 e.2)
        ∧ ((WriteAll os.logged file data n (s, log)).1 = .ok () ↔
            ∀ e ∈ evs, WriteResult.full e.1 e.2)
        ∧ (∀ pre e post, evs = pre ++ e :: post → ¬ WriteResult.full e.1 e.2 →
            post = [] ∧ (WriteAll os.logged file data n (s, log)).1
              = .error ⟨"baa_save:io", "failed while writing file: " ++ Win32CodeToString
                  (if e.2.ok then ERROR_WRITE_FAULT else e.2.lastError)⟩)
        ∧ (∀ e ∈ evs, 1 ≤ e.1.length ∧ e.1.length ≤ kChunk)
        ∧ (∀ pre e post, evs = pre ++ e :: post →
            e.1 = (data.drop (pre.map (fun e => e.1)).flatten.length).take
              (min (n - (pre.map (fun e => e.1)).flatten.length) kChunk))
        ∧ (evs.map (fun e => e.1)).flatten <+: data.take n
        ∧ ((WriteAll os.logged file data n (s, log)).1 = .ok () →
            (evs.map (fun e => e.1)).flatten = data.take n) := by
  induction n using Nat.strong_induction_on with
  | _ n ih =>
    intro data s log hlen
    by_cases hn : n > 0
    · obtain ⟨_, hpos, hle, hk⟩ := chunk_eq n hn
      have htake : (data.take (min n kChunk)).length = min n kChunk := by
        rw [List.length_take]
        omega
      have hsplit : data.take n
          = data.take (min n kChunk) ++ (data.drop (min n kChunk)).take (n - min n kChunk) := by
        rw [← List.take_add]
        congr 1
        omega
      rw [WriteAll_logged_step os file data n s log hn]
      by_cases hbad : (os.WriteFile file (data.take (min n kChunk)) s).1.ok = false
          ∨ (os.WriteFile file (data.take (min n kChunk)) s).1.written ≠ min n kChunk
      · rw [if_pos hbad]
        have hnf : ¬ WriteResult.full (data.take (min n kChunk))
            (os.WriteFile file (data.take (min n kChunk)) s).1 := by
          intro hf
          rcases hbad with hb | hb
          · rw [hf.1] at hb
            cases hb
          · rw [hf.2, htake] at hb
            exact hb rfl
        refine ⟨[(data.take (min n kChunk),
          (os.WriteFile file (data.take (min n kChunk)) s).1)], rfl, ?_, ?_, ?_, ?_, ?_, ?_⟩
        · constructor
          · intro h
            cases h
          · intro h
            exact absurd (h _ (List.mem_singleton.mpr rfl)) hnf
        · intro pre e post heq _
          cases pre with
          | nil =>
            simp only [List.nil_append, List.cons.injEq] at heq
            obtain ⟨he, hpost⟩ := heq
            subst he
            exact ⟨hpost.symm, rfl⟩
          | cons p pre =>
            simp only [List.cons_append, List.cons.injEq] at heq
            have := congrArg List.length heq.2
            simp only [List.length_nil, List.length_append, List.length_cons] at this
            omega
        · intro e he
          rw [List.mem_singleton] at he
          subst he
          simp only [htake]
          omega
        · intro pre e post heq
          cases pre with
          | nil =>
            simp only [List.nil_append, List.cons.injEq] at heq
            rw [← heq.1]
            simp
          | cons p pre =>
            simp only [List.cons_append, List.cons.injEq] at heq
            have := congrArg List.length heq.2
            simp only [List.length_nil, List.length_append, List.length_cons] at this
            omega
        · rw [hsplit]
          simp
        · intro h
          cases h
      · rw [if_neg hbad]
        have hfull : WriteResult.full (data.take (min n kChunk))
            (os.WriteFile file (data.take (min n kChunk)) s).1 := by
          constructor
          · by_contra hb
            exact hbad (Or.inl (by simpa using hb))
          · rw [htake]
            by_contra hb
            exact hbad (Or.inr hb)
        obtain ⟨evs, hlog, hok, hlast, hsize, hreq, hpre, hall⟩ :=
          ih (n - min n kChunk) (by omega) (data.drop (min n kChunk))
            (os.WriteFile file (data.take (min n kChunk)) s).2
            (log ++ [Win32Call.WriteFile file (data.take (min n kChunk))
              (os.WriteFile file (data.take (min n kChunk)) s).1])
            (by rw [List.length_drop]; omega)
        refine ⟨(data.take (min n kChunk),
          (os.WriteFile file (data.take (min n kChunk)) s).1) :: evs, ?_, ?_, ?_, ?_, ?_, ?_, ?_⟩
        · rw [hlog]
          simp
        · rw [hok]
          constructor
          · intro h e he
            rcases List.mem_cons.mp he with he | he
            · subst he
              exact hfull
            · exact h e he
          · intro h e he
            exact h e (List.mem_cons_of_mem _ he)
        · intro pre e post heq hne
          cases pre with
          | nil =>
            simp only [List.nil_append, List.cons.injEq] at heq
            rw [← heq.1] at hne
            exact absurd hfull hne
          | cons p pre =>
            simp only [List.cons_append, List.cons.injEq] at heq
            exact hlast pre e post heq.2 hne
        · intro e he
          rcases List.mem_cons.mp he with he | he
          · subst he
            simp only [htake]
            omega
          · exact hsize e he
        · intro pre e post heq
          cases pre with
          | nil =>
            simp only [List.nil_append, List.cons.injEq] at heq
            rw [← heq.1]
            simp
          | cons p pre =>
            simp only [List.cons_append, List.cons.injEq] at heq
            rw [hreq pre e post heq.2, ← heq.1]
            simp only [List.map_cons, List.flatten_cons, List.length_append, htake,
              List.drop_drop]
            congr 2
            omega
        · rw [hsplit]
          simp only [List.map_cons, List.flatten_cons]
          exact (List.prefix_append_right_inj _).mpr hpre
        · intro h
          rw [hsplit]
          simp only [List.map_cons, List.flatten_cons]
          rw [hall h]
    · have hn0 : n = 0 := by omega
      subst hn0
      rw [WriteAll_zero]
      exact ⟨[], by simp, by simp, by
        intro pre e post heq
        simp at heq, by simp, by
        intro pre e post heq
        simp at heq, by simp, by simp⟩

/-- Running `WriteAll` over the logged writer gives the result and the final state of the
run over the writer itself. -/
theorem unlog_WriteAll {σ : Type} (os : Win32 σ) (file : Nat) (n : Nat) :
    ∀ (data : List Nat) (st : σ × List Win32Call),
      unlog (WriteAll os.logged file data n st) = WriteAll os file data n st.1 := by
  induction n using Nat.strong_induction_on with
  | _ n ih =>
    intro data st
    obtain ⟨s, log⟩ := st
    by_cases hn : n > 0
    · obtain ⟨hc, hpos, hle, _⟩ := chunk_eq n hn
      rw [WriteAll_logged_step os file data n s log hn]
      have hplain : WriteAll os file data n s
          = if (os.WriteFile file (data.take (min n kChunk)) s).1.ok = false
                ∨ (os.WriteFile file (data.take (min n kChunk)) s).1.written ≠ min n kChunk then
              (.error ⟨"baa_save:io", "failed while writing file: " ++ Win32CodeToString
                  (if (os.WriteFile file (data.take (min n kChunk)) s).1.ok then
                    ERROR_WRITE_FAULT
                   else (os.WriteFile file (data.take (min n kChunk)) s).1.lastError)⟩,
                (os.WriteFile file (data.take (min n kChunk)) s).2)
            else
              WriteAll os file (data.drop (min n kChunk)) (n - min n kChunk)
                (os.WriteFile file (data.take (min n kChunk)) s).2 := by
        unfold WriteAll
        rw [WriteAll.loop]
        simp only [hn, dite_true, hc, ThrowMex]
        split
        · rfl
        · rename_i hgood
          have hw : (os.WriteFile file (data.take (min n kChunk)) s).1.written
              = min n kChunk := by
            by_contra hne
            exact hgood (Or.inr hne)
          rw [hw]
      rw [hplain]
      split
      · rfl
      · exact ih (n - min n kChunk) (by omega) _ _
    · have hn0 : n = 0 := by omega
      subst hn0
      rw [WriteAll_zero, WriteAll_zero]
      rfl

/-! ## Claims on `WriteAll` -/

/-- C13: for every behaviour of the writer and a buffer holding at least `nBytes` bytes,
`WriteAll` makes only `WriteFile` calls on its handle, each requesting the next
`min remaining 67108864` bytes of the buffer; it returns normally exactly when every call
transferred the whole request, and then the requests concatenate to the first `nBytes` bytes
of the buffer; a call that reported failure, or success with another count, is the last call
made and makes `WriteAll` throw the I/O error whose message is
`failed while writing file: Win32 error ` followed by the decimal digits of the code, which
is `GetLastError()` for a reported failure and `ERROR_WRITE_FAULT` (29) for a short count
reported as success; that text determines the code; and the run over the writer itself has
the same result and final state as the logged run. -/
theorem C13_WriteAll_failure {σ : Type} (os : Win32 σ) (file : Nat) (data : List Nat)
    (nBytes : Nat) (s : σ) (hlen : nBytes ≤ data.length) :
    (∀ c ∈ writeFileCalls (WriteAll os.logged file data nBytes (s, [])).2.2, c.1 = file)
    ∧ (writeFileCalls (WriteAll os.logged file data nBytes (s, [])).2.2).length
        = (WriteAll os.logged file data nBytes (s, [])).2.2.length
    ∧ ((WriteAll os.logged file data nBytes (s, [])).1 = .ok () ↔
        ∀ c ∈ writeFileCalls (WriteAll os.logged file data nBytes (s, [])).2.2,
          WriteResult.full c.2.1 c.2.2)
    ∧ (∀ pre c post,
        writeFileCalls (WriteAll os.logged file data nBytes (s, [])).2.2 = pre ++ c :: post →
        ¬ WriteResult.full c.2.1 c.2.2 →
        post = []
        ∧ (WriteAll os.logged file data nBytes (s, [])).1
            = .error ⟨"baa_save:io", "failed while writing file: Win32 error "
                ++ toString (if c.2.2.ok then 29 else c.2.2.lastError)⟩)
    ∧ (∀ pre c post,
        writeFileCalls (WriteAll os.logged file data nBytes (s, [])).2.2 = pre ++ c :: post →
        c.2.1 = (data.drop (pre.map (fun c => c.2.1)).flatten.length).take
            (min (nBytes - (pre.map (fun c => c.2.1)).flatten.length) 67108864)
        ∧ 1 ≤ c.2.1.length ∧ c.2.1.length ≤ 67108864)
    ∧ ((writeFileCalls (WriteAll os.logged file data nBytes (s, [])).2.2).map
        (fun c => c.2.1)).flatten <+: data.take nBytes
    ∧ ((WriteAll os.logged file data nBytes (s, [])).1 = .ok () →
        ((writeFileCalls (WriteAll os.logged file data nBytes (s, [])).2.2).map
          (fun c => c.2.1)).flatten = data.take nBytes)
    ∧ (∀ code code2 : Nat, Win32CodeToString code = Win32CodeToString code2 → code = code2)
    ∧ (∀ code : Nat, Win32CodeToString code = "Win32 error " ++ toString code)
    ∧ Win32CodeToString 5 = "Win32 error 5"
    ∧ WriteAll os file data nBytes s
        = ((WriteAll os.logged file data nBytes (s, [])).1,
            (WriteAll os.logged file data nBytes (s, [])).2.1) := by
  have hun : WriteAll os file data nBytes s
      = ((WriteAll os.logged file data nBytes (s, [])).1,
          (WriteAll os.logged file data nBytes (s, [])).2.1) :=
    (unlog_WriteAll os file nBytes data (s, [])).symm
  obtain ⟨evs, hlog, hok, hlast, hsize, hreq, hpre, hall⟩ :=
    WriteAll_logged_trace os file nBytes data s [] hlen
  have hk : kChunk = 67108864 := rfl
  rw [hk] at hsize hreq
  have hmm : (evs.map (fun e => (file, e.1, e.2))).map (fun c => c.2.1)
      = evs.map (fun e => e.1) := by
    rw [List.map_map]
    rfl
  have hmsg : ∀ code : Nat, "failed while writing file: " ++ Win32CodeToString code
      = "failed while writing file: Win32 error " ++ toString code := by
    intro code
    apply String.ext
    simp only [Win32CodeToString, String.data_append]
    rfl
  rw [hlog, List.nil_append, writeFileCalls_map, hmm]
  refine ⟨?_, by simp, ?_, ?_, ?_, hpre, ?_, Win32CodeToString_injective, fun _ => rfl, rfl,
    hun⟩
  · intro c hc
    obtain ⟨e, _, rfl⟩ := List.mem_map.mp hc
    rfl
  · rw [hok]
    constructor
    · intro h c hc
      obtain ⟨e, he, rfl⟩ := List.mem_map.mp hc
      exact h e he
    · intro h e he
      exact h (file, e.1, e.2) (List.mem_map.mpr ⟨e, he, rfl⟩)
  · intro pre c post heq hne
    obtain ⟨pre2, rest2, hsplit, hpre2, hrest⟩ := List.map_eq_append_iff.mp heq
    obtain ⟨e, post2, hrest2, he, hpost⟩ := List.map_eq_cons_iff.mp hrest
    subst he
    have := hlast pre2 e post2 (by rw [hsplit, hrest2]) hne
    refine ⟨?_, ?_⟩
    · rw [← hpost, this.1]
      rfl
    · rw [this.2, hmsg]
      rfl
  · intro pre c post heq
    obtain ⟨pre2, rest2, hsplit, hpre2, hrest⟩ := List.map_eq_append_iff.mp heq
    obtain ⟨e, post2, hrest2, he, hpost⟩ := List.map_eq_cons_iff.mp hrest
    subst he
    have h1 := hreq pre2 e post2 (by rw [hsplit, hrest2])
    have h2 := hsize e (by rw [hsplit, hrest2]; simp)
    refine ⟨?_, h2⟩
    rw [← hpre2, List.map_map]
    exact h1
  · exact hall

/-- Witness for C13: a three-byte buffer written through a handle that is not open on the
explicit file system (the call fails with `ERROR_INVALID_HANDLE`, 6), and through a writer
that reports success with a short count (`ERROR_WRITE_FAULT`, 29): one call each, then the
error. -/
theorem C13_WriteAll_failure_witness :
    (3 ≤ [1, 2, 3].length
      ∧ writeFileCalls (WriteAll Disk.win32.logged 0 [1, 2, 3] 3 (Disk.empty, [])).2.2
          = [(0, [1, 2, 3], ⟨false, 0, 6⟩)]
      ∧ (WriteAll Disk.win32.logged 0 [1, 2, 3] 3 (Disk.empty, [])).1
          = .error ⟨"baa_save:io", "failed while writing file: Win32 error 6"⟩
      ∧ (WriteAll Disk.win32 0 [1, 2, 3] 3 Disk.empty).1
          = .error ⟨"baa_save:io", "failed while writing file: Win32 error 6"⟩)
    ∧ (writeFileCalls (WriteAll shortWriter.logged 7 [1, 2, 3] 3 ((), [])).2.2
          = [(7, [1, 2, 3], ⟨true, 2, 0⟩)]
      ∧ (WriteAll shortWriter.logged 7 [1, 2, 3] 3 ((), [])).1
          = .error ⟨"baa_save:io", "failed while writing file: Win32 error 29"⟩
      ∧ (WriteAll shortWriter 7 [1, 2, 3] 3 ()).1
          = .error ⟨"baa_save:io", "failed while writing file: Win32 error 29"⟩) := by
  have h1 : writeFileCalls (WriteAll Disk.win32.logged 0 [1, 2, 3] 3 (Disk.empty, [])).2.2
      = [] ++ (0, [1, 2, 3], ⟨false, 0, 6⟩) :: [] := by
    rw [WriteAll_logged_step Disk.win32 0 [1, 2, 3] 3 Disk.empty [] (by decide)]
    rfl
  have h2 : writeFileCalls (WriteAll shortWriter.logged 7 [1, 2, 3] 3 ((), [])).2.2
      = [] ++ (7, [1, 2, 3], ⟨true, 2, 0⟩) :: [] := by
    rw [WriteAll_logged_step shortWriter 7 [1, 2, 3] 3 () [] (by decide)]
    rfl
  have e1 := (C13_WriteAll_failure Disk.win32 0 [1, 2, 3] 3 Disk.empty (by decide)).2.2.2.1
    [] (0, [1, 2, 3], ⟨false, 0, 6⟩) [] h1 (fun h => by cases h.1)
  have e2 := (C13_WriteAll_failure shortWriter 7 [1, 2, 3] 3 () (by decide)).2.2.2.1
    [] (7, [1, 2, 3], ⟨true, 2, 0⟩) [] h2 (fun h => by cases h.2)
  have u1 := (C13_WriteAll_failure Disk.win32 0 [1, 2, 3] 3 Disk.empty
    (by decide)).2.2.2.2.2.2.2.2.2.2
  have u2 := (C13_WriteAll_failure shortWriter 7 [1, 2, 3] 3 () (by decide)).2.2.2.2.2.2.2.2.2.2
  exact ⟨⟨by decide, h1, e1.2, by rw [u1]; exact e1.2⟩, h2, e2.2, by rw [u2]; exact e2.2⟩

/-- The calls `WriteAll` makes over a logged writer that always transfers the whole request:
the chunks concatenate to the buffer, there are `ceil(n / kChunk)` of them, each of 1 to
`kChunk` bytes and all but the last of `kChunk` bytes. -/
theorem WriteAll_logged_full {σ : Type} (os : Win32 σ)
    (hrel : ∀ (h : Nat) (bytes : List Nat) (s : σ),
      WriteResult.full bytes (os.WriteFile h bytes s).1)
    (file : Nat) (n : Nat) :
    ∀ (data : List Nat) (s : σ) (log : List Win32Call), data.length = n →
      ∃ evs : List (List Nat × WriteResult),
        (WriteAll os.logged file data n (s, log)).1 = .ok ()
        ∧ (WriteAll os.logged file data n (s, log)).2.2
            = log ++ evs.map (fun e => Win32Call.WriteFile file e.1 e.2)
        ∧ (evs.map (fun e => e.1)).flatten = data
        ∧ evs.length = (n + kChunk - 1) / kChunk
        ∧ (∀ e ∈ evs, 1 ≤ e.1.length ∧ e.1.length ≤ kChunk)
        ∧ (∀ pre e post, evs = pre ++ e :: post → post ≠ [] → e.1.length = kChunk) := by
  induction n using Nat.strong_induction_on with
  | _ n ih =>
    intro data s log hlen
    by_cases hn : n > 0
    · obtain ⟨_, hpos, hle, hk⟩ := chunk_eq n hn
      have htake : (data.take (min n kChunk)).length = min n kChunk := by
        rw [List.length_take]
        omega
      have hfull := hrel file (data.take (min n kChunk)) s
      have hgood : ¬ ((os.WriteFile file (data.take (min n kChunk)) s).1.ok = false
          ∨ (os.WriteFile file (data.take (min n kChunk)) s).1.written ≠ min n kChunk) := by
        rintro (hb | hb)
        · rw [hfull.1] at hb
          cases hb
        · rw [hfull.2, htake] at hb
          exact hb rfl
      rw [WriteAll_logged_step os file data n s log hn, if_neg hgood]
      obtain ⟨evs, hok, hlog, hcat, hcount, hsize, hlast⟩ :=
        ih (n - min n kChunk) (by omega) (data.drop (min n kChunk))
          (os.WriteFile file (data.take (min n kChunk)) s).2
          (log ++ [Win32Call.WriteFile file (data.take (min n kChunk))
            (os.WriteFile file (data.take (min n kChunk)) s).1])
          (by rw [List.length_drop]; omega)
      refine ⟨(data.take (min n kChunk),
        (os.WriteFile file (data.take (min n kChunk)) s).1) :: evs, hok, ?_, ?_, ?_, ?_, ?_⟩
      · rw [hlog]
        simp
      · rw [List.map_cons, List.flatten_cons, hcat]
        exact List.take_append_drop _ _
      · rw [List.length_cons, hcount]
        simp only [kChunk] at hle hk hpos ⊢
        omega
      · intro e he
        rcases List.mem_cons.mp he with he | he
        · subst he
          simp only [htake]
          omega
        · exact hsize e he
      · intro pre e post heq hpost
        cases pre with
        | nil =>
          simp only [List.nil_append, List.cons.injEq] at heq
          obtain ⟨he, hevs⟩ := heq
          subst he
          simp only [htake]
          have hlen2 : evs.length ≠ 0 := by
            rw [hevs]
            exact fun h => hpost (List.length_eq_zero.mp h)
          rw [hcount] at hlen2
          simp only [kChunk] at hle hk hpos hlen2 ⊢
          omega
        | cons p pre =>
          simp only [List.cons_append, List.cons.injEq] at heq
          exact hlast pre e post heq.2 hpost
    · have hn0 : n = 0 := by omega
      subst hn0
      rw [WriteAll_zero]
      have hnil : data = [] := List.length_eq_zero.mp hlen
      exact ⟨[], rfl, by simp, by simp [hnil], by simp [kChunk], by simp, by
        intro pre e post heq
        simp at heq⟩

/-- C18: over a writer that always transfers the whole request, `WriteAll` on a buffer of
`n` bytes returns normally after exactly `ceil(n / 67108864)` calls, all of them `WriteFile`
calls on its handle, each for 1 to 67108864 bytes and all but the last for exactly 67108864
bytes; the requested chunks, in call order, concatenate to the buffer; for `n = 0` there is
no call. -/
theorem C18_WriteAll_chunks {σ : Type} (os : Win32 σ)
    (hrel : ∀ (h : Nat) (bytes : List Nat) (s : σ),
      WriteResult.full bytes (os.WriteFile h bytes s).1)
    (file : Nat) (data : List Nat) (s : σ) :
    (WriteAll os.logged file data data.length (s, [])).1 = .ok ()
    ∧ (writeFileCalls (WriteAll os.logged file data data.length (s, [])).2.2).length
        = (data.length + 67108864 - 1) / 67108864
    ∧ (WriteAll os.logged file data data.length (s, [])).2.2.length
        = (data.length + 67108864 - 1) / 67108864
    ∧ (∀ c ∈ writeFileCalls (WriteAll os.logged file data data.length (s, [])).2.2,
        c.1 = file ∧ 1 ≤ c.2.1.length ∧ c.2.1.length ≤ 67108864)
    ∧ (∀ pre c post,
        writeFileCalls (WriteAll os.logged file data data.length (s, [])).2.2
          = pre ++ c :: post →
        post ≠ [] → c.2.1.length = 67108864)
    ∧ ((writeFileCalls (WriteAll os.logged file data data.length (s, [])).2.2).map
        (fun c => c.2.1)).flatten = data
    ∧ (data = [] → (WriteAll os.logged file data data.length (s, [])).2.2 = []) := by
  obtain ⟨evs, hok, hlog, hcat, hcount, hsize, hlast⟩ :=
    WriteAll_logged_full os hrel file data.length data s [] rfl
  have hk : kChunk = 67108864 := rfl
  rw [hk] at hcount hsize hlast
  rw [hlog, List.nil_append, writeFileCalls_map]
  refine ⟨hok, by simp [hcount], by simp [hcount], ?_, ?_, ?_, ?_⟩
  · intro c hc
    obtain ⟨e, he, rfl⟩ := List.mem_map.mp hc
    exact ⟨rfl, hsize e he⟩
  · intro pre c post heq hpost
    obtain ⟨pre2, rest2, hsplit, hpre, hrest⟩ := List.map_eq_append_iff.mp heq
    obtain ⟨e, post2, hrest2, he, hpost2⟩ := List.map_eq_cons_iff.mp hrest
    subst he
    have hp2 : post2 ≠ [] := by
      intro h
      rw [h] at hpost2
      exact hpost hpost2.symm
    exact hlast pre2 e post2 (by rw [hsplit, hrest2]) hp2
  · rw [List.map_map]
    exact hcat
  · intro hnil
    have h0 : evs.length = 0 := by
      rw [hcount, hnil]
      rfl
    rw [List.length_eq_zero.mp h0]
    rfl

/-- Witness for C18: three bytes through the reliable sequential writer. -/
theorem C18_WriteAll_chunks_witness :
    (WriteAll reliableWriter.logged 0 [1, 2, 3] [1, 2, 3].length ([], [])).1 = .ok ()
    ∧ (writeFileCalls
        (WriteAll reliableWriter.logged 0 [1, 2, 3] [1, 2, 3].length ([], [])).2.2).length
        = ([1, 2, 3].length + 67108864 - 1) / 67108864 :=
  have h := C18_WriteAll_chunks reliableWriter (fun _ _ _ => ⟨rfl, rfl⟩) 0 [1, 2, 3] []
  ⟨h.1, h.2.1⟩

/-! ## Lemmas on `EnsureDirectoryRecursive` for every behaviour of the file system -/

theorem find_last_of_bound (str : List Char) :
    ∀ i, find_last_of str separators = some i →
      i < str.length ∧ separatorCount (str.take i) + 1 ≤ separatorCount str := by
  induction str with
  | nil => intro i h; simp [find_last_of] at h
  | cons c rest ih =>
    intro i h
    rw [find_last_of] at h
    cases hr : find_last_of rest separators with
    | some j =>
      simp only [hr, Option.some.injEq] at h
      obtain ⟨h1, h2⟩ := ih j hr
      subst h
      refine ⟨by simp only [List.length_cons]; omega, ?_⟩
      simp only [separatorCount, List.take_succ_cons, List.filter_cons] at h2 ⊢
      split <;> (try simp only [List.length_cons]) <;> omega
    | none =>
      simp only [hr] at h
      split at h
      · rename_i hc
        simp only [Option.some.injEq] at h
        subst h
        refine ⟨by simp only [List.length_cons]; omega, ?_⟩
        have hs : IsSlash c = true := by
          simp only [separators, List.contains_cons, List.contains_nil, Bool.or_false,
            Bool.or_eq_true, beq_iff_eq] at hc
          simp only [IsSlash, Bool.or_eq_true, beq_iff_eq]
          exact hc
        simp [separatorCount, List.filter_cons, hs]
      · simp at h

/-- The body of `EnsureDirectoryRecursive`, with the creation attempt named. -/
theorem EnsureDirectoryRecursive_unfold {σ : Type} (os : Win32 σ) (dirPath : List Char)
    (s : σ) :
    EnsureDirectoryRecursive os dirPath s
      = if dirPath.isEmpty then (.ok (), s)
        else if IsDriveRoot dirPath then (.ok (), s)
        else
          match PathExistsAsDirectory os dirPath s with
          | (true, s1) => (.ok (), s1)
          | (false, s1) =>
            andThen
              (match find_last_of dirPath separators with
                | some split =>
                  if (dirPath.take split).isEmpty then (.ok (), s1)
                  else EnsureDirectoryRecursive os (dirPath.take split) s1
                | none => (.ok (), s1))
              fun s2 => EnsureDirectoryRecursive.create os dirPath s2 := by
  rw [EnsureDirectoryRecursive]
  split
  · rfl
  · split
    · rfl
    · split
      · rfl
      · show andThen _ _ = andThen _ _
        congr 1
        split <;> rename_i hs <;> simp only [hs]

theorem EnsureDirectoryRecursive_bounded_eq {σ : Type} (os : Win32 σ) (depth : Nat) :
    ∀ (dirPath : List Char) (s : σ), separatorCount dirPath + 1 ≤ depth →
      EnsureDirectoryRecursive.bounded os depth dirPath s
        = some (EnsureDirectoryRecursive os dirPath s) := by
  induction depth with
  | zero => intro dirPath s h; omega
  | succ depth ih =>
    intro dirPath s hd
    rw [EnsureDirectoryRecursive.bounded, EnsureDirectoryRecursive_unfold]
    split
    · rfl
    · split
      · rfl
      · split
        · rfl
        · simp only
          cases hf : find_last_of dirPath separators with
          | none => rfl
          | some split =>
            simp only
            by_cases hemp : (dirPath.take split).isEmpty
            · simp only [hemp, if_true, Option.map_some']
            · have hb := (find_last_of_bound dirPath split hf).2
              simp only [hemp, Bool.false_eq_true, if_false]
              rw [ih (dirPath.take split) _ (by omega), Option.map_some']

theorem create_error_message {σ : Type} (os : Win32 σ) (dirPath : List Char) (s : σ)
    (e : MexError) (h : (EnsureDirectoryRecursive.create os dirPath s).1 = .error e) :
    e.id = "baa_save:io" ∧ ∃ tail, e.message.data = 'f' :: tail := by
  unfold EnsureDirectoryRecursive.create at h
  split at h
  · cases h
  · split at h
    · split at h
      · cases h
      · simp only [ThrowMex, Except.error.injEq] at h
        subst h
        exact ⟨rfl, _, rfl⟩
    · simp only [ThrowMex, Except.error.injEq] at h
      subst h
      exact ⟨rfl, _, rfl⟩

theorem EnsureDirectoryRecursive_error_message {σ : Type} (os : Win32 σ) (n : Nat) :
    ∀ (dirPath : List Char), dirPath.length ≤ n → ∀ (s : σ) (e : MexError),
      (EnsureDirectoryRecursive os dirPath s).1 = .error e →
      e.id = "baa_save:io" ∧ ∃ tail, e.message.data = 'f' :: tail := by
  induction n with
  | zero =>
    intro dirPath hl s e h
    have hnil : dirPath = [] := List.length_eq_zero.mp (by omega)
    subst hnil
    rw [EnsureDirectoryRecursive_unfold] at h
    simp at h
  | succ n ih =>
    intro dirPath hl s e h
    rw [EnsureDirectoryRecursive_unfold] at h
    split at h
    · cases h
    · split at h
      · cases h
      · split at h
        · cases h
        · rename_i s1 _
          cases hup : (match find_last_of dirPath separators with
              | some split =>
                if (dirPath.take split).isEmpty then (Except.ok (), s1)
                else EnsureDirectoryRecursive os (dirPath.take split) s1
              | none => (Except.ok (), s1)) with
          | mk r s2 =>
            rw [hup] at h
            cases r with
            | error e2 =>
              rw [andThen_error] at h
              simp only [Except.error.injEq] at h
              subst h
              cases hf : find_last_of dirPath separators with
              | none =>
                rw [hf] at hup
                cases hup
              | some split =>
                rw [hf] at hup
                simp only at hup
                split at hup
                · cases hup
                · have hb := (find_last_of_bound dirPath split hf).1
                  exact ih (dirPath.take split) (by rw [List.length_take]; omega) s1 e2
                    (by rw [hup])
            | ok u =>
              cases u
              rw [andThen_ok] at h
              exact create_error_message os dirPath s2 e h

theorem PathExistsAsDirectory_logged {σ : Type} (os : Win32 σ) (path : List Char) (s : σ)
    (log : List Win32Call) :
    PathExistsAsDirectory os.logged path (s, log)
      = ((PathExistsAsDirectory os path s).1,
          ((PathExistsAsDirectory os path s).2,
            log ++ [Win32Call.GetFileAttributesW path (os.GetFileAttributesW path s).1])) := by
  simp only [PathExistsAsDirectory, Win32.logged]
  cases h : os.GetFileAttributesW path s with
  | mk r s1 => cases r <;> rfl

theorem create_logged {σ : Type} (os : Win32 σ) (dirPath : List Char) (s : σ)
    (log : List Win32Call) :
    ∃ evs, (EnsureDirectoryRecursive.create os.logged dirPath (s, log)).2.2 = log ++ evs
      ∧ createDirectoryCalls evs = [dirPath] ∧ writeFileCalls evs = [] := by
  unfold EnsureDirectoryRecursive.create
  simp only [Win32.logged]
  cases h : os.CreateDirectoryW dirPath s with
  | mk r s3 =>
    cases r with
    | ok u =>
      cases u
      exact ⟨[Win32Call.CreateDirectoryW dirPath (.ok ())], rfl, rfl, rfl⟩
    | error err =>
      simp only
      have hp := PathExistsAsDirectory_logged os dirPath s3
        (log ++ [Win32Call.CreateDirectoryW dirPath (.error err)])
      simp only [Win32.logged] at hp
      by_cases he : (err == ERROR_ALREADY_EXISTS) = true
      · simp only [he, if_true, hp]
        cases (PathExistsAsDirectory os dirPath s3).1 <;>
          exact ⟨[Win32Call.CreateDirectoryW dirPath (.error err),
            Win32Call.GetFileAttributesW dirPath (os.GetFileAttributesW dirPath s3).1],
            by simp, rfl, rfl⟩
      · simp only [he, if_false]
        exact ⟨[Win32Call.CreateDirectoryW dirPath (.error err)], rfl, rfl, rfl⟩

/-- The calls `EnsureDirectoryRecursive` makes over a logged file system: no call at all for
the empty path and a drive root; otherwise no write, and at most one directory-creation
attempt per nesting level, each for a non-empty prefix of the path. -/
theorem EnsureDirectoryRecursive_logged_trace {σ : Type} (os : Win32 σ) (n : Nat) :
    ∀ (dirPath : List Char), dirPath.length ≤ n → ∀ (s : σ) (log : List Win32Call),
      ∃ evs, (EnsureDirectoryRecursive os.logged dirPath (s, log)).2.2 = log ++ evs
        ∧ (createDirectoryCalls evs).length ≤ separatorCount dirPath + 1
        ∧ (∀ q ∈ createDirectoryCalls evs, q ≠ [] ∧ q <+: dirPath)
        ∧ writeFileCalls evs = [] := by
  induction n with
  | zero =>
    intro dirPath hl s log
    have hnil : dirPath = [] := List.length_eq_zero.mp (by omega)
    subst hnil
    rw [EnsureDirectoryRecursive_unfold]
    exact ⟨[], by simp, by simp [createDirectoryCalls], by simp [createDirectoryCalls], rfl⟩
  | succ n ih =>
    intro dirPath hl s log
    rw [EnsureDirectoryRecursive_unfold]
    by_cases hemp : dirPath.isEmpty
    · rw [if_pos hemp]
      exact ⟨[], by simp, by simp [createDirectoryCalls], by simp [createDirectoryCalls], rfl⟩
    · rw [if_neg hemp]
      have hne : dirPath ≠ [] := by
        intro h
        rw [h] at hemp
        exact hemp rfl
      by_cases hroot : IsDriveRoot dirPath
      · rw [if_pos hroot]
        exact ⟨[], by simp, by simp [createDirectoryCalls], by simp [createDirectoryCalls],
          rfl⟩
      · rw [if_neg hroot, PathExistsAsDirectory_logged]
        cases hpe : (PathExistsAsDirectory os dirPath s).1 with
        | true =>
          exact ⟨[Win32Call.GetFileAttributesW dirPath (os.GetFileAttributesW dirPath s).1],
            rfl, by simp [createDirectoryCalls], by simp [createDirectoryCalls], rfl⟩
        | false =>
          simp only
          have hup : ∃ evs r st,
              (match find_last_of dirPath separators with
                | some split =>
                  if (dirPath.take split).isEmpty then
                    ((Except.ok () : Except MexError Unit),
                      ((PathExistsAsDirectory os dirPath s).2,
                        log ++ [Win32Call.GetFileAttributesW dirPath
                          (os.GetFileAttributesW dirPath s).1]))
                  else EnsureDirectoryRecursive os.logged (dirPath.take split)
                    ((PathExistsAsDirectory os dirPath s).2,
                      log ++ [Win32Call.GetFileAttributesW dirPath
                        (os.GetFileAttributesW dirPath s).1])
                | none =>
                  (Except.ok (), ((PathExistsAsDirectory os dirPath s).2,
                    log ++ [Win32Call.GetFileAttributesW dirPath
                      (os.GetFileAttributesW dirPath s).1])))
                = (r, (st, log ++ evs))
              ∧ (createDirectoryCalls evs).length + 1 ≤ separatorCount dirPath + 1
              ∧ (∀ q ∈ createDirectoryCalls evs, q ≠ [] ∧ q <+: dirPath)
              ∧ writeFileCalls evs = [] := by
            cases hf : find_last_of dirPath separators with
            | none =>
              exact ⟨[Win32Call.GetFileAttributesW dirPath (os.GetFileAttributesW dirPath s).1],
                _, _, rfl, by simp [createDirectoryCalls], by simp [createDirectoryCalls], rfl⟩
            | some split =>
              simp only
              by_cases hpar : (dirPath.take split).isEmpty
              · rw [if_pos hpar]
                exact ⟨[Win32Call.GetFileAttributesW dirPath
                  (os.GetFileAttributesW dirPath s).1],
                  _, _, rfl, by simp [createDirectoryCalls], by simp [createDirectoryCalls],
                  rfl⟩
              · rw [if_neg hpar]
                obtain ⟨hb1, hb2⟩ := find_last_of_bound dirPath split hf
                obtain ⟨evs, hlog, hcount, hpre, hwr⟩ :=
                  ih (dirPath.take split) (by rw [List.length_take]; omega)
                    (PathExistsAsDirectory os dirPath s).2
                    (log ++ [Win32Call.GetFileAttributesW dirPath
                      (os.GetFileAttributesW dirPath s).1])
                cases hrun : EnsureDirectoryRecursive os.logged (dirPath.take split)
                    ((PathExistsAsDirectory os dirPath s).2,
                      log ++ [Win32Call.GetFileAttributesW dirPath
                        (os.GetFileAttributesW dirPath s).1]) with
                | mk r st2 =>
                obtain ⟨st, lg⟩ := st2
                rw [hrun] at hlog
                simp only at hlog
                refine ⟨Win32Call.GetFileAttributesW dirPath
                  (os.GetFileAttributesW dirPath s).1 :: evs, r, st, ?_, ?_, ?_, ?_⟩
                · rw [hlog]
                  simp
                · simp only [createDirectoryCalls]
                  omega
                · intro q hq
                  simp only [createDirectoryCalls] at hq
                  obtain ⟨hq1, hq2⟩ := hpre q hq
                  exact ⟨hq1, hq2.trans (List.take_prefix _ _)⟩
                · simp only [writeFileCalls]
                  exact hwr
          obtain ⟨evs, r, st, hrun, hcount, hpre, hwr⟩ := hup
          rw [hrun]
          cases r with
          | error e =>
            rw [andThen_error]
            exact ⟨evs, rfl, by omega, hpre, hwr⟩
          | ok u =>
            cases u
            rw [andThen_ok]
            obtain ⟨evs2, hlog2, hc2, hw2⟩ := create_logged os dirPath st (log ++ evs)
            refine ⟨evs ++ evs2, ?_, ?_, ?_, ?_⟩
            · rw [hlog2, List.append_assoc]
            · rw [createDirectoryCalls_append, List.length_append, hc2]
              simp only [List.length_singleton]
              omega
            · intro q hq
              rw [createDirectoryCalls_append, hc2, List.mem_append, List.mem_singleton] at hq
              rcases hq with hq | hq
              · exact hpre q hq
              · rw [hq]
                exact ⟨hne, List.prefix_refl _⟩
            · rw [writeFileCalls_append, hwr, hw2]
              rfl

/-! ## Claims on `EnsureDirectoryRecursive` for every behaviour of the file system -/

/-- C20: for every path and every behaviour of the file system, `EnsureDirectoryRecursive`
nests at most `separators + 1` calls deep (with that bound on the nesting it gives the same
result), the argument of a nested call is the text before the last separator, a proper
prefix with fewer separators, at most `separators + 1` directory-creation attempts are made,
each for a non-empty prefix of the path, and the empty path and the drive roots `X:`, `X:\`,
`X:/` return at once with the state untouched. -/
theorem C20_EnsureDirectoryRecursive_terminates {σ : Type} (os : Win32 σ)
    (dirPath : List Char) (s : σ) :
    (∀ depth, separatorCount dirPath + 1 ≤ depth →
        EnsureDirectoryRecursive.bounded os depth dirPath s
          = some (EnsureDirectoryRecursive os dirPath s))
    ∧ (∀ split, find_last_of dirPath separators = some split →
        dirPath.take split <+: dirPath
        ∧ (dirPath.take split).length < dirPath.length
        ∧ separatorCount (dirPath.take split) < separatorCount dirPath)
    ∧ (createDirectoryCalls (EnsureDirectoryRecursive os.logged dirPath (s, [])).2.2).length
        ≤ separatorCount dirPath + 1
    ∧ (∀ q ∈ createDirectoryCalls (EnsureDirectoryRecursive os.logged dirPath (s, [])).2.2,
        q ≠ [] ∧ q <+: dirPath)
    ∧ (dirPath = [] ∨ IsDriveRoot dirPath = true →
        EnsureDirectoryRecursive os dirPath s = (.ok (), s)
        ∧ EnsureDirectoryRecursive os.logged dirPath (s, []) = (.ok (), (s, [])))
    ∧ (∀ x : Char, IsDriveRoot [x, ':'] = true ∧ IsDriveRoot [x, ':', '\\'] = true
        ∧ IsDriveRoot [x, ':', '/'] = true) := by
  obtain ⟨evs, hlog, hcount, hpre, _⟩ :=
    EnsureDirectoryRecursive_logged_trace os dirPath.length dirPath (Nat.le_refl _) s []
  rw [List.nil_append] at hlog
  refine ⟨fun depth hd => EnsureDirectoryRecursive_bounded_eq os depth dirPath s hd, ?_,
    by rw [hlog]; exact hcount, by rw [hlog]; exact hpre, ?_, ?_⟩
  · intro split hf
    obtain ⟨h1, h2⟩ := find_last_of_bound dirPath split hf
    refine ⟨List.take_prefix _ _, ?_, by omega⟩
    rw [List.length_take]
    omega
  · intro h
    have key : ∀ (τ : Type) (w : Win32 τ) (t : τ),
        EnsureDirectoryRecursive w dirPath t = (.ok (), t) := by
      intro τ w t
      rw [EnsureDirectoryRecursive_unfold]
      rcases h with h | h
      · rw [h]
        rfl
      · by_cases hemp : dirPath.isEmpty
        · rw [if_pos hemp]
        · rw [if_neg hemp, if_pos h]
    exact ⟨key σ os s, key _ os.logged (s, [])⟩
  · intro x
    exact ⟨by simp [IsDriveRoot], by simp [IsDriveRoot, IsSlash], by simp [IsDriveRoot, IsSlash]⟩

/-! ## Lemmas on the errors of the conversion -/

theorem mexFunction_eq_body {σ : Type} (os : Win32 σ) (nlhs : Int) (prhs : List mxArray)
    (s : σ) : mexFunction os nlhs prhs s = mexFunction.body os nlhs prhs s := by
  unfold mexFunction
  cases h : mexFunction.body os nlhs prhs s with
  | mk r s1 =>
    cases r with
    | ok u => cases u; rfl
    | error e => rfl

theorem writeHeader_error_message {σ : Type} (os : Win32 σ) (hb : HeaderBlock) (file : Nat)
    (s : σ) (e : MexError) (h : (SaveAsNpy.writeHeader os hb file s).1 = .error e) :
    e.id = "baa_save:io" ∧ ∃ code, e.message = "failed while writing file: " ++
      Win32CodeToString code := by
  unfold SaveAsNpy.writeHeader at h
  cases h1 : WriteAll os file magic 6 s with
  | mk r1 s1 =>
    rw [h1] at h
    cases r1 with
    | error e1 =>
      rw [andThen_error] at h
      exact WriteAll_error_message os file 6 magic s e (by rw [h1]; exact h)
    | ok u1 =>
      cases u1
      rw [andThen_ok] at h
      cases h2 : WriteAll os file [hb.major, hb.minor] 2 s1 with
      | mk r2 s2 =>
        rw [h2] at h
        cases r2 with
        | error e2 =>
          rw [andThen_error] at h
          exact WriteAll_error_message os file 2 _ s1 e (by rw [h2]; exact h)
        | ok u2 =>
          cases u2
          rw [andThen_ok] at h
          cases h3 : (if hb.major == 1 then WriteAll os file (lenBytes hb) 2 s2
              else WriteAll os file (lenBytes hb) 4 s2) with
          | mk r3 s3 =>
            rw [h3] at h
            cases r3 with
            | error e3 =>
              rw [andThen_error] at h
              simp only [Except.error.injEq] at h
              subst h
              split at h3
              · exact WriteAll_error_message os file 2 _ s2 e3 (by rw [h3])
              · exact WriteAll_error_message os file 4 _ s2 e3 (by rw [h3])
            | ok u3 =>
              cases u3
              rw [andThen_ok] at h
              exact WriteAll_error_message os file _ _ s3 e h

theorem writePayload_error_cases {σ : Type} (os : Win32 σ) (a : mxArray) (ty : TypeInfo)
    (file : Nat) (s : σ) (e : MexError)
    (h : (SaveAsNpy.writePayload os a ty file s).1 = .error e) :
    e.id = "baa_save:io"
    ∧ (e.message = "payload size overflow" → 2 ^ 64 - 1 < a.numberOfElements * ty.itemSize) := by
  by_cases hov : 2 ^ 64 - 1 < a.numberOfElements * ty.itemSize
  · rw [writePayload_overflow os a ty file s hov] at h
    simp only [Except.error.injEq] at h
    subst h
    exact ⟨rfl, fun _ => hov⟩
  · rw [writePayload_no_overflow os a ty file s (by omega)] at h
    split at h
    · split at h
      · simp only [Except.error.injEq] at h
        subst h
        exact ⟨rfl, fun hm => absurd hm (by decide)⟩
      · obtain ⟨hid, code, hmsg⟩ := WriteAll_error_message os file _ _ s e h
        refine ⟨hid, fun hm => ?_⟩
        rw [hmsg] at hm
        exact absurd hm (message_failed_ne _ _ rfl)
    · cases h

theorem ensureParent_error_message {σ : Type} (os : Win32 σ) (filename : List Char) (s : σ)
    (e : MexError) (h : (SaveAsNpy.ensureParent os filename s).1 = .error e) :
    e.id = "baa_save:io" ∧ ∃ tail, e.message.data = 'f' :: tail := by
  unfold SaveAsNpy.ensureParent at h
  split at h
  · split at h
    · cases h
    · exact EnsureDirectoryRecursive_error_message os _ _ (Nat.le_refl _) s e h
  · cases h

/-- Every error of `SaveAsNpy` is a type error thrown by `MapType` or an I/O error, and the
payload-overflow message implies that the payload size overflows. -/
theorem SaveAsNpy_error_cases {σ : Type} (os : Win32 σ) (a : mxArray) (filename : List Char)
    (s : σ) (e : MexError) (h : (SaveAsNpy os a filename s).1 = .error e) :
    (MapType a = .error e ∧ e.id = "baa_save:type")
    ∨ (e.id = "baa_save:io"
      ∧ ∃ ty, MapType a = .ok ty
        ∧ (e.message = "payload size overflow" →
            2 ^ 64 - 1 < a.numberOfElements * ty.itemSize)) := by
  cases hty : MapType a with
  | error e1 =>
    left
    simp only [SaveAsNpy, hty, Except.error.injEq] at h
    subst h
    exact ⟨rfl, MapType_error_type a e1 hty⟩
  | ok ty =>
    right
    suffices hs : e.id = "baa_save:io" ∧ (e.message = "payload size overflow" →
        2 ^ 64 - 1 < a.numberOfElements * ty.itemSize) from ⟨hs.1, ty, rfl, hs.2⟩
    cases hhdr : BuildNpyHeader (HeaderDict ty.descr (BuildShapeTuple a)) with
    | error e1 =>
      simp only [SaveAsNpy, hty, hhdr, Except.error.injEq] at h
      subst h
      rcases BuildNpyHeader_cases (HeaderDict ty.descr (BuildShapeTuple a)) with
        ⟨_, h1⟩ | ⟨_, _, h2⟩ | ⟨_, _, h3⟩
      · rw [h1] at hhdr
        cases hhdr
      · rw [h2] at hhdr
        cases hhdr
      · rw [h3] at hhdr
        simp only [Except.error.injEq] at hhdr
        subst hhdr
        exact ⟨rfl, fun hm => absurd hm (by decide)⟩
    | ok hb =>
      cases hdir : SaveAsNpy.ensureParent os filename s with
      | mk r s1 =>
        cases r with
        | error e1 =>
          simp only [SaveAsNpy, hty, hhdr, hdir, andThen_error, Except.error.injEq] at h
          subst h
          obtain ⟨hid, tail, hmsg⟩ := ensureParent_error_message os filename s e1
            (by rw [hdir])
          exact ⟨hid, fun hm => absurd hm (message_failed_ne _ tail hmsg)⟩
        | ok u =>
          cases u
          cases hopen : os.CreateFileW filename s1 with
          | mk r2 s2 =>
            cases r2 with
            | error code =>
              simp only [SaveAsNpy, hty, hhdr, hdir, andThen_ok, hopen, ThrowMex,
                Except.error.injEq] at h
              subst h
              exact ⟨rfl, fun hm => absurd hm (message_failed_ne _ _ rfl)⟩
            | ok file =>
              rw [SaveAsNpy_unfold os a filename s s1 s2 ty hb file hty hhdr hdir hopen] at h
              simp only [SaveAsNpy.writeContents] at h
              cases hwr : SaveAsNpy.writeHeader os hb file s2 with
              | mk r3 s3 =>
                rw [hwr] at h
                cases r3 with
                | error e3 =>
                  rw [andThen_error] at h
                  simp only [Except.error.injEq] at h
                  subst h
                  obtain ⟨hid, code, hmsg⟩ := writeHeader_error_message os hb file s2 e3
                    (by rw [hwr])
                  refine ⟨hid, fun hm => ?_⟩
                  rw [hmsg] at hm
                  exact absurd hm (message_failed_ne _ _ rfl)
                | ok u3 =>
                  cases u3
                  rw [andThen_ok] at h
                  exact writePayload_error_cases os a ty file s3 e h

/-! ## Claims on the payload size check and on the entry point -/

/-- C17: for an item size in {1, 2, 4, 8} the test `n > (2^64 - 1) / w` of `SaveAsNpy` holds
exactly when the product `n * w` exceeds 2^64 - 1; the payload step throws the
payload-overflow error exactly then, with the state untouched (before any write); otherwise
the computed `payloadBytes` is the exact product and the write, if any, is for that many
bytes; and an overflow error of the whole `SaveAsNpy` implies that the product overflows. -/
theorem C17_overflow_check_exact (a : mxArray) (ty : TypeInfo)
    (hw : ty.itemSize = 1 ∨ ty.itemSize = 2 ∨ ty.itemSize = 4 ∨ ty.itemSize = 8) :
    (2 ^ 64 - 1 < a.numberOfElements * ty.itemSize ↔
        a.numberOfElements > (2 ^ 64 - 1) / ty.itemSize)
    ∧ (∀ (σ : Type) (os : Win32 σ) (file : Nat) (s : σ),
        ((SaveAsNpy.writePayload os a ty file s).1
            = .error ⟨"baa_save:io", "payload size overflow"⟩ ↔
          2 ^ 64 - 1 < a.numberOfElements * ty.itemSize)
        ∧ (2 ^ 64 - 1 < a.numberOfElements * ty.itemSize →
            SaveAsNpy.writePayload os a ty file s
              = (.error ⟨"baa_save:io", "payload size overflow"⟩, s))
        ∧ (a.numberOfElements * ty.itemSize ≤ 2 ^ 64 - 1 →
            (a.numberOfElements * ty.itemSize) % 2 ^ 64 = a.numberOfElements * ty.itemSize
            ∧ SaveAsNpy.writePayload os a ty file s
                = if a.numberOfElements * ty.itemSize > 0 then
                    match a.data with
                    | none => (.error ⟨"baa_save:io", "input data pointer is null"⟩, s)
                    | some payload =>
                      WriteAll os file payload (a.numberOfElements * ty.itemSize) s
                  else (.ok (), s)))
    ∧ (∀ (σ : Type) (os : Win32 σ) (filename : List Char) (s : σ) (e : MexError),
        MapType a = .ok ty → (SaveAsNpy os a filename s).1 = .error e →
        e.message = "payload size overflow" →
        2 ^ 64 - 1 < a.numberOfElements * ty.itemSize) := by
  have hpos : 0 < ty.itemSize := by omega
  refine ⟨overflow_iff_test _ _ hpos, ?_, ?_⟩
  · intro σ os file s
    refine ⟨⟨?_, ?_⟩, ?_, ?_⟩
    · intro h
      exact (writePayload_error_cases os a ty file s _ h).2 rfl
    · intro hov
      rw [writePayload_overflow os a ty file s hov]
    · intro hov
      exact writePayload_overflow os a ty file s hov
    · intro hle
      exact ⟨Nat.mod_eq_of_lt (by omega),
        writePayload_no_overflow os a ty file s (by omega)⟩
  · intro σ os filename s e hty herr hmsg
    rcases SaveAsNpy_error_cases os a filename s e herr with ⟨hmt, _⟩ | ⟨_, ty2, hty2, himp⟩
    · rw [hty] at hmt
      cases hmt
    · rw [hty] at hty2
      cases hty2
      exact himp hmsg

/-- Witness for C17: 2^61 elements of 8 bytes overflow. -/
theorem C17_overflow_check_exact_witness :
    (2 ^ 64 - 1 < 2 ^ 61 * 8 ↔ 2 ^ 61 > (2 ^ 64 - 1) / 8)
    ∧ SaveAsNpy.writePayload reliableWriter
        ⟨.mxDOUBLE_CLASS, false, false, [1, 1], 2 ^ 61, none⟩ ⟨"<f8".toList, 8⟩ 0 []
      = (.error ⟨"baa_save:io", "payload size overflow"⟩, []) :=
  have h := C17_overflow_check_exact ⟨.mxDOUBLE_CLASS, false, false, [1, 1], 2 ^ 61, none⟩
    ⟨"<f8".toList, 8⟩ (Or.inr (Or.inr (Or.inr rfl)))
  ⟨h.1, (h.2.1 (List Nat) reliableWriter 0 []).2.1 (by decide)⟩

theorem MatlabCharToWString_not_char (arr : mxArray)
    (h : mxIsChar arr = false ∨ arr.dims.length ≠ 2 ∨ (mxGetM arr ≠ 1 ∧ mxGetN arr ≠ 1)) :
    MatlabCharToWString arr
      = .error ⟨"baa_save:type", "filename must be a MATLAB char vector"⟩ := by
  unfold MatlabCharToWString
  by_cases hc : mxIsChar arr = false
  · simp [hc, ThrowMex]
  · have hc2 : mxIsChar arr = true := by simpa using hc
    have hcond : (arr.dims.length != 2 || (mxGetM arr != 1 && mxGetN arr != 1)) = true := by
      rcases h with h | h | h
      · exact absurd h hc
      · simp [h]
      · simp [h.1, h.2]
    simp only [hc2, Bool.not_true, Bool.false_eq_true, if_false, hcond, if_true, ThrowMex]

theorem MatlabCharToWString_error_id (arr : mxArray) (e : MexError)
    (h : MatlabCharToWString arr = .error e) :
    e.id = "baa_save:type" ∨ e.id = "baa_save:io" := by
  unfold MatlabCharToWString at h
  split at h
  · simp only [ThrowMex, Except.error.injEq] at h
    subst h
    exact Or.inl rfl
  · split at h
    · simp only [ThrowMex, Except.error.injEq] at h
      subst h
      exact Or.inl rfl
    · split at h
      · simp only at h
        split at h
        · simp only [ThrowMex, Except.error.injEq] at h
          subst h
          exact Or.inr rfl
        · cases h
      · cases h

/-- C14: `mexFunction` fails with a usage error when outputs are requested or the number of
inputs is not 2; with a type error when the second input is not a char vector; and with a
type error when the filename was read and the first input is not a supported array. In each
case the world state is untouched, whatever the Win32 calls would do. -/
theorem C14_entry_validation {σ : Type} (os : Win32 σ) (nlhs : Int) (prhs : List mxArray)
    (s : σ) :
    (nlhs ≠ 0 ∨ prhs.length ≠ 2 →
        ∃ e, mexFunction os nlhs prhs s = (.error e, s) ∧ e.id = "baa_save:usage")
    ∧ (∀ a fname, nlhs = 0 → prhs = [a, fname] →
        (mxIsChar fname = false ∨ fname.dims.length ≠ 2
          ∨ (mxGetM fname ≠ 1 ∧ mxGetN fname ≠ 1)) →
        ∃ e, mexFunction os nlhs prhs s = (.error e, s) ∧ e.id = "baa_save:type")
    ∧ (∀ a fname filename, nlhs = 0 → prhs = [a, fname] →
        MatlabCharToWString fname = .ok filename →
        (a.isComplex = true ∨ a.isSparse = true
          ∨ (mxIsNumeric a = false ∧ mxIsLogical a = false)
          ∨ a.classID ∉ supportedClasses) →
        ∃ e, mexFunction os nlhs prhs s = (.error e, s) ∧ e.id = "baa_save:type") := by
  refine ⟨?_, ?_, ?_⟩
  · intro h
    rw [mexFunction_eq_body]
    unfold mexFunction.body
    by_cases h0 : nlhs = 0
    · have hlen : prhs.length ≠ 2 := by
        rcases h with h | h
        · exact absurd h0 h
        · exact h
      subst h0
      simp only [bne_self_eq_false, Bool.false_eq_true, if_false]
      split
      · simp at hlen
      · exact ⟨_, rfl, rfl⟩
    · have hb : (nlhs != 0) = true := by simp [h0]
      rw [if_pos hb]
      exact ⟨_, rfl, rfl⟩
  · intro a fname h0 hp hbad
    subst h0 hp
    rw [mexFunction_eq_body]
    simp only [mexFunction.body, bne_self_eq_false, Bool.false_eq_true, if_false,
      MatlabCharToWString_not_char fname hbad]
    exact ⟨_, rfl, rfl⟩
  · intro a fname filename h0 hp hname hbad
    subst h0 hp
    rw [mexFunction_eq_body]
    obtain ⟨e, he, hid⟩ := MapType_unsupported a hbad
    simp only [mexFunction.body, bne_self_eq_false, Bool.false_eq_true, if_false, hname,
      SaveAsNpy, he]
    exact ⟨e, rfl, hid⟩

/-- Witness for C14: a call that requests one output fails with a usage error and leaves
the explicit file system untouched. -/
theorem C14_entry_validation_witness :
    ∃ e, mexFunction Disk.win32 1 [] Disk.empty = (.error e, Disk.empty)
      ∧ e.id = "baa_save:usage" :=
  (C14_entry_validation Disk.win32 1 [] Disk.empty).1 (Or.inl (by decide))

/-- C16: every error `mexFunction` reports has the usage, the type or the I/O id: arity
violations are usage errors; a filename that is not a char vector and an array `MapType`
rejects are type errors; errors of the directory step, of the open, of `WriteAll`, of
`BuildNpyHeader` and of the payload step are I/O errors; what the `catch` clauses receive
that is not a `MexError` is reported under the I/O id; and the three ids are different. -/
theorem C16_error_categories {σ : Type} (os : Win32 σ) (nlhs : Int) (prhs : List mxArray)
    (s : σ) :
    (∀ e, (mexFunction os nlhs prhs s).1 = .error e →
        e.id = "baa_save:usage" ∨ e.id = "baa_save:type" ∨ e.id = "baa_save:io")
    ∧ (nlhs ≠ 0 ∨ prhs.length ≠ 2 →
        ∃ e, (mexFunction os nlhs prhs s).1 = .error e ∧ e.id = "baa_save:usage")
    ∧ (∀ fname : mxArray,
        (mxIsChar fname = false ∨ fname.dims.length ≠ 2
          ∨ (mxGetM fname ≠ 1 ∧ mxGetN fname ≠ 1)) →
        ∃ e, MatlabCharToWString fname = .error e ∧ e.id = "baa_save:type")
    ∧ (∀ (a : mxArray) (e : MexError), MapType a = .error e → e.id = "baa_save:type")
    ∧ (∀ (a : mxArray) (filename : List Char) (t : σ) (e : MexError),
        (SaveAsNpy os a filename t).1 = .error e →
        (MapType a = .error e ∧ e.id = "baa_save:type") ∨ e.id = "baa_save:io")
    ∧ (∀ (filename : List Char) (t : σ) (e : MexError),
        (SaveAsNpy.ensureParent os filename t).1 = .error e → e.id = "baa_save:io")
    ∧ (∀ (a : mxArray) (filename : List Char) (t t1 t2 : σ) (ty : TypeInfo) (hb : HeaderBlock)
        (code : Nat), MapType a = .ok ty →
        BuildNpyHeader (HeaderDict ty.descr (BuildShapeTuple a)) = .ok hb →
        SaveAsNpy.ensureParent os filename t = (.ok (), t1) →
        os.CreateFileW filename t1 = (.error code, t2) →
        ∃ e, SaveAsNpy os a filename t = (.error e, t2) ∧ e.id = "baa_save:io")
    ∧ (∀ (file : Nat) (data : List Nat) (n : Nat) (t : σ) (e : MexError),
        (WriteAll os file data n t).1 = .error e → e.id = "baa_save:io")
    ∧ (∀ (dict : List Char) (e : MexError), BuildNpyHeader dict = .error e →
        e.id = "baa_save:io")
    ∧ (∀ (a : mxArray) (ty : TypeInfo) (file : Nat) (t : σ) (e : MexError),
        (SaveAsNpy.writePayload os a ty file t).1 = .error e → e.id = "baa_save:io")
    ∧ (∀ e : MexError, mexFunction.report (.mex e) = e)
    ∧ (∀ what : String, (mexFunction.report (.std what)).id = "baa_save:io")
    ∧ (mexFunction.report .other).id = "baa_save:io"
    ∧ "baa_save:usage" ≠ "baa_save:type" ∧ "baa_save:usage" ≠ "baa_save:io"
    ∧ "baa_save:type" ≠ "baa_save:io" := by
  refine ⟨?_, ?_, ?_, MapType_error_type, ?_, ?_, ?_, ?_, ?_, ?_, fun e => rfl, fun _ => rfl,
    rfl, by decide, by decide, by decide⟩
  · intro e he
    rw [mexFunction_eq_body] at he
    unfold mexFunction.body at he
    split at he
    · simp only [ThrowMex, Except.error.injEq] at he
      subst he
      exact Or.inl rfl
    · split at he
      · split at he
        · rename_i e1 hname
          simp only [Except.error.injEq] at he
          subst he
          exact Or.inr (MatlabCharToWString_error_id _ e1 hname)
        · rcases SaveAsNpy_error_cases os _ _ s e he with ⟨_, hid⟩ | ⟨hid, _⟩
          · exact Or.inr (Or.inl hid)
          · exact Or.inr (Or.inr hid)
      · simp only [ThrowMex, Except.error.injEq] at he
        subst he
        exact Or.inl rfl
  · intro h
    obtain ⟨e, he, hid⟩ := (show ∃ e, mexFunction os nlhs prhs s = (.error e, s)
        ∧ e.id = "baa_save:usage" by
      rw [mexFunction_eq_body]
      unfold mexFunction.body
      by_cases h0 : nlhs = 0
      · have hlen : prhs.length ≠ 2 := by
          rcases h with h | h
          · exact absurd h0 h
          · exact h
        subst h0
        simp only [bne_self_eq_false, Bool.false_eq_true, if_false]
        split
        · simp at hlen
        · exact ⟨_, rfl, rfl⟩
      · have hb : (nlhs != 0) = true := by simp [h0]
        rw [if_pos hb]
        exact ⟨_, rfl, rfl⟩)
    exact ⟨e, by rw [he], hid⟩
  · intro fname hbad
    exact ⟨_, MatlabCharToWString_not_char fname hbad, rfl⟩
  · intro a filename t e he
    rcases SaveAsNpy_error_cases os a filename t e he with ⟨hm, hid⟩ | ⟨hid, _⟩
    · exact Or.inl ⟨hm, hid⟩
    · exact Or.inr hid
  · intro filename t e he
    exact (ensureParent_error_message os filename t e he).1
  · intro a filename t t1 t2 ty hb code hty hhdr hdir hopen
    refine ⟨⟨"baa_save:io", "failed to open output file '" ++ ToNarrow os filename ++
      "': " ++ Win32CodeToString code⟩, ?_, rfl⟩
    simp only [SaveAsNpy, hty, hhdr, hdir, andThen_ok, hopen, ThrowMex]
  · intro file data n t e he
    exact (WriteAll_error_message os file n data t e he).1
  · intro dict e he
    rcases BuildNpyHeader_cases dict with ⟨_, h1⟩ | ⟨_, _, h2⟩ | ⟨_, _, h3⟩
    · rw [h1] at he
      cases he
    · rw [h2] at he
      cases he
    · rw [h3] at he
      simp only [Except.error.injEq] at he
      subst he
      rfl
  · intro a ty file t e he
    exact (writePayload_error_cases os a ty file t e he).1

/-! ## The log does not change what the program does -/

theorem unlog_andThen {σ : Type} (r : Except MexError Unit × (σ × List Win32Call))
    (k : σ × List Win32Call → Except MexError Unit × (σ × List Win32Call))
    (k2 : σ → Except MexError Unit × σ) (hk : ∀ st, unlog (k st) = k2 st.1) :
    unlog (andThen r k) = andThen (unlog r) k2 := by
  obtain ⟨res, st⟩ := r
  cases res with
  | error e => rfl
  | ok u =>
    cases u
    exact hk st

theorem unlog_create {σ : Type} (os : Win32 σ) (dirPath : List Char)
    (st : σ × List Win32Call) :
    unlog (EnsureDirectoryRecursive.create os.logged dirPath st)
      = EnsureDirectoryRecursive.create os dirPath st.1 := by
  obtain ⟨s, log⟩ := st
  unfold EnsureDirectoryRecursive.create
  simp only [Win32.logged, ToNarrow]
  cases h : os.CreateDirectoryW dirPath s with
  | mk r s3 =>
    cases r with
    | ok u => cases u; rfl
    | error err =>
      simp only
      have hp := PathExistsAsDirectory_logged os dirPath s3
        (log ++ [Win32Call.CreateDirectoryW dirPath (.error err)])
      simp only [Win32.logged] at hp
      by_cases he : (err == ERROR_ALREADY_EXISTS) = true
      · simp only [he, if_true, hp]
        cases hpe : PathExistsAsDirectory os dirPath s3 with
        | mk b s4 => cases b <;> rfl
      · simp only [he, if_false]
        rfl

theorem unlog_EnsureDirectoryRecursive {σ : Type} (os : Win32 σ) (n : Nat) :
    ∀ (dirPath : List Char), dirPath.length ≤ n → ∀ (st : σ × List Win32Call),
      unlog (EnsureDirectoryRecursive os.logged dirPath st)
        = EnsureDirectoryRecursive os dirPath st.1 := by
  induction n with
  | zero =>
    intro dirPath hl st
    have hnil : dirPath = [] := List.length_eq_zero.mp (by omega)
    subst hnil
    rw [EnsureDirectoryRecursive_unfold, EnsureDirectoryRecursive_unfold]
    rfl
  | succ n ih =>
    intro dirPath hl st
    obtain ⟨s, log⟩ := st
    rw [EnsureDirectoryRecursive_unfold, EnsureDirectoryRecursive_unfold]
    by_cases hemp : dirPath.isEmpty
    · rw [if_pos hemp, if_pos hemp]
      rfl
    · rw [if_neg hemp, if_neg hemp]
      by_cases hroot : IsDriveRoot dirPath
      · rw [if_pos hroot, if_pos hroot]
        rfl
      · rw [if_neg hroot, if_neg hroot, PathExistsAsDirectory_logged]
        cases hpe : PathExistsAsDirectory os dirPath s with
        | mk b s1 =>
          cases b with
          | true => rfl
          | false =>
            simp only
            rw [unlog_andThen _ _ (fun s2 => EnsureDirectoryRecursive.create os dirPath s2)
              (fun st2 => unlog_create os dirPath st2)]
            congr 1
            cases hf : find_last_of dirPath separators with
            | none => rfl
            | some split =>
              simp only
              by_cases hpar : (dirPath.take split).isEmpty
              · rw [if_pos hpar, if_pos hpar]
                rfl
              · rw [if_neg hpar, if_neg hpar]
                have hb := (find_last_of_bound dirPath split hf).1
                exact ih (dirPath.take split) (by rw [List.length_take]; omega) _

theorem unlog_writeHeader {σ : Type} (os : Win32 σ) (hb : HeaderBlock) (file : Nat)
    (st : σ × List Win32Call) :
    unlog (SaveAsNpy.writeHeader os.logged hb file st)
      = SaveAsNpy.writeHeader os hb file st.1 := by
  unfold SaveAsNpy.writeHeader
  rw [unlog_andThen _ _ _ ?_, unlog_WriteAll]
  intro st1
  rw [unlog_andThen _ _ _ ?_, unlog_WriteAll]
  intro st2
  rw [unlog_andThen _ _ _ ?_]
  · congr 1
    split
    · exact unlog_WriteAll os file 2 _ st2
    · exact unlog_WriteAll os file 4 _ st2
  · intro st3
    exact unlog_WriteAll os file _ _ st3

theorem unlog_writePayload {σ : Type} (os : Win32 σ) (a : mxArray) (ty : TypeInfo)
    (file : Nat) (st : σ × List Win32Call) :
    unlog (SaveAsNpy.writePayload os.logged a ty file st)
      = SaveAsNpy.writePayload os a ty file st.1 := by
  unfold SaveAsNpy.writePayload
  simp only
  split
  · rfl
  · split
    · split
      · rfl
      · exact unlog_WriteAll os file _ _ st
    · rfl

theorem unlog_ensureParent {σ : Type} (os : Win32 σ) (filename : List Char)
    (st : σ × List Win32Call) :
    unlog (SaveAsNpy.ensureParent os.logged filename st)
      = SaveAsNpy.ensureParent os filename st.1 := by
  unfold SaveAsNpy.ensureParent
  split
  · split
    · rfl
    · exact unlog_EnsureDirectoryRecursive os _ _ (Nat.le_refl _) st
  · rfl

/-- Running `SaveAsNpy` over the logged file system gives the result and the final state of
the run over the file system itself. -/
theorem unlog_SaveAsNpy {σ : Type} (os : Win32 σ) (a : mxArray) (filename : List Char)
    (st : σ × List Win32Call) :
    unlog (SaveAsNpy os.logged a filename st) = SaveAsNpy os a filename st.1 := by
  cases hty : MapType a with
  | error e =>
    simp only [SaveAsNpy, hty]
    rfl
  | ok ty =>
    cases hhdr : BuildNpyHeader (HeaderDict ty.descr (BuildShapeTuple a)) with
    | error e =>
      simp only [SaveAsNpy, hty, hhdr]
      rfl
    | ok hb =>
      simp only [SaveAsNpy, hty, hhdr]
      rw [unlog_andThen _ _ _ ?_, unlog_ensureParent]
      intro st1
      obtain ⟨s1, log1⟩ := st1
      simp only [Win32.logged, ToNarrow]
      cases hopen : os.CreateFileW filename s1 with
      | mk r s2 =>
        cases r with
        | error code => rfl
        | ok file =>
          simp only
          have hw : unlog (SaveAsNpy.writeContents os.logged a ty hb file
              (s2, log1 ++ [Win32Call.CreateFileW filename (.ok file)]))
              = SaveAsNpy.writeContents os a ty hb file s2 := by
            unfold SaveAsNpy.writeContents
            rw [unlog_andThen _ _ _ (fun st3 => unlog_writePayload os a ty file st3),
              unlog_writeHeader]
          have hw1 := congrArg Prod.fst hw
          have hw2 := congrArg Prod.snd hw
          simp only [unlog] at hw1 hw2
          simp only [unlog, Win32.logged] at hw1 hw2 ⊢
          rw [hw1, hw2]

/-! ## Lemmas on the directory step on the explicit file system -/

theorem parentOf_initial (path : List Char) : parentOf path <+: path := by
  unfold parentOf
  split
  · exact List.take_prefix _ _
  · exact List.nil_prefix

theorem parentOf_length (path : List Char) (h : path ≠ []) :
    (parentOf path).length < path.length := by
  unfold parentOf
  split
  · rename_i split hf
    have hb := (find_last_of_bound path split hf).1
    rw [List.length_take]
    omega
  · exact List.length_pos.mpr h

/-- The body of `EnsureDirectoryRecursive`, with the nested call written on the text before
the last separator: when that text is empty the nested call does nothing. -/
theorem EnsureDirectoryRecursive_step {σ : Type} (os : Win32 σ) (dirPath : List Char)
    (s : σ) :
    EnsureDirectoryRecursive os dirPath s
      = if dirPath.isEmpty then (.ok (), s)
        else if IsDriveRoot dirPath then (.ok (), s)
        else
          match PathExistsAsDirectory os dirPath s with
          | (true, s1) => (.ok (), s1)
          | (false, s1) =>
            andThen (EnsureDirectoryRecursive os (parentOf dirPath) s1)
              fun s2 => EnsureDirectoryRecursive.create os dirPath s2 := by
  have hnil : ∀ t : σ, EnsureDirectoryRecursive os [] t = (.ok (), t) := by
    intro t
    rw [EnsureDirectoryRecursive_unfold]
    rfl
  rw [EnsureDirectoryRecursive_unfold]
  split
  · rfl
  · split
    · rfl
    · split
      · rfl
      · rename_i s1 _
        congr 1
        unfold parentOf
        cases hf : find_last_of dirPath separators with
        | none => exact (hnil s1).symm
        | some split =>
          simp only
          by_cases hpar : (dirPath.take split).isEmpty
          · rw [if_pos hpar]
            have : dirPath.take split = [] := List.isEmpty_iff.mp hpar
            rw [this]
            exact (hnil s1).symm
          · rw [if_neg hpar]

theorem isVolumeRoot_iff (p : List Char) :
    Disk.isVolumeRoot p = true
      ↔ ∃ x, p = [x, ':'] ∨ p = [x, ':', '\\'] ∨ p = [x, ':', '/'] := by
  constructor
  · intro h
    unfold Disk.isVolumeRoot at h
    split at h
    · exact ⟨_, Or.inl rfl⟩
    · exact ⟨_, Or.inr (Or.inl rfl)⟩
    · exact ⟨_, Or.inr (Or.inr rfl)⟩
    · cases h
  · rintro ⟨x, rfl | rfl | rfl⟩ <;> rfl

theorem IsSlash_iff (c : Char) : IsSlash c = true ↔ c = '\\' ∨ c = '/' := by
  simp only [IsSlash, Bool.or_eq_true, beq_iff_eq]

/-- The function `IsDriveRoot` is true exactly on the texts `X:`, `X:\` and `X:/`. -/
theorem IsDriveRoot_iff (p : List Char) :
    IsDriveRoot p = true ↔ ∃ x, p = [x, ':'] ∨ p = [x, ':', '\\'] ∨ p = [x, ':', '/'] := by
  constructor
  · intro h
    unfold IsDriveRoot at h
    split at h
    · rename_i x c1
      simp only [beq_iff_eq] at h
      subst h
      exact ⟨x, Or.inl rfl⟩
    · rename_i x c1 c2
      simp only [Bool.and_eq_true, beq_iff_eq, IsSlash, Bool.or_eq_true] at h
      obtain ⟨h1, h2 | h2⟩ := h
      · subst h1
        subst h2
        exact ⟨x, Or.inr (Or.inl rfl)⟩
      · subst h1
        subst h2
        exact ⟨x, Or.inr (Or.inr rfl)⟩
    · cases h
  · rintro ⟨x, rfl | rfl | rfl⟩ <;> simp [IsDriveRoot, IsSlash]

/-- The program's drive-root test agrees with the volume roots of the explicit file
system. -/
theorem IsDriveRoot_eq_isVolumeRoot (p : List Char) : IsDriveRoot p = Disk.isVolumeRoot p := by
  have h1 := IsDriveRoot_iff p
  have h2 := isVolumeRoot_iff p
  cases ha : IsDriveRoot p <;> cases hb : Disk.isVolumeRoot p <;> simp_all

theorem parentExists_eq (d : Disk) (path : List Char) :
    d.parentExists path
      = ((parentOf path).isEmpty || Disk.isVolumeRoot (parentOf path)
          || d.isDir (parentOf path)) := by
  unfold Disk.parentExists parentOf
  cases hf : find_last_of path separators with
  | none => rfl
  | some split => rfl

theorem PathExistsAsDirectory_disk (path : List Char) (d : Disk) :
    PathExistsAsDirectory Disk.win32 path d = (d.isDir path, d) := by
  show PathExistsAsDirectory ⟨Disk.GetFileAttributesW, _, _, _, _, _⟩ path d = _
  simp only [PathExistsAsDirectory, Disk.GetFileAttributesW]
  by_cases h1 : d.isDir path = true
  · simp [h1, FILE_ATTRIBUTE_DIRECTORY]
  · have h1f : d.isDir path = false := by simpa using h1
    by_cases h2 : (d.file path).isSome = true
    · simp only [h1f, Bool.false_eq_true, if_false, h2, if_true, FILE_ATTRIBUTE_DIRECTORY,
        FILE_ATTRIBUTE_NORMAL]
      rfl
    · simp [h1f, h2]

theorem create_logged_ok {σ : Type} (os : Win32 σ) (dirPath : List Char) (s s3 : σ)
    (log : List Win32Call) (h : os.CreateDirectoryW dirPath s = (.ok (), s3)) :
    EnsureDirectoryRecursive.create os.logged dirPath (s, log)
      = (.ok (), (s3, log ++ [Win32Call.CreateDirectoryW dirPath (.ok ())])) := by
  unfold EnsureDirectoryRecursive.create
  simp only [Win32.logged, h]

theorem MissingChain_nil (d : Disk) (path : List Char)
    (h : path = [] ∨ Disk.isVolumeRoot path = true ∨ d.isDir path = true) :
    MissingChain d path [] :=
  ⟨List.chain'_nil, by simp, by simp, by simp, by simp [h]⟩

/-- On the explicit file system with a log, when neither the path nor an ancestor of it is a
regular file,
`EnsureDirectoryRecursive` returns normally, its directory-creation calls all succeed and are
exactly the chain of missing ancestors, outermost first, and only the directory table
changes, by the entries of that chain. -/
theorem EnsureDirectoryRecursive_disk_chain (n : Nat) :
    ∀ (p : List Char), p.length ≤ n → ∀ (d : Disk) (log : List Win32Call),
      (∀ q, q ≠ [] → AncestorOrSelf q p → d.file q = none) →
      ∃ (L : List (List Char)) (d2 : Disk) (evs : List Win32Call),
        EnsureDirectoryRecursive Disk.win32.logged p (d, log) = (.ok (), (d2, log ++ evs))
        ∧ createDirectoryCalls evs = L
        ∧ (∀ q res, Win32Call.CreateDirectoryW q res ∈ evs → res = .ok ())
        ∧ d2.file = d.file ∧ d2.handle = d.handle ∧ d2.nextHandle = d.nextHandle
        ∧ (∀ q, d2.isDir q = (d.isDir q || decide (q ∈ L)))
        ∧ MissingChain d p L
        ∧ (∀ q ∈ L, q <+: p) := by
  induction n with
  | zero =>
    intro p hl d log _
    have hnil : p = [] := List.length_eq_zero.mp (by omega)
    subst hnil
    rw [EnsureDirectoryRecursive_step]
    exact ⟨[], d, [], by simp, rfl, by simp, rfl, rfl, rfl, by simp,
      MissingChain_nil d [] (Or.inl rfl), by simp⟩
  | succ n ih =>
    intro p hl d log hfile
    rw [EnsureDirectoryRecursive_step]
    by_cases hemp : p.isEmpty
    · rw [if_pos hemp]
      exact ⟨[], d, [], by simp, rfl, by simp, rfl, rfl, rfl, by simp,
        MissingChain_nil d p (Or.inl (List.isEmpty_iff.mp hemp)), by simp⟩
    · rw [if_neg hemp]
      have hne : p ≠ [] := fun h => hemp (by rw [h]; rfl)
      by_cases hroot : IsDriveRoot p
      · rw [if_pos hroot]
        exact ⟨[], d, [], by simp, rfl, by simp, rfl, rfl, rfl, by simp,
          MissingChain_nil d p (Or.inr (Or.inl (by rw [← IsDriveRoot_eq_isVolumeRoot, hroot]))),
          by simp⟩
      · rw [if_neg hroot, PathExistsAsDirectory_logged, PathExistsAsDirectory_disk]
        have hrootf : Disk.isVolumeRoot p = false := by
          rw [← IsDriveRoot_eq_isVolumeRoot]
          simpa using hroot
        cases hdir : d.isDir p with
        | true =>
          exact ⟨[], d, [Win32Call.GetFileAttributesW p (Disk.win32.GetFileAttributesW p d).1],
            rfl, rfl, by simp, rfl, rfl, rfl, by simp,
            MissingChain_nil d p (Or.inr (Or.inr hdir)), by simp⟩
        | false =>
          simp only
          have hplen := parentOf_length p hne
          obtain ⟨Lp, d1, evs1, hrun, hcalls, hres, hfile1, hhandle1, hnext1, hisdir1, hchain,
              hpre⟩ :=
            ih (parentOf p) (by omega) d
              (log ++ [Win32Call.GetFileAttributesW p (Disk.win32.GetFileAttributesW p d).1])
              (fun q hq0 hq => hfile q hq0 (AncestorOrSelf.up q p hq))
          obtain ⟨hc1, hc2, hc3, hc4, hc5⟩ := hchain
          have hnotin : p ∉ Lp := by
            intro hin
            have := (hpre p hin).length_le
            omega
          have hd1p : d1.isDir p = false := by
            rw [hisdir1 p, hdir]
            simp [hnotin]
          have hd1f : d1.file p = none := by
            rw [hfile1]
            exact hfile p hne (AncestorOrSelf.self p)
          have hpar : d1.parentExists p = true := by
            rw [parentExists_eq]
            by_cases hLp : Lp = []
            · rcases hc5.mp hLp with h | h | h
              · simp [h]
              · simp [h]
              · have : d1.isDir (parentOf p) = true := by
                  rw [hisdir1, h]
                  rfl
                simp [this]
            · obtain ⟨q, hq⟩ := Option.ne_none_iff_exists'.mp
                (fun h => hLp (List.getLast?_eq_none_iff.mp h))
              have hqp := hc3 q hq
              have hmem : parentOf p ∈ Lp := by
                rw [← hqp]
                exact List.mem_of_getLast?_eq_some hq
              have : d1.isDir (parentOf p) = true := by
                rw [hisdir1]
                simp [hmem]
              simp [this]
          have hcreate : Disk.win32.CreateDirectoryW p d1
              = (.ok (), { d1 with isDir := fun q => if q = p then true else d1.isDir q }) := by
            show Disk.CreateDirectoryW p d1 = _
            simp [Disk.CreateDirectoryW, hd1p, hd1f, hpar]
          rw [hrun, andThen_ok, create_logged_ok Disk.win32 p d1 _ _ hcreate]
          refine ⟨Lp ++ [p], { d1 with isDir := fun q => if q = p then true else d1.isDir q },
            Win32Call.GetFileAttributesW p (Disk.win32.GetFileAttributesW p d).1
              :: (evs1 ++ [Win32Call.CreateDirectoryW p (.ok ())]),
            by simp, ?_, ?_, hfile1, hhandle1, hnext1, ?_, ?_, ?_⟩
          · simp [createDirectoryCalls, createDirectoryCalls_append, hcalls]
          · intro q res hmem
            simp only [List.mem_cons, List.mem_append, List.mem_singleton, false_or,
              List.not_mem_nil, or_false] at hmem
            rcases hmem with hmem | hmem | hmem
            · cases hmem
            · exact hres q res hmem
            · cases hmem
              rfl
          · intro q
            simp only [hisdir1 q, List.mem_append, List.mem_singleton]
            by_cases hqp : q = p
            · simp [hqp]
            · simp [hqp]
          · refine ⟨?_, ?_, ?_, ?_, ?_⟩
            · refine List.Chain'.append hc1 (List.chain'_singleton _) ?_
              intro x hx y hy
              simp only [List.head?_cons, Option.mem_def, Option.some.injEq] at hy
              rw [← hy]
              exact hc3 x hx
            · intro q hq
              rcases List.mem_append.mp hq with hq | hq
              · exact hc2 q hq
              · rw [List.mem_singleton] at hq
                subst hq
                exact ⟨hne, hdir, hrootf⟩
            · intro q hq
              simp at hq
              exact hq.symm
            · intro q hq
              cases hLp : Lp with
              | nil =>
                rw [hLp] at hq
                simp at hq
                subst hq
                exact hc5.mp hLp
              | cons x xs =>
                rw [hLp] at hq
                simp at hq
                subst hq
                exact hc4 x (by rw [hLp]; rfl)
            · constructor
              · intro h
                simp at h
              · rintro (h | h | h)
                · exact absurd h hne
                · rw [hrootf] at h
                  cases h
                · rw [hdir] at h
                  cases h
          · intro q hq
            rcases List.mem_append.mp hq with hq | hq
            · exact (hpre q hq).trans (parentOf_initial p)
            · rw [List.mem_singleton] at hq
              subst hq
              exact List.prefix_refl _

/-- A chain of missing ancestors of a path that is not itself a stopping point ends with the
path, and what comes before is the chain of the text before its last separator. -/
theorem MissingChain_concat_inv (d : Disk) (path : List Char) (L : List (List Char))
    (h : MissingChain d path L)
    (hstop : ¬ (path = [] ∨ Disk.isVolumeRoot path = true ∨ d.isDir path = true)) :
    ∃ L1, L = L1 ++ [path] ∧ MissingChain d (parentOf path) L1 := by
  obtain ⟨hc1, hc2, hc3, hc4, hc5⟩ := h
  have hne : L ≠ [] := fun h0 => hstop (hc5.mp h0)
  obtain ⟨L1, x, hL⟩ := (List.eq_nil_or_concat L).resolve_left hne
  rw [List.concat_eq_append] at hL
  subst hL
  have hx : x = path := hc3 x (by simp)
  subst hx
  have hlast : ∀ q, L1.getLast? = some q → q = parentOf x := by
    intro q hq
    exact (List.chain'_append.mp hc1).2.2 q hq x (by simp)
  refine ⟨L1, rfl, (List.chain'_append.mp hc1).1, ?_, hlast, ?_, ?_⟩
  · intro q hq
    exact hc2 q (List.mem_append_left _ hq)
  · intro q hq
    refine hc4 q ?_
    cases L1 with
    | nil => cases hq
    | cons y ys => exact hq
  · constructor
    · intro h0
      subst h0
      exact hc4 x rfl
    · intro hs
      by_contra hL1
      obtain ⟨q, hq⟩ := Option.ne_none_iff_exists'.mp
        (fun h => hL1 (List.getLast?_eq_none_iff.mp h))
      have hqp := hlast q hq
      obtain ⟨h1, h3, h4⟩ := hc2 q (List.mem_append_left _ (List.mem_of_getLast?_eq_some hq))
      rw [hqp] at h1 h3 h4
      rcases hs with h | h | h
      · exact h1 h
      · rw [h] at h4
        cases h4
      · rw [h] at h3
        cases h3

/-- The chain of missing ancestors of a path is determined by the path and the file
system. -/
theorem MissingChain_unique (d : Disk) (n : Nat) :
    ∀ (path : List Char), path.length ≤ n → ∀ L L2 : List (List Char),
      MissingChain d path L → MissingChain d path L2 → L = L2 := by
  induction n with
  | zero =>
    intro path hl L L2 h1 h2
    have hnil : path = [] := List.length_eq_zero.mp (by omega)
    rw [h1.2.2.2.2.mpr (Or.inl hnil), h2.2.2.2.2.mpr (Or.inl hnil)]
  | succ n ih =>
    intro path hl L L2 h1 h2
    by_cases hstop : path = [] ∨ Disk.isVolumeRoot path = true ∨ d.isDir path = true
    · rw [h1.2.2.2.2.mpr hstop, h2.2.2.2.2.mpr hstop]
    · obtain ⟨L1, hL, hm1⟩ := MissingChain_concat_inv d path L h1 hstop
      obtain ⟨L3, hL2, hm2⟩ := MissingChain_concat_inv d path L2 h2 hstop
      have hne : path ≠ [] := fun h => hstop (Or.inl h)
      have hlen := parentOf_length path hne
      rw [hL, hL2, ih (parentOf path) (by omega) L1 L3 hm1 hm2]

/-! ## Lemmas on the calls of `SaveAsNpy` after the directory step -/

theorem NoCreateSince_refl {σ : Type} (res : Except MexError Unit) (s : σ)
    (log : List Win32Call) : NoCreateSince log (res, (s, log)) :=
  ⟨[], by simp, rfl⟩

theorem NoCreateSince_trans {σ : Type} (log log2 : List Win32Call) (evs : List Win32Call)
    (r : Except MexError Unit × (σ × List Win32Call))
    (h1 : log2 = log ++ evs) (h2 : createDirectoryCalls evs = [])
    (h3 : NoCreateSince log2 r) : NoCreateSince log r := by
  obtain ⟨evs2, he, hc⟩ := h3
  refine ⟨evs ++ evs2, ?_, ?_⟩
  · rw [he, h1, List.append_assoc]
  · rw [createDirectoryCalls_append, h2, hc]
    rfl

theorem NoCreateSince_andThen {σ : Type} (log : List Win32Call)
    (r : Except MexError Unit × (σ × List Win32Call))
    (k : σ × List Win32Call → Except MexError Unit × (σ × List Win32Call))
    (hr : NoCreateSince log r) (hk : ∀ st, NoCreateSince st.2 (k st)) :
    NoCreateSince log (andThen r k) := by
  obtain ⟨res, st⟩ := r
  cases res with
  | error e => exact hr
  | ok u =>
    cases u
    obtain ⟨evs, he, hc⟩ := hr
    exact NoCreateSince_trans log st.2 evs _ he hc (hk st)

theorem WriteAll_noCreate {σ : Type} (os : Win32 σ) (file : Nat) (n : Nat) :
    ∀ (data : List Nat) (st : σ × List Win32Call),
      NoCreateSince st.2 (WriteAll os.logged file data n st) := by
  induction n using Nat.strong_induction_on with
  | _ n ih =>
    intro data st
    obtain ⟨s, log⟩ := st
    by_cases hn : n > 0
    · obtain ⟨_, hpos, _, _⟩ := chunk_eq n hn
      rw [WriteAll_logged_step os file data n s log hn]
      split
      · exact ⟨[Win32Call.WriteFile file (data.take (min n kChunk))
          (os.WriteFile file (data.take (min n kChunk)) s).1], rfl, rfl⟩
      · exact NoCreateSince_trans log _ [Win32Call.WriteFile file (data.take (min n kChunk))
          (os.WriteFile file (data.take (min n kChunk)) s).1] _ rfl rfl
          (ih (n - min n kChunk) (by omega) _ _)
    · have hn0 : n = 0 := by omega
      subst hn0
      rw [WriteAll_zero]
      exact NoCreateSince_refl _ _ _

theorem writeContents_noCreate {σ : Type} (os : Win32 σ) (a : mxArray) (ty : TypeInfo)
    (hb : HeaderBlock) (file : Nat) (st : σ × List Win32Call) :
    NoCreateSince st.2 (SaveAsNpy.writeContents os.logged a ty hb file st) := by
  unfold SaveAsNpy.writeContents
  apply NoCreateSince_andThen
  · unfold SaveAsNpy.writeHeader
    apply NoCreateSince_andThen _ _ _ (WriteAll_noCreate os file _ _ st)
    intro st1
    apply NoCreateSince_andThen _ _ _ (WriteAll_noCreate os file _ _ st1)
    intro st2
    apply NoCreateSince_andThen
    · split
      · exact WriteAll_noCreate os file _ _ st2
      · exact WriteAll_noCreate os file _ _ st2
    · intro st3
      exact WriteAll_noCreate os file _ _ st3
  · intro st1
    unfold SaveAsNpy.writePayload
    simp only
    split
    · exact NoCreateSince_refl _ _ _
    · split
      · split
        · exact NoCreateSince_refl _ _ _
        · exact WriteAll_noCreate os file _ _ st1
      · exact NoCreateSince_refl _ _ _

theorem ensureParent_eq {σ : Type} (os : Win32 σ) (filename : List Char) (s : σ) :
    SaveAsNpy.ensureParent os filename s
      = EnsureDirectoryRecursive os (parentOf filename) s := by
  have hnil : EnsureDirectoryRecursive os [] s = (.ok (), s) := by
    rw [EnsureDirectoryRecursive_unfold]
    rfl
  unfold SaveAsNpy.ensureParent parentOf
  cases hf : find_last_of filename separators with
  | none => exact hnil.symm
  | some split =>
    simp only
    by_cases hpar : (filename.take split).isEmpty
    · rw [if_pos hpar, List.isEmpty_iff.mp hpar]
      exact hnil.symm
    · rw [if_neg hpar]

/-- After a directory step that returned, the log of `SaveAsNpy` continues with the
`CreateFileW` call on the destination and has no directory-creation call after it. -/
theorem SaveAsNpy_logged_after_dir {σ : Type} (os : Win32 σ) (a : mxArray)
    (filename : List Char) (s s1 : σ) (log log1 : List Win32Call) (ty : TypeInfo)
    (hb : HeaderBlock) (hty : MapType a = .ok ty)
    (hhdr : BuildNpyHeader (HeaderDict ty.descr (BuildShapeTuple a)) = .ok hb)
    (hdir : SaveAsNpy.ensureParent os.logged filename (s, log) = (.ok (), (s1, log1))) :
    ∃ rest, (SaveAsNpy os.logged a filename (s, log)).2.2
        = log1 ++ Win32Call.CreateFileW filename (os.CreateFileW filename s1).1 :: rest
      ∧ createDirectoryCalls rest = [] := by
  simp only [SaveAsNpy, hty, hhdr, hdir, andThen_ok]
  simp only [Win32.logged, ToNarrow]
  cases hopen : os.CreateFileW filename s1 with
  | mk r s2 =>
    cases r with
    | error code => exact ⟨[], rfl, rfl⟩
    | ok file =>
      simp only
      obtain ⟨evs, he, hc⟩ := writeContents_noCreate os a ty hb file
        (s2, log1 ++ [Win32Call.CreateFileW filename (.ok file)])
      simp only [Win32.logged] at he
      refine ⟨evs ++ [Win32Call.CloseHandle file], ?_, ?_⟩
      · rw [he]
        simp
      · rw [createDirectoryCalls_append, hc]
        rfl

theorem find_last_of_none (path : List Char) (h : ∀ c ∈ path, IsSlash c = false) :
    find_last_of path separators = none := by
  induction path with
  | nil => rfl
  | cons c rest ih =>
    rw [find_last_of, ih (fun x hx => h x (List.mem_cons_of_mem _ hx))]
    have hc := h c (List.mem_cons_self _ _)
    simp only [IsSlash, Bool.or_eq_false_iff, beq_eq_false_iff_ne, ne_eq] at hc
    simp [separators, hc.1, hc.2]

theorem parentOf_under_drive_root (x sep : Char) (name : List Char)
    (hsep : IsSlash sep = true) (hname : ∀ c ∈ name, IsSlash c = false) :
    parentOf (x :: ':' :: sep :: name) = [x, ':'] := by
  have h0 : find_last_of (sep :: name) separators = some 0 := by
    rw [find_last_of, find_last_of_none name hname]
    simp only [IsSlash, Bool.or_eq_true, beq_iff_eq] at hsep
    rcases hsep with h | h <;> simp [separators, h]
  have h1 : find_last_of (':' :: sep :: name) separators = some 1 := by
    rw [find_last_of, h0]
  have h2 : find_last_of (x :: ':' :: sep :: name) separators = some 2 := by
    rw [find_last_of, h1]
  unfold parentOf
  rw [h2]
  rfl

/-- The text before the last separator of `p ++ sep :: name`, for a separator `sep` and a
`name` without separator, is `p`. -/
theorem parentOf_append (p : List Char) (sep : Char) (name : List Char)
    (hsep : IsSlash sep = true) (hname : ∀ c ∈ name, IsSlash c = false) :
    parentOf (p ++ sep :: name) = p := by
  have h0 : find_last_of (sep :: name) separators = some 0 := by
    rw [find_last_of, find_last_of_none name hname]
    simp only [IsSlash, Bool.or_eq_true, beq_iff_eq] at hsep
    rcases hsep with h | h <;> simp [separators, h]
  have hp : find_last_of (p ++ sep :: name) separators = some p.length := by
    induction p with
    | nil => exact h0
    | cons c rest ih =>
      rw [List.cons_append, find_last_of, ih]
      rfl
  unfold parentOf
  rw [hp]
  exact List.take_left _ _

theorem EnsureDirectoryRecursive_noop {σ : Type} (os : Win32 σ) (p : List Char) (s : σ)
    (h : p = [] ∨ IsDriveRoot p = true) :
    EnsureDirectoryRecursive os p s = (.ok (), s) := by
  rw [EnsureDirectoryRecursive_unfold]
  rcases h with h | h
  · rw [h]
    rfl
  · by_cases hemp : p.isEmpty
    · rw [if_pos hemp]
    · rw [if_neg hemp, if_pos h]

theorem parentOf_of_no_separator (path : List Char)
    (h : find_last_of path separators = none) : parentOf path = [] := by
  unfold parentOf
  rw [h]

theorem create_already_exists {σ : Type} (os : Win32 σ) (p : List Char) (s2 s3 s4 : σ)
    (hc : os.CreateDirectoryW p s2 = (.error ERROR_ALREADY_EXISTS, s3))
    (hp : PathExistsAsDirectory os p s3 = (true, s4)) :
    EnsureDirectoryRecursive.create os p s2 = (.ok (), s4) := by
  unfold EnsureDirectoryRecursive.create
  simp only [hc, beq_self_eq_true, if_true, hp]

/-! ## Claims on the directory step on the explicit file system -/

/-- C15: on the explicit file system with a log, for an array that reaches the I/O phase.
(1) When neither the parent of the destination nor an ancestor of it is a regular file, the
directory step returns, and the directory-creation calls of `SaveAsNpy` are exactly the chain
of missing ancestors of the parent, outermost first: each created path is the text before the
last separator of the next, the last is the parent of the destination, none is a volume root
(`X:`, `X:\`, `X:/`) or an existing directory, and the walk up stops at an empty text, a
volume root or an existing directory; that chain is the only one; every call succeeds, all
come before the `CreateFileW` call on the destination and none after it; afterwards the
created paths are directories, and with a valid payload and a destination that is not a
directory the open and the whole conversion succeed.
(2) For a destination without separator, or of the form `X:\name` or `X:/name` with no
further separator, no directory-creation call is made and the conversion succeeds.
(3) The program's drive-root test is true exactly on `X:`, `X:\` and `X:/`, and the parent
of a path is the text before its last `\` or `/`, empty when it has none.
(4) A creation attempt that reports `ERROR_ALREADY_EXISTS` for a path that is a directory
counts as success, whatever the file system. -/
theorem C15_directory_creation (a : mxArray) (filename : List Char) (d : Disk)
    (ty : TypeInfo) (hb : HeaderBlock) (hty : MapType a = .ok ty)
    (hhdr : BuildNpyHeader (HeaderDict ty.descr (BuildShapeTuple a)) = .ok hb) :
    ((∀ q, q ≠ [] → AncestorOrSelf q (parentOf filename) → d.file q = none) →
        ∃ (evsDir rest : List Win32Call) (d1 : Disk),
          SaveAsNpy.ensureParent Disk.win32.logged filename (d, []) = (.ok (), (d1, evsDir))
          ∧ (SaveAsNpy Disk.win32.logged a filename (d, [])).2.2
              = evsDir ++ Win32Call.CreateFileW filename (Disk.CreateFileW filename d1).1 :: rest
          ∧ createDirectoryCalls rest = []
          ∧ createDirectoryCalls (SaveAsNpy Disk.win32.logged a filename (d, [])).2.2
              = createDirectoryCalls evsDir
          ∧ (∀ q res, Win32Call.CreateDirectoryW q res ∈ evsDir → res = .ok ())
          ∧ MissingChain d (parentOf filename) (createDirectoryCalls evsDir)
          ∧ (∀ L, MissingChain d (parentOf filename) L → createDirectoryCalls evsDir = L)
          ∧ (∀ q ∈ createDirectoryCalls evsDir, q <+: parentOf filename)
          ∧ (∀ q, d1.isDir q = (d.isDir q || decide (q ∈ createDirectoryCalls evsDir)))
          ∧ (∀ payload : List Nat, a.numberOfElements * ty.itemSize < 2 ^ 64 →
              (a.numberOfElements * ty.itemSize ≠ 0 → a.data = some payload) →
              payload.length = a.numberOfElements * ty.itemSize →
              d.isDir filename = false →
              (Disk.CreateFileW filename d1).1 = .ok d.nextHandle
              ∧ (SaveAsNpy Disk.win32.logged a filename (d, [])).1 = .ok ()))
    ∧ (((∀ c ∈ filename, c ≠ '\\' ∧ c ≠ '/')
          ∨ (∃ (x sep : Char) (name : List Char), (sep = '\\' ∨ sep = '/')
              ∧ (∀ c ∈ name, c ≠ '\\' ∧ c ≠ '/') ∧ filename = x :: ':' :: sep :: name)) →
        createDirectoryCalls (SaveAsNpy Disk.win32.logged a filename (d, [])).2.2 = []
        ∧ (∀ payload : List Nat, a.numberOfElements * ty.itemSize < 2 ^ 64 →
            (a.numberOfElements * ty.itemSize ≠ 0 → a.data = some payload) →
            payload.length = a.numberOfElements * ty.itemSize →
            d.isDir filename = false →
            (SaveAsNpy Disk.win32 a filename d).1 = .ok ()
            ∧ (SaveAsNpy Disk.win32.logged a filename (d, [])).1 = .ok ()))
    ∧ ((∀ p : List Char, IsDriveRoot p = true
          ↔ ∃ x, p = [x, ':'] ∨ p = [x, ':', '\\'] ∨ p = [x, ':', '/'])
        ∧ (∀ (x sep : Char) (name : List Char), (sep = '\\' ∨ sep = '/') →
            (∀ c ∈ name, c ≠ '\\' ∧ c ≠ '/') →
            parentOf (x :: ':' :: sep :: name) = [x, ':'])
        ∧ (∀ (p : List Char) (sep : Char) (name : List Char), (sep = '\\' ∨ sep = '/') →
            (∀ c ∈ name, c ≠ '\\' ∧ c ≠ '/') →
            parentOf (p ++ sep :: name) = p)
        ∧ (∀ name : List Char, (∀ c ∈ name, c ≠ '\\' ∧ c ≠ '/') → parentOf name = []))
    ∧ (∀ (σ : Type) (os : Win32 σ) (p : List Char) (s2 s3 s4 : σ),
        os.CreateDirectoryW p s2 = (.error ERROR_ALREADY_EXISTS, s3) →
        PathExistsAsDirectory os p s3 = (true, s4) →
        EnsureDirectoryRecursive.create os p s2 = (.ok (), s4)) := by
  have hslash : ∀ name : List Char, (∀ c ∈ name, c ≠ '\\' ∧ c ≠ '/') →
      ∀ c ∈ name, IsSlash c = false := by
    intro name h c hc
    have := h c hc
    simp [IsSlash, this.1, this.2]
  refine ⟨?_, ?_, ?_, ?_⟩
  · intro hfile
    obtain ⟨L, d1, evs, hrun, hcalls, hres, _, _, hnext, hisdir, hchain, hpre⟩ :=
      EnsureDirectoryRecursive_disk_chain _ (parentOf filename) (Nat.le_refl _) d [] hfile
    rw [List.nil_append] at hrun
    subst hcalls
    have hdir : SaveAsNpy.ensureParent Disk.win32.logged filename (d, [])
        = (.ok (), (d1, evs)) := by
      rw [ensureParent_eq, hrun]
    obtain ⟨rest, hlog, hrest⟩ :=
      SaveAsNpy_logged_after_dir Disk.win32 a filename d d1 [] evs ty hb hty hhdr hdir
    refine ⟨evs, rest, d1, hdir, hlog, hrest, ?_, hres, hchain, ?_, hpre, hisdir, ?_⟩
    · rw [hlog, createDirectoryCalls_append]
      simp only [createDirectoryCalls, hrest, List.append_nil]
    · intro L hL
      exact MissingChain_unique d _ (parentOf filename) (Nat.le_refl _) _ L hchain hL
    · intro payload hsize hdata hlen hnotdir
      obtain ⟨hc1, hc2, hc3, hc4, hc5⟩ := hchain
      have hnotin : filename ∉ createDirectoryCalls evs := by
        intro hin
        have h1 := (hpre filename hin).length_le
        have h2 := parentOf_length filename (hc2 filename hin).1
        omega
      have hd1 : d1.isDir filename = false := by
        rw [hisdir, hnotdir]
        simp [hnotin]
      have hpar : d1.parentExists filename = true := by
        rw [parentExists_eq]
        by_cases hL : createDirectoryCalls evs = []
        · rcases hc5.mp hL with h | h | h
          · simp [h]
          · simp [h]
          · have : d1.isDir (parentOf filename) = true := by
              rw [hisdir, h]
              rfl
            simp [this]
        · obtain ⟨q, hq⟩ := Option.ne_none_iff_exists'.mp
            (fun h => hL (List.getLast?_eq_none_iff.mp h))
          have hqp := hc3 q hq
          have hmem : parentOf filename ∈ createDirectoryCalls evs := by
            rw [← hqp]
            exact List.mem_of_getLast?_eq_some hq
          have : d1.isDir (parentOf filename) = true := by
            rw [hisdir]
            simp [hmem]
          simp [this]
      have hopen : Disk.CreateFileW filename d1
          = (.ok d.nextHandle, (Disk.CreateFileW filename d1).2) := by
        simp [Disk.CreateFileW, hd1, hpar, hnext]
      have hdirP : SaveAsNpy.ensureParent Disk.win32 filename d = (.ok (), d1) := by
        have h := unlog_ensureParent Disk.win32 filename (d, [])
        rw [hdir] at h
        exact h.symm
      have hok := (SaveAsNpy_disk_success a filename d d1 _ ty hb payload d.nextHandle hty hhdr
        hsize hdata hlen hdirP hopen).1
      refine ⟨by rw [hopen], ?_⟩
      have hsim := congrArg Prod.fst (unlog_SaveAsNpy Disk.win32 a filename (d, []))
      simp only [unlog] at hsim
      rw [hsim]
      exact hok
  · intro hcase
    have hnoop : parentOf filename = [] ∨ IsDriveRoot (parentOf filename) = true := by
      rcases hcase with h | ⟨x, sep, name, hsep, hname, hfn⟩
      · exact Or.inl (parentOf_of_no_separator filename
          (find_last_of_none filename (hslash filename h)))
      · refine Or.inr ?_
        rw [hfn, parentOf_under_drive_root x sep name ((IsSlash_iff sep).mpr hsep)
          (hslash name hname)]
        exact (IsDriveRoot_iff _).mpr ⟨x, Or.inl rfl⟩
    have hdirL : SaveAsNpy.ensureParent Disk.win32.logged filename (d, [])
        = (.ok (), (d, [])) := by
      rw [ensureParent_eq, EnsureDirectoryRecursive_noop _ _ _ hnoop]
    have hdirP : SaveAsNpy.ensureParent Disk.win32 filename d = (.ok (), d) := by
      rw [ensureParent_eq, EnsureDirectoryRecursive_noop _ _ _ hnoop]
    obtain ⟨rest, hlog, hrest⟩ :=
      SaveAsNpy_logged_after_dir Disk.win32 a filename d d [] [] ty hb hty hhdr hdirL
    refine ⟨?_, ?_⟩
    · rw [hlog]
      simp only [List.nil_append, createDirectoryCalls]
      exact hrest
    · intro payload hsize hdata hlen hnotdir
      have hpar : d.parentExists filename = true := by
        rw [parentExists_eq, ← IsDriveRoot_eq_isVolumeRoot]
        rcases hnoop with h | h
        · simp [h]
        · simp [h]
      have hopen : Disk.CreateFileW filename d
          = (.ok d.nextHandle, (Disk.CreateFileW filename d).2) := by
        simp [Disk.CreateFileW, hnotdir, hpar]
      have hok := (SaveAsNpy_disk_success a filename d d _ ty hb payload d.nextHandle hty hhdr
        hsize hdata hlen hdirP hopen).1
      refine ⟨hok, ?_⟩
      have hsim := congrArg Prod.fst (unlog_SaveAsNpy Disk.win32 a filename (d, []))
      simp only [unlog] at hsim
      rw [hsim]
      exact hok
  · refine ⟨IsDriveRoot_iff, ?_, ?_, ?_⟩
    · intro x sep name hsep hname
      exact parentOf_under_drive_root x sep name ((IsSlash_iff sep).mpr hsep)
        (hslash name hname)
    · intro p sep name hsep hname
      exact parentOf_append p sep name ((IsSlash_iff sep).mpr hsep) (hslash name hname)
    · intro name hname
      exact parentOf_of_no_separator name (find_last_of_none name (hslash name hname))
  · intro σ os p s2 s3 s4 hc hp
    exact create_already_exists os p s2 s3 s4 hc hp

/-- Witness for C15: a 1x1 double array saved to `C:\a\b\out.npy` on the empty explicit file
system creates `C:\a` and then `C:\a\b` and succeeds; with `C:\a` already a directory only
`C:\a\b` is created; and saved to `C:\out.npy` it creates nothing and succeeds. -/
theorem C15_directory_creation_witness :
    (createDirectoryCalls (SaveAsNpy Disk.win32.logged
          ⟨.mxDOUBLE_CLASS, false, false, [1, 1], 1, some [0, 0, 0, 0, 0, 0, 12, 64]⟩
          "C:\\a\\b\\out.npy".toList (Disk.empty, [])).2.2
        = ["C:\\a".toList, "C:\\a\\b".toList]
      ∧ (SaveAsNpy Disk.win32.logged
          ⟨.mxDOUBLE_CLASS, false, false, [1, 1], 1, some [0, 0, 0, 0, 0, 0, 12, 64]⟩
          "C:\\a\\b\\out.npy".toList (Disk.empty, [])).1 = .ok ())
    ∧ createDirectoryCalls (SaveAsNpy Disk.win32.logged
          ⟨.mxDOUBLE_CLASS, false, false, [1, 1], 1, some [0, 0, 0, 0, 0, 0, 12, 64]⟩
          "C:\\a\\b\\out.npy".toList
          (⟨fun p => decide (p = "C:\\a".toList), fun _ => none, fun _ => none, 0⟩, [])).2.2
        = ["C:\\a\\b".toList]
    ∧ (createDirectoryCalls (SaveAsNpy Disk.win32.logged
          ⟨.mxDOUBLE_CLASS, false, false, [1, 1], 1, some [0, 0, 0, 0, 0, 0, 12, 64]⟩
          "C:\\out.npy".toList (Disk.empty, [])).2.2 = []
      ∧ (SaveAsNpy Disk.win32.logged
          ⟨.mxDOUBLE_CLASS, false, false, [1, 1], 1, some [0, 0, 0, 0, 0, 0, 12, 64]⟩
          "C:\\out.npy".toList (Disk.empty, [])).1 = .ok ()) := by
  have hstop : ∀ (d : Disk) (q : List Char), d.isDir q = false → q ≠ [] →
      Disk.isVolumeRoot q = false →
      ¬ (q = [] ∨ Disk.isVolumeRoot q = true ∨ d.isDir q = true) := by
    intro d q h1 h2 h3 h
    rcases h with h | h | h
    · exact h2 h
    · rw [h3] at h
      cases h
    · rw [h1] at h
      cases h
  refine ⟨?_, ?_, ?_⟩
  · obtain ⟨evs, rest, d1, _, _, _, hall, _, _, huniq, _, _, hok⟩ :=
      (C15_directory_creation
        ⟨.mxDOUBLE_CLASS, false, false, [1, 1], 1, some [0, 0, 0, 0, 0, 0, 12, 64]⟩
        "C:\\a\\b\\out.npy".toList Disk.empty ⟨"<f8".toList, 8⟩
        ⟨1, 0, BuildAlignedHeader (HeaderDict "<f8".toList (BuildShapeTuple
          ⟨.mxDOUBLE_CLASS, false, false, [1, 1], 1, some [0, 0, 0, 0, 0, 0, 12, 64]⟩)) 10⟩
        rfl (by rfl)).1 (fun _ _ _ => rfl)
    refine ⟨?_, (hok [0, 0, 0, 0, 0, 0, 12, 64] (by decide) (fun _ => rfl) rfl rfl).2⟩
    rw [hall]
    refine huniq _ ⟨List.chain'_pair.mpr rfl, by decide, ?_, ?_, ?_⟩
    · intro q hq
      cases hq
      rfl
    · intro q hq
      cases hq
      exact Or.inr (Or.inl rfl)
    · constructor
      · intro h
        cases h
      · intro h
        exact absurd h (hstop _ _ rfl (by decide) rfl)
  · obtain ⟨evs, rest, d1, _, _, _, hall, _, _, huniq, _, _, _⟩ :=
      (C15_directory_creation
        ⟨.mxDOUBLE_CLASS, false, false, [1, 1], 1, some [0, 0, 0, 0, 0, 0, 12, 64]⟩
        "C:\\a\\b\\out.npy".toList
        ⟨fun p => decide (p = "C:\\a".toList), fun _ => none, fun _ => none, 0⟩
        ⟨"<f8".toList, 8⟩
        ⟨1, 0, BuildAlignedHeader (HeaderDict "<f8".toList (BuildShapeTuple
          ⟨.mxDOUBLE_CLASS, false, false, [1, 1], 1, some [0, 0, 0, 0, 0, 0, 12, 64]⟩)) 10⟩
        rfl (by rfl)).1 (fun _ _ _ => rfl)
    rw [hall]
    refine huniq _ ⟨List.chain'_singleton _, by decide, ?_, ?_, ?_⟩
    · intro q hq
      cases hq
      rfl
    · intro q hq
      cases hq
      exact Or.inr (Or.inr rfl)
    · constructor
      · intro h
        cases h
      · intro h
        exact absurd h (hstop _ _ rfl (by decide) rfl)
  · have h := (C15_directory_creation
        ⟨.mxDOUBLE_CLASS, false, false, [1, 1], 1, some [0, 0, 0, 0, 0, 0, 12, 64]⟩
        "C:\\out.npy".toList Disk.empty ⟨"<f8".toList, 8⟩
        ⟨1, 0, BuildAlignedHeader (HeaderDict "<f8".toList (BuildShapeTuple
          ⟨.mxDOUBLE_CLASS, false, false, [1, 1], 1, some [0, 0, 0, 0, 0, 0, 12, 64]⟩)) 10⟩
        rfl (by rfl)).2.1
      (Or.inr ⟨'C', '\\', "out.npy".toList, Or.inl rfl, by decide, rfl⟩)
    exact ⟨h.1, (h.2 [0, 0, 0, 0, 0, 0, 12, 64] (by decide) (fun _ => rfl) rfl rfl).2⟩

/-! ## Lemmas on a second run on the explicit file system -/

/-- On the explicit file system, `WriteAll` of `n` bytes from a buffer that holds at least
`n` bytes, through a handle open on `p`, appends the first `n` bytes to the file `p` and
changes nothing else. -/
theorem WriteAll_disk_post (h : Nat) (p : List Char) (n : Nat) :
    ∀ (data c : List Nat) (d : Disk), d.handle h = some p → d.file p = some c →
      n ≤ data.length →
      ∃ d2, WriteAll Disk.win32 h data n d = (.ok (), d2)
        ∧ d2.handle = d.handle ∧ d2.isDir = d.isDir ∧ d2.nextHandle = d.nextHandle
        ∧ d2.file p = some (c ++ data.take n) := by
  induction n using Nat.strong_induction_on with
  | _ n ih =>
    intro data c d hh hf hlen
    unfold WriteAll
    rw [WriteAll.loop]
    by_cases hn : n > 0
    · obtain ⟨hchunk, hpos, hle, _⟩ := chunk_eq n hn
      have htake : (data.take (min n kChunk)).length = min n kChunk := by
        rw [List.length_take]
        omega
      have hw : Disk.win32.WriteFile h (data.take (min n kChunk)) d
          = (⟨true, min n kChunk, 0⟩,
              { d with file := fun q => if q = p then some ((d.file p).getD [] ++
                  data.take (min n kChunk)) else d.file q }) := by
        show Disk.WriteFile h _ d = _
        simp only [Disk.WriteFile, hh, htake]
      simp only [hn, dite_true, hchunk, hw]
      simp only [ne_eq, not_true_eq_false, or_false, Bool.true_eq_false, dite_false]
      obtain ⟨d2, hrun, hh2, hd2, hn2, hf2⟩ := ih (n - min n kChunk) (by omega)
        (data.drop (min n kChunk)) (c ++ data.take (min n kChunk))
        { d with file := fun q => if q = p then some ((d.file p).getD [] ++
            data.take (min n kChunk)) else d.file q }
        hh (by simp [hf]) (by rw [List.length_drop]; omega)
      refine ⟨d2, hrun, hh2, hd2, hn2, ?_⟩
      rw [hf2, List.append_assoc]
      congr 2
      have hsplit : n = min n kChunk + (n - min n kChunk) := by omega
      conv_rhs => rw [hsplit, List.take_add]
    · have hn0 : n = 0 := by omega
      subst hn0
      simp only [gt_iff_lt, lt_self_iff_false, dite_false]
      exact ⟨d, rfl, rfl, rfl, rfl, by simp [hf]⟩

/-- On the explicit file system, `WriteAll` of more bytes than the buffer holds does not
return normally. -/
theorem WriteAll_disk_short (h : Nat) (p : List Char) (n : Nat) :
    ∀ (data : List Nat) (d : Disk), d.handle h = some p → data.length < n →
      ∃ e, (WriteAll Disk.win32 h data n d).1 = .error e := by
  induction n using Nat.strong_induction_on with
  | _ n ih =>
    intro data d hh hlen
    have hn : n > 0 := by omega
    obtain ⟨hchunk, hpos, hle, _⟩ := chunk_eq n hn
    unfold WriteAll
    rw [WriteAll.loop]
    have hw : Disk.win32.WriteFile h (data.take (min n kChunk)) d
        = (⟨true, (data.take (min n kChunk)).length, 0⟩,
            { d with file := fun q => if q = p then some ((d.file p).getD [] ++
                data.take (min n kChunk)) else d.file q }) := by
      show Disk.WriteFile h _ d = _
      simp only [Disk.WriteFile, hh]
    simp only [hn, dite_true, hchunk, hw]
    by_cases hfull : (data.take (min n kChunk)).length = min n kChunk
    · simp only [hfull, ne_eq, not_true_eq_false, or_false, Bool.true_eq_false, dite_false]
      rw [List.length_take] at hfull
      exact ih (n - min n kChunk) (by omega) (data.drop (min n kChunk)) _ hh
        (by rw [List.length_drop]; omega)
    · simp only [ne_eq, hfull, not_false_eq_true, or_true, dite_true, ThrowMex]
      exact ⟨_, rfl⟩

theorem writeHeader_disk_post (hb : HeaderBlock) (h : Nat) (p : List Char) (c : List Nat)
    (d : Disk) (hh : d.handle h = some p) (hf : d.file p = some c) :
    ∃ d2, SaveAsNpy.writeHeader Disk.win32 hb h d = (.ok (), d2)
      ∧ d2.handle = d.handle ∧ d2.isDir = d.isDir ∧ d2.nextHandle = d.nextHandle
      ∧ d2.file p = some (c ++ headerBytes hb) := by
  obtain ⟨d1, r1, hh1, hd1, hn1, hf1⟩ :=
    WriteAll_disk_post h p 6 magic c d hh hf (Nat.le_refl _)
  obtain ⟨d2, r2, hh2, hd2, hn2, hf2⟩ :=
    WriteAll_disk_post h p 2 [hb.major, hb.minor] (c ++ magic.take 6) d1
      (by rw [hh1]; exact hh) hf1 (Nat.le_refl _)
  have hl : ∃ d3, (if hb.major == 1 then WriteAll Disk.win32 h (lenBytes hb) 2 d2
        else WriteAll Disk.win32 h (lenBytes hb) 4 d2) = (.ok (), d3)
      ∧ d3.handle = d2.handle ∧ d3.isDir = d2.isDir ∧ d3.nextHandle = d2.nextHandle
      ∧ d3.file p = some (c ++ magic.take 6 ++ [hb.major, hb.minor].take 2 ++ lenBytes hb) := by
    have hh2b : d2.handle h = some p := by rw [hh2, hh1]; exact hh
    by_cases hm : hb.major = 1
    · have hm1 : (hb.major == 1) = true := by simp [hm]
      have hlen : (lenBytes hb).length = 2 := by rw [lenBytes_length, if_pos hm]
      simp only [hm1, if_true]
      obtain ⟨d3, r3, a1, a2, a3, a4⟩ :=
        WriteAll_disk_post h p 2 (lenBytes hb) _ d2 hh2b hf2 (by omega)
      refine ⟨d3, r3, a1, a2, a3, ?_⟩
      rw [a4, ← hlen, List.take_length]
    · have hm2 : (hb.major == 1) = false := by simp [hm]
      have hlen : (lenBytes hb).length = 4 := by rw [lenBytes_length, if_neg hm]
      simp only [hm2, Bool.false_eq_true, if_false]
      obtain ⟨d3, r3, a1, a2, a3, a4⟩ :=
        WriteAll_disk_post h p 4 (lenBytes hb) _ d2 hh2b hf2 (by omega)
      refine ⟨d3, r3, a1, a2, a3, ?_⟩
      rw [a4, ← hlen, List.take_length]
  obtain ⟨d3, r3, hh3, hd3, hn3, hf3⟩ := hl
  obtain ⟨d4, r4, hh4, hd4, hn4, hf4⟩ :=
    WriteAll_disk_post h p hb.header.length (hb.header.map Char.toNat) _ d3
      (by rw [hh3, hh2, hh1]; exact hh) hf3 (by rw [List.length_map])
  refine ⟨d4, ?_, ?_, ?_, ?_, ?_⟩
  · simp only [SaveAsNpy.writeHeader, r1, andThen_ok, r2, r3, r4]
  · rw [hh4, hh3, hh2, hh1]
  · rw [hd4, hd3, hd2, hd1]
  · rw [hn4, hn3, hn2, hn1]
  · rw [hf4]
    have e1 : magic.take 6 = magic := rfl
    have e2 : [hb.major, hb.minor].take 2 = [hb.major, hb.minor] := rfl
    have e3 : (hb.header.map Char.toNat).take hb.header.length = hb.header.map Char.toNat := by
      rw [← List.length_map hb.header Char.toNat, List.take_length]
    rw [e1, e2, e3]
    simp only [headerBytes, List.append_assoc]

theorem EnsureDirectoryRecursive_disk_ok_post (p : List Char) (d s1 : Disk)
    (h : EnsureDirectoryRecursive Disk.win32 p d = (.ok (), s1)) :
    p = [] ∨ IsDriveRoot p = true ∨ s1.isDir p = true := by
  rw [EnsureDirectoryRecursive_step] at h
  by_cases hemp : p.isEmpty
  · exact Or.inl (List.isEmpty_iff.mp hemp)
  · rw [if_neg hemp] at h
    by_cases hroot : IsDriveRoot p
    · exact Or.inr (Or.inl hroot)
    · rw [if_neg hroot, PathExistsAsDirectory_disk] at h
      right
      right
      cases hdir : d.isDir p with
      | true =>
        rw [hdir] at h
        simp only [Prod.mk.injEq, true_and] at h
        rw [← h]
        exact hdir
      | false =>
        rw [hdir] at h
        simp only at h
        cases hup : EnsureDirectoryRecursive Disk.win32 (parentOf p) d with
        | mk r s2 =>
          rw [hup] at h
          cases r with
          | error e =>
            rw [andThen_error] at h
            cases h
          | ok u =>
            cases u
            rw [andThen_ok] at h
            by_cases hex : (s2.isDir p || (s2.file p).isSome) = true
            · have hcd : Disk.win32.CreateDirectoryW p s2
                  = (.error ERROR_ALREADY_EXISTS, s2) := by
                show Disk.CreateDirectoryW p s2 = _
                unfold Disk.CreateDirectoryW
                rw [if_pos hex]
              simp only [EnsureDirectoryRecursive.create, hcd, beq_self_eq_true, if_true,
                PathExistsAsDirectory_disk] at h
              cases hd2 : s2.isDir p with
              | true =>
                rw [hd2] at h
                simp only [Prod.mk.injEq, true_and] at h
                rw [← h]
                exact hd2
              | false =>
                rw [hd2] at h
                simp only [ThrowMex, Prod.mk.injEq] at h
                cases h.1
            · by_cases hpar : s2.parentExists p = true
              · have hcd : Disk.win32.CreateDirectoryW p s2
                    = (.ok (), { s2 with isDir := fun q => if q = p then true
                                                              else s2.isDir q }) := by
                  show Disk.CreateDirectoryW p s2 = _
                  unfold Disk.CreateDirectoryW
                  rw [if_neg hex, if_pos hpar]
                simp only [EnsureDirectoryRecursive.create, hcd, Prod.mk.injEq, true_and] at h
                rw [← h]
                simp
              · have hcd : Disk.win32.CreateDirectoryW p s2
                    = (.error ERROR_PATH_NOT_FOUND, s2) := by
                  show Disk.CreateDirectoryW p s2 = _
                  unfold Disk.CreateDirectoryW
                  rw [if_neg hex, if_neg hpar]
                have hne : (ERROR_PATH_NOT_FOUND == ERROR_ALREADY_EXISTS) = false := by decide
                simp only [EnsureDirectoryRecursive.create, hcd, hne, Bool.false_eq_true,
                  if_false, ThrowMex, Prod.mk.injEq] at h
                cases h.1

theorem CreateFileW_disk_post (filename : List Char) (d d2 : Disk) (file : Nat)
    (hopen : Disk.CreateFileW filename d = (.ok file, d2)) :
    d2.handle file = some filename ∧ d2.file filename = some [] ∧ d2.isDir = d.isDir
    ∧ d.isDir filename = false ∧ d.parentExists filename = true := by
  unfold Disk.CreateFileW at hopen
  by_cases h1 : d.isDir filename = true
  · rw [if_pos h1] at hopen
    cases hopen
  · rw [if_neg h1] at hopen
    by_cases h2 : d.parentExists filename = true
    · rw [if_pos h2] at hopen
      simp only [Prod.mk.injEq, Except.ok.injEq] at hopen
      obtain ⟨hfile, hd⟩ := hopen
      subst hd
      subst hfile
      exact ⟨by simp, by simp, rfl, by simpa using h1, h2⟩
    · rw [if_neg h2] at hopen
      cases hopen

/-- On the explicit file system, when the directory step and the open succeed, the payload
size does not overflow and the data buffer holds at least that many bytes, `SaveAsNpy`
returns, the file holds the header bytes followed by the payload bytes, and the directories
are those left by the directory step. -/
theorem SaveAsNpy_disk_content (a : mxArray) (filename : List Char) (d s1 s2 : Disk)
    (ty : TypeInfo) (hb : HeaderBlock) (file : Nat)
    (hty : MapType a = .ok ty)
    (hhdr : BuildNpyHeader (HeaderDict ty.descr (BuildShapeTuple a)) = .ok hb)
    (hdir : SaveAsNpy.ensureParent Disk.win32 filename d = (.ok (), s1))
    (hopen : Disk.CreateFileW filename s1 = (.ok file, s2))
    (hsize : a.numberOfElements * ty.itemSize < 2 ^ 64)
    (hdata : a.numberOfElements * ty.itemSize ≠ 0 →
      ∃ payload, a.data = some payload ∧ a.numberOfElements * ty.itemSize ≤ payload.length) :
    (SaveAsNpy Disk.win32 a filename d).1 = .ok ()
    ∧ (SaveAsNpy Disk.win32 a filename d).2.file filename
        = some (headerBytes hb ++ (a.data.getD []).take (a.numberOfElements * ty.itemSize))
    ∧ (SaveAsNpy Disk.win32 a filename d).2.isDir = s1.isDir := by
  obtain ⟨hh, hf, hdirs, _, _⟩ := CreateFileW_disk_post filename s1 s2 file hopen
  obtain ⟨d3, r3, hh3, hd3, _, hf3⟩ := writeHeader_disk_post hb file filename [] s2 hh hf
  rw [SaveAsNpy_unfold Disk.win32 a filename d s1 s2 ty hb file hty hhdr hdir hopen]
  simp only [SaveAsNpy.writeContents, r3, andThen_ok]
  rw [writePayload_no_overflow Disk.win32 a ty file d3 hsize]
  by_cases hpos : a.numberOfElements * ty.itemSize > 0
  · obtain ⟨payload, hp, hlen⟩ := hdata (by omega)
    rw [if_pos hpos, hp]
    obtain ⟨d4, r4, _, hd4, _, hf4⟩ :=
      WriteAll_disk_post file filename _ payload _ d3 (by rw [hh3]; exact hh) hf3 hlen
    simp only [r4]
    refine ⟨trivial, ?_, ?_⟩
    · show d4.file filename = _
      rw [hf4, List.nil_append]
      rfl
    · show d4.isDir = _
      rw [hd4, hd3, hdirs]
  · rw [if_neg hpos]
    have h0 : a.numberOfElements * ty.itemSize = 0 := by omega
    refine ⟨rfl, ?_, ?_⟩
    · show d3.file filename = _
      rw [hf3, h0, List.take_zero, List.append_nil, List.nil_append]
    · show d3.isDir = _
      rw [hd3, hdirs]

/-- On the explicit file system, a run of `SaveAsNpy` that returned went through every
step: the type and the header were built, the directory step and the open succeeded, the
payload size did not overflow and the data buffer held at least that many bytes. -/
theorem SaveAsNpy_disk_ok_inv (a : mxArray) (filename : List Char) (d : Disk)
    (hok : (SaveAsNpy Disk.win32 a filename d).1 = .ok ()) :
    ∃ (ty : TypeInfo) (hb : HeaderBlock) (s1 s2 : Disk) (file : Nat),
      MapType a = .ok ty
      ∧ BuildNpyHeader (HeaderDict ty.descr (BuildShapeTuple a)) = .ok hb
      ∧ SaveAsNpy.ensureParent Disk.win32 filename d = (.ok (), s1)
      ∧ Disk.CreateFileW filename s1 = (.ok file, s2)
      ∧ a.numberOfElements * ty.itemSize < 2 ^ 64
      ∧ (a.numberOfElements * ty.itemSize ≠ 0 →
          ∃ payload, a.data = some payload
            ∧ a.numberOfElements * ty.itemSize ≤ payload.length) := by
  cases hty : MapType a with
  | error e =>
    simp only [SaveAsNpy, hty] at hok
    cases hok
  | ok ty =>
    cases hhdr : BuildNpyHeader (HeaderDict ty.descr (BuildShapeTuple a)) with
    | error e =>
      simp only [SaveAsNpy, hty, hhdr] at hok
      cases hok
    | ok hb =>
      cases hdir : SaveAsNpy.ensureParent Disk.win32 filename d with
      | mk r s1 =>
        cases r with
        | error e =>
          simp only [SaveAsNpy, hty, hhdr, hdir, andThen_error] at hok
          cases hok
        | ok u =>
          cases u
          cases hopen : Disk.CreateFileW filename s1 with
          | mk r2 s2 =>
            cases r2 with
            | error code =>
              have hopen2 : Disk.win32.CreateFileW filename s1 = (.error code, s2) := hopen
              simp only [SaveAsNpy, hty, hhdr, hdir, andThen_ok, hopen2, ThrowMex] at hok
              cases hok
            | ok file =>
              rw [SaveAsNpy_unfold Disk.win32 a filename d s1 s2 ty hb file hty hhdr hdir
                hopen] at hok
              obtain ⟨hh, hf, _, _, _⟩ := CreateFileW_disk_post filename s1 s2 file hopen
              obtain ⟨d3, r3, hh3, _, _, _⟩ :=
                writeHeader_disk_post hb file filename [] s2 hh hf
              simp only [SaveAsNpy.writeContents, r3, andThen_ok] at hok
              have hsize : a.numberOfElements * ty.itemSize < 2 ^ 64 := by
                by_contra hov
                have hov2 : 2 ^ 64 - 1 < a.numberOfElements * ty.itemSize := by omega
                rw [writePayload_overflow Disk.win32 a ty file d3 hov2] at hok
                cases hok
              refine ⟨ty, hb, s1, s2, file, rfl, hhdr, rfl, hopen, hsize, ?_⟩
              intro hne
              rw [writePayload_no_overflow Disk.win32 a ty file d3 hsize,
                if_pos (by omega)] at hok
              cases hdat : a.data with
              | none =>
                rw [hdat] at hok
                cases hok
              | some payload =>
                rw [hdat] at hok
                refine ⟨payload, rfl, ?_⟩
                by_contra hshort
                obtain ⟨e, he⟩ := WriteAll_disk_short file filename
                  (a.numberOfElements * ty.itemSize) payload d3
                  (by rw [hh3]; exact hh) (by omega)
                simp only at hok
                rw [he] at hok
                cases hok

/-! ## Claims on a second run -/

/-- C12: on the explicit file system, when a conversion succeeded, running it again on the
state it left succeeds as well and leaves the same bytes in the destination; and the bytes
of the destination after any successful conversion of the array, to any path from any
state, are the same. -/
theorem C12_idempotent (a : mxArray) (filename : List Char) (d : Disk)
    (hok : (SaveAsNpy Disk.win32 a filename d).1 = .ok ()) :
    (SaveAsNpy Disk.win32 a filename (SaveAsNpy Disk.win32 a filename d).2).1 = .ok ()
    ∧ (SaveAsNpy Disk.win32 a filename (SaveAsNpy Disk.win32 a filename d).2).2.file filename
        = (SaveAsNpy Disk.win32 a filename d).2.file filename
    ∧ ∃ content, (SaveAsNpy Disk.win32 a filename d).2.file filename = some content
        ∧ ∀ (filename2 : List Char) (d2 : Disk),
            (SaveAsNpy Disk.win32 a filename2 d2).1 = .ok () →
            (SaveAsNpy Disk.win32 a filename2 d2).2.file filename2 = some content := by
  obtain ⟨ty, hb, s1, s2, file, hty, hhdr, hdir, hopen, hsize, hdata⟩ :=
    SaveAsNpy_disk_ok_inv a filename d hok
  obtain ⟨_, hcontent, hdirs⟩ :=
    SaveAsNpy_disk_content a filename d s1 s2 ty hb file hty hhdr hdir hopen hsize hdata
  obtain ⟨_, _, _, hnotdir, hpar⟩ := CreateFileW_disk_post filename s1 s2 file hopen
  have hdir2 : SaveAsNpy.ensureParent Disk.win32 filename (SaveAsNpy Disk.win32 a filename d).2
      = (.ok (), (SaveAsNpy Disk.win32 a filename d).2) := by
    rw [ensureParent_eq] at hdir ⊢
    rcases EnsureDirectoryRecursive_disk_ok_post _ d s1 hdir with h | h | h
    · exact EnsureDirectoryRecursive_noop _ _ _ (Or.inl h)
    · exact EnsureDirectoryRecursive_noop _ _ _ (Or.inr h)
    · rw [EnsureDirectoryRecursive_step]
      by_cases hemp : (parentOf filename).isEmpty
      · rw [if_pos hemp]
      · rw [if_neg hemp]
        by_cases hroot : IsDriveRoot (parentOf filename)
        · rw [if_pos hroot]
        · rw [if_neg hroot, PathExistsAsDirectory_disk, hdirs, h]
  have hopen2 : Disk.CreateFileW filename (SaveAsNpy Disk.win32 a filename d).2
      = (.ok (SaveAsNpy Disk.win32 a filename d).2.nextHandle,
          (Disk.CreateFileW filename (SaveAsNpy Disk.win32 a filename d).2).2) := by
    have h1 : (SaveAsNpy Disk.win32 a filename d).2.isDir filename = false := by
      rw [hdirs]
      exact hnotdir
    have h2 : (SaveAsNpy Disk.win32 a filename d).2.parentExists filename = true := by
      rw [parentExists_eq, hdirs, ← parentExists_eq]
      exact hpar
    simp [Disk.CreateFileW, h1, h2]
  obtain ⟨hok2, hcontent2, _⟩ :=
    SaveAsNpy_disk_content a filename _ _ _ ty hb _ hty hhdr hdir2 hopen2 hsize hdata
  refine ⟨hok2, by rw [hcontent2, hcontent], _, hcontent, ?_⟩
  intro filename2 d2 hok3
  obtain ⟨ty3, hb3, t1, t2, file3, hty3, hhdr3, hdir3, hopen3, hsize3, hdata3⟩ :=
    SaveAsNpy_disk_ok_inv a filename2 d2 hok3
  rw [hty] at hty3
  cases hty3
  rw [hhdr] at hhdr3
  cases hhdr3
  exact (SaveAsNpy_disk_content a filename2 d2 t1 t2 ty hb file3 hty hhdr hdir3 hopen3 hsize
    hdata).2.1

/-- Witness for C12: the 1x1 double array saved twice to `out.npy`, starting from the empty
explicit file system. -/
theorem C12_idempotent_witness :
    (SaveAsNpy Disk.win32
        ⟨.mxDOUBLE_CLASS, false, false, [1, 1], 1, some [0, 0, 0, 0, 0, 0, 12, 64]⟩
        "out.npy".toList
        (SaveAsNpy Disk.win32
          ⟨.mxDOUBLE_CLASS, false, false, [1, 1], 1, some [0, 0, 0, 0, 0, 0, 12, 64]⟩
          "out.npy".toList Disk.empty).2).1 = .ok () :=
  (C12_idempotent
    ⟨.mxDOUBLE_CLASS, false, false, [1, 1], 1, some [0, 0, 0, 0, 0, 0, 12, 64]⟩
    "out.npy".toList Disk.empty
    (SaveAsNpy_disk_success
      ⟨.mxDOUBLE_CLASS, false, false, [1, 1], 1, some [0, 0, 0, 0, 0, 0, 12, 64]⟩
      "out.npy".toList Disk.empty Disk.empty (Disk.CreateFileW "out.npy".toList Disk.empty).2
      ⟨"<f8".toList, 8⟩
      ⟨1, 0, BuildAlignedHeader (HeaderDict "<f8".toList (BuildShapeTuple
        ⟨.mxDOUBLE_CLASS, false, false, [1, 1], 1, some [0, 0, 0, 0, 0, 0, 12, 64]⟩)) 10⟩
      [0, 0, 0, 0, 0, 0, 12, 64] 0 rfl (by rfl) (by decide) (fun _ => rfl) rfl rfl rfl).1).1

end BaaSave
